import Mathlib

/-! # kioto: a middleware pipeline around an HTTP exchange

A shallow embedding of the `kioto` HTTP client toolkit (package `kioto` and its
`middlewares/...` packages) together with theorems about its behaviour.

Conventions of the embedding:

* A Go handler `func(*http.Request) (*http.Response, error)` may have side
  effects (counters, logs, the network).  It is embedded as a function that
  threads an explicit world `σ`.
* Go pointers that may be `nil` are embedded as `Option`.
* `*cliware.Chain` values are shared and mutated through pointers; they live in
  an explicit store (`cliware.Heap`) and are referred to by their index.
* Functions of the Go standard library and package constants that are declared
  outside the embedded files are collected in `Platform`.
-/

namespace Kioto

/-! ## Standard library data -/

/-- Go `error` values.  `io.EOF` is a distinguished value: an error created with
the same message is a different error. -/
inductive Error where
  | EOF
  | mk (msg : String)
  deriving DecidableEq, Repr

/-- Go `net/url.URL`, the fields this library touches. -/
structure NetURL where
  Scheme : String := ""
  Host : String := ""
  Path : String := ""
  RawQuery : String := ""
  deriving DecidableEq, Repr

/-- Go `http.Header`: canonical key to list of values. -/
abbrev HttpHeader := List (String × List String)

/-- An `io.ReadCloser` used as a body: the bytes still unread, what `Close`
answers, and how often `Read` and `Close` were called. -/
structure Body where
  data : String := ""
  closeErr : Option Error := none
  reads : Nat := 0
  closes : Nat := 0
  deriving DecidableEq, Repr

/-- The method `Body.Close()`. -/
def Body.Close (b : Body) : Option Error × Body :=
  (b.closeErr, { b with closes := b.closes + 1 })

/-- Go `*http.Response` (the pointee). -/
structure HttpResponse where
  StatusCode : Int := 0
  Header : HttpHeader := []
  Body : Option Body := none
  deriving DecidableEq, Repr

/-- What a handler returns: `(*http.Response, error)`. -/
abbrev Result := Option HttpResponse × Option Error

namespace retry

/-- Modelled from the spec: the type `retry.Classifier`, a pure predicate
`(response, error) → bool` deciding whether an exchange should be retried. -/
abbrev Classifier := Option HttpResponse → Option Error → Bool

end retry

namespace headers

/-- The type `headers.Header`: what `FromContext` looks for in a context. -/
structure Header where
  Key : String
  Value : List String
  deriving DecidableEq, Repr

end headers

/-- A value stored in a `context.Context`, by dynamic type. -/
inductive CtxValue where
  | header (h : headers.Header)
  | headerList (hs : List headers.Header)
  | classifier (k : retry.Classifier)
  | times (n : Nat)
  | other (v : String)

/-- Go `context.Context` (non-nil): the values it carries, newest first, and
what `Err()` answers (nil unless the context is cancelled). -/
structure Context where
  values : List (String × CtxValue) := []
  err : Option Error := none

/-- The function `context.Background()`. -/
def Context.Background : Context := { values := [] }

/-- The function `context.WithValue(ctx, key, val)`. -/
def Context.WithValue (ctx : Context) (key : String) (val : CtxValue) : Context :=
  { ctx with values := (key, val) :: ctx.values }

/-- The method `ctx.Value(key)`; `none` is Go `nil`. -/
def Context.Value (ctx : Context) (key : String) : Option CtxValue :=
  (ctx.values.find? (fun kv => kv.1 == key)).map (fun kv => kv.2)

/-- The method `ctx.Err()`. -/
def Context.Err (ctx : Context) : Option Error := ctx.err

/-- Go `*http.Request` (the pointee), the fields this library touches.
`GetBody` is the body provider: what a call of it answers. -/
structure HttpRequest where
  Method : String := ""
  URL : NetURL := {}
  Header : HttpHeader := []
  Body : Option Body := none
  ContentLength : Int := 0
  GetBody : Option (Except Error Kioto.Body) := none
  ctx : Context := Context.Background

/-- The method `req.Context()`. -/
def HttpRequest.Context (req : HttpRequest) : Kioto.Context := req.ctx

/-- The method `req.WithContext(ctx)` for a non-nil `ctx`: a copy of the request
carrying `ctx`. -/
def HttpRequest.WithContext (req : HttpRequest) (ctx : Kioto.Context) : HttpRequest :=
  { req with ctx := ctx }

/-- The methods `http.MethodGet` ... `http.MethodTrace`. -/
def MethodGet : String := "GET"
def MethodHead : String := "HEAD"
def MethodPost : String := "POST"
def MethodPut : String := "PUT"
def MethodPatch : String := "PATCH"
def MethodDelete : String := "DELETE"
def MethodConnect : String := "CONNECT"
def MethodOptions : String := "OPTIONS"
def MethodTrace : String := "TRACE"

/-! ## Package `cliware` -/

namespace cliware

/-- Modelled from the spec: the type `cliware.Handler` (with `HandlerFunc`), the
atomic unit of work, a function from an outgoing request to (response, error).
Its effects are made explicit by threading the world `σ`. -/
abbrev Handler (σ : Type) := HttpRequest → σ → Result × σ

/-- Modelled from the spec: the type `cliware.Middleware` (with
`MiddlewareFunc`): given a handler, produce a handler. -/
abbrev Middleware (σ : Type) := Handler σ → Handler σ

/-- Modelled from the spec: the adapter `cliware.HandlerFunc`, a trivial
wrapper that lets a bare function be a handler. -/
def HandlerFunc {σ : Type} (f : HttpRequest → σ → Result × σ) : Handler σ := f

/-- Modelled from the spec: the adapter `cliware.MiddlewareFunc`, a trivial
wrapper that lets a bare function be a middleware. -/
def MiddlewareFunc {σ : Type} (f : Handler σ → Handler σ) : Middleware σ := f

/-- Modelled from the spec: `cliware.RequestProcessor`, a middleware made of a
request-setup function.  The function may modify the request; an error it
reports short-circuits the pipeline and is returned unwrapped, otherwise the
request is forwarded to the next handler. -/
def RequestProcessor {σ : Type} (rp : HttpRequest → HttpRequest × Option Error) :
    Middleware σ :=
  fun next req w =>
    match rp req with
    | (_, some err) => ((none, some err), w)
    | (req', none) => next req' w

/-- Modelled from the spec: `cliware.ResponseProcessor`, a middleware made of a
function that inspects what the next handler returned (and may consume the
response body or write to a destination).  The response is forwarded, the
error is the one the function returns. -/
def ResponseProcessor {σ : Type}
    (rp : Option HttpResponse → Option Error → σ → (Option HttpResponse × Option Error) × σ) :
    Middleware σ :=
  fun next req w =>
    let (res, w1) := next req w
    rp res.1 res.2 w1

/-- Modelled from the spec: `cliware.EmptyRequest()`, a fresh empty outgoing
request (method, URL, headers and body all unset). -/
def EmptyRequest : HttpRequest := {}

/-- Modelled from the spec: the struct `cliware.Chain`, an ordered sequence of
middlewares with an optional parent reference (an index into the store). -/
structure Chain (σ : Type) where
  middlewares : List (Middleware σ) := []
  parent : Option Nat := none

/-- The store of all chains allocated so far; a `*cliware.Chain` is an index
into it. -/
abbrev Heap (σ : Type) := List (Chain σ)

/-- Modelled from the spec: `cliware.NewChain(middlewares...)`, a new chain
without parent, seeded with the given middlewares. -/
def NewChain {σ : Type} (middlewares : List (Middleware σ)) (h : Heap σ) : Nat × Heap σ :=
  (h.length, h ++ [{ middlewares := middlewares, parent := none }])

/-- Modelled from the spec: `(*Chain).Use(m...)`, appends middlewares in
argument order to the chain's own list. -/
def Chain.Use {σ : Type} (h : Heap σ) (c : Nat) (m : List (Middleware σ)) : Heap σ :=
  h.modify (fun ch => { ch with middlewares := ch.middlewares ++ m }) c

/-- Modelled from the spec: `(*Chain).UseFunc(fn)`, convenience adapter wrapping
a function-typed middleware. -/
def Chain.UseFunc {σ : Type} (h : Heap σ) (c : Nat) (m : Handler σ → Handler σ) : Heap σ :=
  Chain.Use h c [MiddlewareFunc m]

/-- Modelled from the spec: `(*Chain).ChildChain()`, a new chain whose parent
reference is this chain (the parent is referenced, not copied). -/
def Chain.ChildChain {σ : Type} (h : Heap σ) (c : Nat) : Nat × Heap σ :=
  (h.length, h ++ [{ middlewares := [], parent := some c }])

/-- The recursion of `(*Chain).Middlewares()` along the parent references, at
most `fuel` chains deep. -/
def Chain.middlewaresFuel {σ : Type} (h : Heap σ) : Nat → Nat → List (Middleware σ)
  | 0, _ => []
  | fuel + 1, c =>
    match h[c]? with
    | none => []
    | some ch =>
      (match ch.parent with
        | none => []
        | some p => Chain.middlewaresFuel h fuel p) ++ ch.middlewares

/-- Modelled from the spec: `(*Chain).Middlewares()`, the effective list: the
parent's effective list concatenated with this chain's own list.  A chain of
parents in a store of `n` chains is at most `n` long. -/
def Chain.Middlewares {σ : Type} (h : Heap σ) (c : Nat) : List (Middleware σ) :=
  Chain.middlewaresFuel h h.length c

/-- Modelled from the spec: `(*Chain).Exec(handler)`, folds the effective
middleware list over the terminal handler such that the first middleware of
the list becomes the outermost wrapper. -/
def Chain.Exec {σ : Type} (h : Heap σ) (c : Nat) (handler : Handler σ) : Handler σ :=
  (Chain.Middlewares h c).foldr (fun m next => m next) handler

end cliware

open cliware

/-! ## The platform -/

/-- Go `*http.Client` (the pointee): its timeout, what its transport does with
a request, and its method `Do`.  `Do` is code of `net/http` (it hands the
request to the transport, follows redirects, wraps a transport error, applies
the timeout): it is given with the client as a function of the timeout and of
the transport, which `retry.Enable` replaces. -/
structure HttpClient (σ : Type) where
  Timeout : Nat := 0
  Transport : Handler σ
  Do : Nat → Handler σ → Handler σ

/-- What lies outside the embedded files: functions of the Go standard library
and declarations of this repository that the embedded code only uses. -/
structure Platform (σ : Type) where
  /-- The constant `LibraryName` of package `kioto`. -/
  LibraryName : String
  /-- The constant `LibraryVersion` of package `kioto`. -/
  LibraryVersion : String
  /-- The function `runtime.Version()`. -/
  runtimeVersion : String
  /-- The function `textproto.CanonicalMIMEHeaderKey`. -/
  canonicalKey : String → String
  /-- The function `url.Parse`. -/
  urlParse : String → Except Error NetURL
  /-- The transport of an `http.Client` whose `Transport` field is nil. -/
  DefaultTransport : Handler σ
  /-- The method `Do` of the `http.Client` that `New` makes, by timeout and
  transport. -/
  clientDo : Nat → Handler σ → Handler σ
  /-- The function `retry.Enable`, which replaces the transport of the client. -/
  retryEnable : HttpClient σ → HttpClient σ

/-! ## Go `http.Header` -/

/-- The method `Header.Get(key)`: the first value under the canonical key, or
the empty string. -/
def HttpHeader.Get (canon : String → String) (h : HttpHeader) (key : String) : String :=
  match h.find? (fun kv => kv.1 == canon key) with
  | some (_, v :: _) => v
  | _ => ""

/-- The method `Header.Values(key)`: all values under the canonical key. -/
def HttpHeader.Values (canon : String → String) (h : HttpHeader) (key : String) : List String :=
  match h.find? (fun kv => kv.1 == canon key) with
  | some (_, vs) => vs
  | none => []

/-- The method `Header.Del(key)`. -/
def HttpHeader.Del (canon : String → String) (h : HttpHeader) (key : String) : HttpHeader :=
  h.filter (fun kv => !(kv.1 == canon key))

/-- The method `Header.Set(key, value)`: the key now holds exactly `value`. -/
def HttpHeader.Set (canon : String → String) (h : HttpHeader) (key value : String) :
    HttpHeader :=
  if h.any (fun kv => kv.1 == canon key) then
    h.map (fun kv => if kv.1 == canon key then (kv.1, [value]) else kv)
  else h ++ [(canon key, [value])]

/-- The method `Header.Add(key, value)`: `value` is appended to the values of
the key. -/
def HttpHeader.Add (canon : String → String) (h : HttpHeader) (key value : String) :
    HttpHeader :=
  if h.any (fun kv => kv.1 == canon key) then
    h.map (fun kv => if kv.1 == canon key then (kv.1, kv.2 ++ [value]) else kv)
  else h ++ [(canon key, [value])]

/-! ## Package `middlewares/headers` -/

namespace headers

/-- Method sets request method to ongoing request. -/
def Method {σ : Type} (method : String) : Middleware σ :=
  RequestProcessor (fun req => ({ req with Method := method }, none))

/-- Add adds provided header to ongoing request. -/
def Add {σ : Type} (canon : String → String) (header value : String) : Middleware σ :=
  RequestProcessor (fun req =>
    ({ req with Header := HttpHeader.Add canon req.Header header value }, none))

/-- Set sets provided header to ongoing request. -/
def Set {σ : Type} (canon : String → String) (header value : String) : Middleware σ :=
  RequestProcessor (fun req =>
    ({ req with Header := HttpHeader.Set canon req.Header header value }, none))

/-- Del removes provided header from ongoing request. -/
def Del {σ : Type} (canon : String → String) (header : String) : Middleware σ :=
  RequestProcessor (fun req =>
    ({ req with Header := HttpHeader.Del canon req.Header header }, none))

end headers

/-! ## Package `middlewares/url` -/

namespace url

/-- The function `parseURL`: if scheme is not set, but anything else is, the
scheme defaults to HTTPS. -/
def parseURL (parse : String → Except Error NetURL) (rawURL : String) : Except Error NetURL :=
  match parse rawURL with
  | .error err => .error err
  | .ok u =>
    if u.Scheme = "" ∧ (u.Host ≠ "" ∨ u.Path ≠ "") then .ok { u with Scheme := "https" }
    else .ok u

/-- URL parses and sets entire URL to the request. -/
def URL {σ : Type} (parse : String → Except Error NetURL) (rawURL : String) : Middleware σ :=
  RequestProcessor (fun req =>
    match parseURL parse rawURL with
    | .error err => (req, some err)
    | .ok u => ({ req with URL := u }, none))

end url

/-! ## Package `middlewares/body` -/

/-- The dynamic types of an `io.Reader` that `body.Reader` tells apart. -/
inductive IoReader where
  | bytesBuffer (data : String)
  | bytesReader (data : String)
  | stringsReader (data : String)
  | readCloser (b : Body)
  | plain (data : String)
  deriving DecidableEq, Repr

/-- The function `ioutil.NopCloser`. -/
def NopCloser (data : String) : Body := { data := data, closeErr := none }

namespace body

/-- The function `getMethod`. -/
def getMethod (req : HttpRequest) : String :=
  let method := req.Method
  if method = "GET" ∨ method = "" then "POST" else method

/-- Reader sets request body to contain content from provided reader.
Content type header is not set by this middleware. -/
def Reader {σ : Type} (body : Option IoReader) : Middleware σ :=
  RequestProcessor (fun req =>
    let rc : Option Body :=
      match body with
      | none => none
      | some (.readCloser b) => some b
      | some (.bytesBuffer d) => some (NopCloser d)
      | some (.bytesReader d) => some (NopCloser d)
      | some (.stringsReader d) => some (NopCloser d)
      | some (.plain d) => some (NopCloser d)
    let req1 : HttpRequest :=
      match body with
      | some (.bytesBuffer d) => { req with ContentLength := (d.utf8ByteSize : Int) }
      | some (.bytesReader d) => { req with ContentLength := (d.utf8ByteSize : Int) }
      | some (.stringsReader d) => { req with ContentLength := (d.utf8ByteSize : Int) }
      | _ => req
    let req2 : HttpRequest := { req1 with Body := rc }
    ({ req2 with Method := getMethod req2 }, none))

/-- Provider defines an optional func to return a new copy of Body; `provider`
is what a call of the func answers (`none` is a nil func). -/
def Provider {σ : Type} (provider : Option (Except Error Body)) : Middleware σ :=
  RequestProcessor (fun req => ({ req with GetBody := provider }, none))

end body

/-! ## Package `kioto`: options -/

/-- UserAgent holds information about product and version using this library
to be used as part of UserAgent string. -/
structure UserAgent where
  Product : String := ""
  Version : String := ""
  deriving DecidableEq, Repr

/-- IsEmpty checks if UserAgent is set. -/
def UserAgent.IsEmpty (ua : UserAgent) : Bool :=
  ua.Product == "" && ua.Version == ""

/-- String generates the UserAgent string, the format
`"%s/%s %s/%s %s/%s"` filled in. -/
def UserAgent.String {σ : Type} (pf : Platform σ) (ua : UserAgent) : String :=
  ua.Product ++ "/" ++ ua.Version ++ " " ++ pf.LibraryName ++ "/" ++ pf.LibraryVersion
    ++ " " ++ "go" ++ "/" ++ pf.runtimeVersion

/-- HTTPDoer: what is able to send an HTTP request over the wire.  Either a
`*http.Client` or any other implementation of `Do`. -/
inductive HTTPDoer (σ : Type) where
  | httpClient (c : HttpClient σ)
  | other (Do : Handler σ)

/-- The method `Do` of an `HTTPDoer`; for an `*http.Client` it is the `Do` of
`net/http`, with the timeout and the transport the client has when the request
is sent. -/
def HTTPDoer.Do {σ : Type} : HTTPDoer σ → Handler σ
  | .httpClient c => c.Do c.Timeout c.Transport
  | .other d => d

/-- The struct `clientOptions` holds available options for modification on how
Client behaves. -/
structure clientOptions (σ : Type) where
  disableRetry : Bool := false
  middlewares : List (Middleware σ) := []
  potsMiddlewares : List (Middleware σ) := []
  httpClient : Option (HTTPDoer σ) := none
  userAgent : UserAgent := {}
  timeout : Nat := 0

/-- ClientOption defines function type for modifying how doer instance behaves. -/
abbrev ClientOption (σ : Type) := clientOptions σ → clientOptions σ

/-- DisableRetry causes that HTTP requests will not be retried if they failed. -/
def DisableRetry {σ : Type} : ClientOption σ :=
  fun opts => { opts with disableRetry := true }

/-- Middlewares sets default list of middlewares to be used for each request. -/
def Middlewares {σ : Type} (middlewares : List (Middleware σ)) : ClientOption σ :=
  fun opts => { opts with middlewares := middlewares }

/-- PostMiddlewares sets list of middlewares to be used for each request, but
after all middlewares specific to request itself are applied. -/
def PostMiddlewares {σ : Type} (middlewares : List (Middleware σ)) : ClientOption σ :=
  fun opts => { opts with potsMiddlewares := middlewares }

/-- HTTPClient sets instance of Doer to use. -/
def HTTPClient {σ : Type} (sender : HTTPDoer σ) : ClientOption σ :=
  fun opts => { opts with httpClient := some sender }

/-- ProductInfo sets information about product that is using this client. -/
def ProductInfo {σ : Type} (name version : String) : ClientOption σ :=
  fun opts => { opts with userAgent := { Product := name, Version := version } }

/-- Timeout sets maximal duration of a request; only has effect if the
HTTPClient option is not used. -/
def Timeout {σ : Type} (timeout : Nat) : ClientOption σ :=
  fun opts => { opts with timeout := timeout }

/-- The options of `options.go`.  The type `clientOptions` is not exported, so
these are the values of type `ClientOption` that a caller of `New` can pass. -/
def ExportedOption {σ : Type} (opt : ClientOption σ) : Prop :=
  opt = DisableRetry ∨ (∃ ms, opt = Middlewares ms) ∨ (∃ ms, opt = PostMiddlewares ms) ∨
    (∃ s, opt = HTTPClient s) ∨ (∃ p v, opt = ProductInfo p v) ∨ (∃ t, opt = Timeout t)

/-! ## Package `kioto`: client -/

/-- Client is main point of contact with this library.  The three fields are
set once by `New`; the chains they point to are mutable. -/
structure Client (σ : Type) where
  preMiddlewares : Nat
  postMiddlewares : Nat
  doer : HTTPDoer σ

/-- New returns fresh instance of Client configured with provided options. -/
def New {σ : Type} (pf : Platform σ) (options : List (ClientOption σ)) (h : Heap σ) :
    Client σ × Heap σ :=
  let opts : clientOptions σ := options.foldl (fun o opt => opt o) {}
  let sender : HTTPDoer σ :=
    match opts.httpClient with
    | some s => s
    | none =>
      .httpClient { Timeout := opts.timeout, Transport := pf.DefaultTransport, Do := pf.clientDo }
  let sender : HTTPDoer σ :=
    match sender with
    | .httpClient client => if !opts.disableRetry then .httpClient (pf.retryEnable client) else sender
    | .other _ => sender
  let (preMiddlewares, h1) := NewChain opts.middlewares h
  let h2 :=
    if !opts.userAgent.IsEmpty then
      Chain.Use h1 preMiddlewares
        [headers.Set pf.canonicalKey "User-Agent" (opts.userAgent.String pf)]
    else h1
  let (postMiddlewares, h3) := NewChain opts.potsMiddlewares h2
  ({ doer := sender, preMiddlewares := preMiddlewares, postMiddlewares := postMiddlewares }, h3)

/-- Use adds middleware that will be applied to every request made with this client. -/
def Client.Use {σ : Type} (c : Client σ) (m : Middleware σ) (h : Heap σ) : Client σ × Heap σ :=
  (c, Chain.Use h c.preMiddlewares [m])

/-- UseFunc adds middleware defined as function that will be applied to every
request made with this client. -/
def Client.UseFunc {σ : Type} (c : Client σ) (m : Handler σ → Handler σ) (h : Heap σ) :
    Client σ × Heap σ :=
  (c, Chain.UseFunc h c.preMiddlewares m)

/-- UsePost adds middleware that will be applied to every request made with this
client AFTER all request specific middlewares are applied. -/
def Client.UsePost {σ : Type} (c : Client σ) (m : Middleware σ) (h : Heap σ) :
    Client σ × Heap σ :=
  (c, Chain.Use h c.postMiddlewares [m])

/-- UsePostFunc adds middleware defined as a function that will be applied to
every request made with this client AFTER all request specific middlewares. -/
def Client.UsePostFunc {σ : Type} (c : Client σ) (m : Handler σ → Handler σ) (h : Heap σ) :
    Client σ × Heap σ :=
  (c, Chain.UseFunc h c.postMiddlewares m)

/-- The method `sendRequest`: hands the request to the doer. -/
def Client.sendRequest {σ : Type} (c : Client σ) : HttpRequest → σ → Result × σ :=
  fun req w => c.doer.Do req w

/-! ## Package `kioto`: response -/

set_option linter.dupNamespace false in
/-- Response is thin wrapper around http.Response that provides some
convenient behavior. -/
structure Response where
  Response : Option HttpResponse
  Error : Option Error
  deriving DecidableEq, Repr

/-- The function `buildResponse` creates new instance of response based on raw
HTTP response; the pointer it returns is never nil. -/
def buildResponse (rawResponse : Option HttpResponse) (err : Option Error) : Option Response :=
  some { Response := rawResponse, Error := err }

/-- JSON decodes response body to provided structure from JSON format.
`decode` is `json.NewDecoder(body).Decode(target)`: it reads from the body and
fills the target.  The answer is the returned error together with the response
and the target as they are afterwards; `none` is a nil dereference. -/
def Response.JSON {τ : Type} (decode : Body → τ → (Option Kioto.Error × τ) × Body)
    (r : Kioto.Response) (userStruct : τ) : Option (Option Kioto.Error × Kioto.Response × τ) :=
  match r.Error with
  | some e => some (some e, r, userStruct)
  | none =>
    match r.Response with
    | none => none
    | some raw =>
      match raw.Body with
      | none => none
      | some b =>
        let ((derr, target), b1) := decode b userStruct
        let err : Option Kioto.Error :=
          if derr ≠ none ∧ derr ≠ some Kioto.Error.EOF then derr else none
        let (closeErr, b2) := b1.Close
        let err : Option Kioto.Error := if err = none ∧ closeErr ≠ none then closeErr else err
        some (err, { r with Response := some { raw with Body := some b2 } }, target)

/-! ## Package `kioto`: request -/

/-- Request holds information needed to construct HTTP request to send over the wire. -/
structure Request (σ : Type) where
  Client : Client σ
  middlewares : Nat
  context : Option Context

/-- NewRequest creates and returns instance of Request that will use provided
client to send HTTP request and use clients middlewares. -/
def NewRequest {σ : Type} (client : Client σ) (h : Heap σ) : Request σ × Heap σ :=
  let (child, h1) := Chain.ChildChain h client.preMiddlewares
  ({ Client := client, middlewares := child, context := some Context.Background }, h1)

/-- Request creates and returns new instance of Request. -/
def Client.Request {σ : Type} (c : Client σ) (h : Heap σ) : Request σ × Heap σ :=
  NewRequest c h

/-- Context returns currently set context.Context of the request. -/
def Request.Context {σ : Type} (r : Request σ) : Option Kioto.Context := r.context

/-- WithContext sets new context for this request. -/
def Request.WithContext {σ : Type} (r : Request σ) (ctx : Option Kioto.Context) : Request σ :=
  { r with context := ctx }

/-- Use adds middlewares that will be applied to this request only. -/
def Request.Use {σ : Type} (r : Request σ) (m : List (Middleware σ)) (h : Heap σ) :
    Request σ × Heap σ :=
  (r, Chain.Use h r.middlewares m)

/-- UseFunc adds middlewares defined as function that will be applied to this
request only. -/
def Request.UseFunc {σ : Type} (r : Request σ) (m : Handler σ → Handler σ) (h : Heap σ) :
    Request σ × Heap σ :=
  (r, Chain.UseFunc h r.middlewares m)

/-- The handler that `Send` materializes: the request's chain folded over the
client's post chain folded over the sender. -/
def Request.sender {σ : Type} (r : Request σ) (h : Heap σ) : Handler σ :=
  Chain.Exec h r.middlewares
    (Chain.Exec h r.Client.postMiddlewares (HandlerFunc r.Client.sendRequest))

/-- Send constructs HTTP request by combining all middlewares (request specific
and defined in Client), sends request and returns response.  The answer is the
returned pair, the request as it is afterwards, and the world afterwards. -/
def Request.Send {σ : Type} (r : Request σ) (h : Heap σ) (w : σ) :
    (Option Response × Option Error) × Request σ × σ :=
  let sender := r.sender h
  let r1 : Request σ :=
    match r.context with
    | none => { r with context := some Context.Background }
    | some _ => r
  let ctx : Kioto.Context :=
    match r1.context with
    | some c => c
    | none => Context.Background
  let req := EmptyRequest.WithContext ctx
  let (res, w1) := sender req w
  ((buildResponse res.1 res.2, res.2), r1, w1)

/-- Method sets HTTP method (verb) for this request. -/
def Request.Method {σ : Type} (r : Request σ) (method : String) (h : Heap σ) :
    Request σ × Heap σ :=
  r.Use [headers.Method method] h

/-- Get sets HTTP method to GET for this request. -/
def Request.Get {σ : Type} (r : Request σ) (h : Heap σ) : Request σ × Heap σ :=
  r.Method MethodGet h

/-- Post sets HTTP method to POST for this request. -/
def Request.Post {σ : Type} (r : Request σ) (h : Heap σ) : Request σ × Heap σ :=
  r.Method MethodPost h

/-- Put sets HTTP method to Put for this request. -/
def Request.Put {σ : Type} (r : Request σ) (h : Heap σ) : Request σ × Heap σ :=
  r.Method MethodPut h

/-- Delete sets HTTP method to DELETE for this request. -/
def Request.Delete {σ : Type} (r : Request σ) (h : Heap σ) : Request σ × Heap σ :=
  r.Method MethodDelete h

/-- Patch sets HTTP method to PATCH for this request. -/
def Request.Patch {σ : Type} (r : Request σ) (h : Heap σ) : Request σ × Heap σ :=
  r.Method MethodPatch h

/-- Head sets HTTP method to HEAD for this request. -/
def Request.Head {σ : Type} (r : Request σ) (h : Heap σ) : Request σ × Heap σ :=
  r.Method MethodHead h

/-- Options sets HTTP method to OPTIONS for this request. -/
def Request.Options {σ : Type} (r : Request σ) (h : Heap σ) : Request σ × Heap σ :=
  r.Method MethodOptions h

/-- Connect sets HTTP method to CONNECT for this request. -/
def Request.Connect {σ : Type} (r : Request σ) (h : Heap σ) : Request σ × Heap σ :=
  r.Method MethodConnect h

/-- Trace sets HTTP method to Trace for this request. -/
def Request.Trace {σ : Type} (r : Request σ) (h : Heap σ) : Request σ × Heap σ :=
  r.Method MethodTrace h

/-- URL sets url to be used for this request. -/
def Request.URL {σ : Type} (pf : Platform σ) (r : Request σ) (u : String) (h : Heap σ) :
    Request σ × Heap σ :=
  r.Use [url.URL pf.urlParse u] h

/-- Header adds provided headers with provided value to this request. -/
def Request.Header {σ : Type} (pf : Platform σ) (r : Request σ) (key val : String)
    (h : Heap σ) : Request σ × Heap σ :=
  r.Use [headers.Add pf.canonicalKey key val] h

/-- Body sets HTTP body for this request. -/
def Request.Body {σ : Type} (r : Request σ) (reader : Option IoReader) (h : Heap σ) :
    Request σ × Heap σ :=
  r.Use [body.Reader reader] h

/-- Do executes all provided middlewares together with permanent middlewares
(added with Use* methods) and sends request. -/
def Client.Do {σ : Type} (c : Client σ) (ctx : Option Context) (middlewares : List (Middleware σ))
    (h : Heap σ) (w : σ) :
    ((Option Response × Option Error) × Kioto.Request σ × σ) × Heap σ :=
  let (r, h1) := c.Request h
  let (r2, h2) := (r.WithContext ctx).Use middlewares h1
  (r2.Send h2 w, h2)

/-! ## Programs against the API

A program that configures one client and the requests made from it is a
sequence of calls.  The `i`-th request is the one returned by the `i`-th call
of `Client.Request`. -/

/-- A call of a method of the client. -/
inductive ClientCall (σ : Type) where
  | use (m : Middleware σ)
  | useFunc (m : Handler σ → Handler σ)
  | usePost (m : Middleware σ)
  | usePostFunc (m : Handler σ → Handler σ)
  | request

/-- A call of a method of a request, other than `Send`. -/
inductive RequestCall (σ : Type) where
  | use (m : List (Middleware σ))
  | useFunc (m : Handler σ → Handler σ)
  | withContext (ctx : Option Context)
  | method (method : String)
  | get
  | post
  | put
  | delete
  | patch
  | head
  | options
  | connect
  | trace
  | url (u : String)
  | header (key val : String)
  | body (reader : Option IoReader)

/-- A call on the client, or on the `i`-th request. -/
inductive Call (σ : Type) where
  | onClient (c : ClientCall σ)
  | onRequest (i : Nat) (c : RequestCall σ)

/-- The state of a program: the chain store, the client, the requests made. -/
structure Session (σ : Type) where
  heap : Heap σ
  client : Client σ
  requests : List (Request σ)

/-- The program starts with `New(options...)`. -/
def Session.start {σ : Type} (pf : Platform σ) (options : List (ClientOption σ))
    (h : Heap σ) : Session σ :=
  let (c, h1) := New pf options h
  { heap := h1, client := c, requests := [] }

/-- Runs a call on the client. -/
def ClientCall.run {σ : Type} (s : Session σ) : ClientCall σ → Session σ
  | .use m => { s with heap := (s.client.Use m s.heap).2 }
  | .useFunc m => { s with heap := (s.client.UseFunc m s.heap).2 }
  | .usePost m => { s with heap := (s.client.UsePost m s.heap).2 }
  | .usePostFunc m => { s with heap := (s.client.UsePostFunc m s.heap).2 }
  | .request =>
    let (r, h1) := s.client.Request s.heap
    { s with heap := h1, requests := s.requests ++ [r] }

/-- Runs a call on a request. -/
def RequestCall.run {σ : Type} (pf : Platform σ) (r : Request σ) (h : Heap σ) :
    RequestCall σ → Request σ × Heap σ
  | .use m => r.Use m h
  | .useFunc m => r.UseFunc m h
  | .withContext ctx => (r.WithContext ctx, h)
  | .method m => r.Method m h
  | .get => r.Get h
  | .post => r.Post h
  | .put => r.Put h
  | .delete => r.Delete h
  | .patch => r.Patch h
  | .head => r.Head h
  | .options => r.Options h
  | .connect => r.Connect h
  | .trace => r.Trace h
  | .url u => r.URL pf u h
  | .header k v => r.Header pf k v h
  | .body rd => r.Body rd h

/-- Runs one call; a call on a request that was never made does nothing. -/
def Session.step {σ : Type} (pf : Platform σ) (s : Session σ) : Call σ → Session σ
  | .onClient c => c.run s
  | .onRequest i c =>
    match s.requests[i]? with
    | none => s
    | some r =>
      let (r1, h1) := c.run pf r s.heap
      { s with heap := h1, requests := s.requests.set i r1 }

/-- Runs a sequence of calls. -/
def Session.run {σ : Type} (pf : Platform σ) (s : Session σ) (calls : List (Call σ)) :
    Session σ :=
  calls.foldl (Session.step pf) s

/-- The states a program can be in: `New` followed by any sequence of calls. -/
def Session.Reachable {σ : Type} (pf : Platform σ) (s : Session σ) : Prop :=
  ∃ (options : List (ClientOption σ)) (h : Heap σ) (calls : List (Call σ)),
    s = Session.run pf (Session.start pf options h) calls

/-! ## The list view of a program

What the specification says the calls mean, in terms of plain lists: the
pre-middlewares and post-middlewares of the client, and for every request the
middlewares of its own, each in insertion order. -/

/-- The lists a program has built. -/
structure Lists (σ : Type) where
  pre : List (Middleware σ)
  post : List (Middleware σ)
  own : List (List (Middleware σ))

/-- The middlewares a call on a request appends to the request's own list. -/
def RequestCall.added {σ : Type} (pf : Platform σ) : RequestCall σ → List (Middleware σ)
  | .use m => m
  | .useFunc m => [MiddlewareFunc m]
  | .withContext _ => []
  | .method m => [headers.Method m]
  | .get => [headers.Method "GET"]
  | .post => [headers.Method "POST"]
  | .put => [headers.Method "PUT"]
  | .delete => [headers.Method "DELETE"]
  | .patch => [headers.Method "PATCH"]
  | .head => [headers.Method "HEAD"]
  | .options => [headers.Method "OPTIONS"]
  | .connect => [headers.Method "CONNECT"]
  | .trace => [headers.Method "TRACE"]
  | .url u => [url.URL pf.urlParse u]
  | .header k v => [headers.Add pf.canonicalKey k v]
  | .body rd => [body.Reader rd]

/-- The lists after `New`: what the two chains of the client hold, and no
request. -/
def Lists.start {σ : Type} (s : Session σ) : Lists σ :=
  { pre := Chain.Middlewares s.heap s.client.preMiddlewares
    post := Chain.Middlewares s.heap s.client.postMiddlewares
    own := [] }

/-- One call in the list view: `Use` on the client appends to `pre`, `UsePost`
to `post`, `Request` starts a new empty own list, a call on request `i` appends
to the own list of request `i` and to nothing else. -/
def Lists.step {σ : Type} (pf : Platform σ) (g : Lists σ) : Call σ → Lists σ
  | .onClient (.use m) => { g with pre := g.pre ++ [m] }
  | .onClient (.useFunc m) => { g with pre := g.pre ++ [MiddlewareFunc m] }
  | .onClient (.usePost m) => { g with post := g.post ++ [m] }
  | .onClient (.usePostFunc m) => { g with post := g.post ++ [MiddlewareFunc m] }
  | .onClient .request => { g with own := g.own ++ [[]] }
  | .onRequest i c => { g with own := g.own.modify (fun l => l ++ c.added pf) i }

/-- A sequence of calls in the list view. -/
def Lists.run {σ : Type} (pf : Platform σ) (g : Lists σ) (calls : List (Call σ)) : Lists σ :=
  calls.foldl (Lists.step pf) g

/-! ## Shapes of middlewares -/

/-- A middleware that delegates to next exactly once: it runs a before-next
phase on the request, hands the request to next, and runs an after-next phase
on what next returned. -/
structure Phases (σ : Type) where
  before : HttpRequest → σ → HttpRequest × σ
  after : Result → σ → Result × σ

/-- The middleware with the given two phases. -/
def Phases.toMiddleware {σ : Type} (p : Phases σ) : Middleware σ :=
  fun next req w =>
    let (req1, w1) := p.before req w
    let (res, w2) := next req1 w1
    p.after res w2

/-- The middleware returns what next returned, unchanged (it may still look at
it). -/
def Phases.Forwards {σ : Type} (p : Phases σ) : Prop :=
  ∀ res w, (p.after res w).1 = res

/-- Runs the before-next phases of the list, first to last. -/
def runBefore {σ : Type} (ps : List (Phases σ)) (x : HttpRequest × σ) : HttpRequest × σ :=
  ps.foldl (fun x p => p.before x.1 x.2) x

/-- Runs the after-next phases of the list, first to last. -/
def runAfter {σ : Type} (ps : List (Phases σ)) (x : Result × σ) : Result × σ :=
  ps.foldl (fun x p => p.after x.1 x.2) x

/-- A middleware that does not call next and returns `(nil, e)`; `f` is what
else it does. -/
def failWith {σ : Type} (e : Error) (f : HttpRequest → σ → σ) : Middleware σ :=
  fun _next req w => ((none, some e), f req w)

/-- How the store of a program relates to its list view.  The two chains of
the client sit at `base` and `base + 1` and have no parent; the chain of the
`i`-th request sits at `base + 2 + i`, its parent is the pre chain of the
client, and it holds the own list of the request. -/
structure Session.Inv {σ : Type} (base : Nat) (s : Session σ) (g : Lists σ) : Prop where
  pre_eq : s.client.preMiddlewares = base
  post_eq : s.client.postMiddlewares = base + 1
  length_eq : s.heap.length = base + 2 + s.requests.length
  pre_cell : s.heap[base]? = some { middlewares := g.pre, parent := none }
  post_cell : s.heap[base + 1]? = some { middlewares := g.post, parent := none }
  own_length : g.own.length = s.requests.length
  request_cell : ∀ (i : Nat) (r : Request σ), s.requests[i]? = some r →
    r.middlewares = base + 2 + i ∧ r.Client = s.client ∧
      ∃ own, g.own[i]? = some own ∧
        s.heap[base + 2 + i]? = some { middlewares := own, parent := some base }


/-! ## Errors made by the library -/

set_option linter.dupNamespace false in
/-- The method `Error()` of an error: its message. -/
def Error.Error : Kioto.Error → String
  | .EOF => "EOF"
  | .mk msg => msg

/-- Stands for the panic of a nil dereference, which a handler has no other way
to answer with. -/
def nilDereference : Error :=
  Error.mk "runtime error: invalid memory address or nil pointer dereference"

/-! ## Package `middlewares/headers`: context and response headers -/

namespace headers

/-- FromContext adds header to request that is defined in context with provided
key. -/
def FromContext {σ : Type} (canon : String → String) (key : String) : Middleware σ :=
  MiddlewareFunc (fun next => HandlerFunc (fun req w =>
    match req.Context.Value key with
    | some (.header header) =>
      next { req with
        Header := header.Value.foldl (fun h v => HttpHeader.Set canon h header.Key v)
          req.Header } w
    | some (.headerList header) =>
      next { req with
        Header := header.foldl
          (fun h hh => hh.Value.foldl (fun h v => HttpHeader.Set canon h hh.Key v) h)
          req.Header } w
    | _ =>
      ((none, some (Error.mk "headers.FromContext middleware: value in unsupported format")),
        w)))

/-- ToContext adds headers to context that can be used with FromContext
middleware. -/
def ToContext (ctx : Context) (key : String) (header : String) (values : List String) :
    Context :=
  ctx.WithValue key (.header { Key := header, Value := values })

/-- ToContextList adds list of headers to context that can be used with
FromContext middleware. -/
def ToContextList (ctx : Context) (key : String) (h : List Header) : Context :=
  ctx.WithValue key (.headerList h)

/-- The destination of `ReadValue` by dynamic type: a `*int` or a `*string`,
given by what a store through the pointer does, or a value of another type,
given by the name of its type. -/
inductive Destination (σ : Type) where
  | int (store : Int → σ → σ)
  | string (store : String → σ → σ)
  | unknown (typeName : String)

/-- ReadValue reads header value with provided key and stores it in address of
destination.  `parseInt` is `strconv.ParseInt(val, 10, 64)`. -/
def ReadValue {σ : Type} (canon : String → String) (parseInt : String → Except Error Int)
    (key : String) (destination : Destination σ) : Middleware σ :=
  ResponseProcessor (fun resp err w =>
    match err with
    | some e => ((resp, some e), w)
    | none =>
      match resp with
      | none => ((none, some nilDereference), w)
      | some rsp =>
        let val := HttpHeader.Get canon rsp.Header key
        match destination with
        | .int store =>
          match parseInt val with
          | .error e =>
            ((resp, some (Error.mk ("header value conversion to int failed: " ++ e.Error))), w)
          | .ok conv => ((resp, none), store conv w)
        | .string store => ((resp, none), store val w)
        | .unknown typeName =>
          ((resp, some (Error.mk ("read header: unknown type: " ++ typeName))), w))

end headers

/-! ## Package `middlewares/responsebody` -/

namespace responsebody

/-- JSON decodes response body from JSON format into provided interface.
`readAll` is `ioutil.ReadAll`, `unmarshal` is `json.Unmarshal` into the
provided value. -/
def JSON {σ : Type} (readAll : Body → (String × Option Error) × Body)
    (unmarshal : String → σ → Option Error × σ) : Middleware σ :=
  ResponseProcessor (fun resp err w =>
    match err with
    | some e => ((resp, some e), w)
    | none =>
      match resp with
      | none => ((none, some nilDereference), w)
      | some rsp =>
        match rsp.Body with
        | none => ((resp, some nilDereference), w)
        | some b =>
          let ((rawData, rerr), b1) := readAll b
          let closed : Option HttpResponse := some { rsp with Body := some b1.Close.2 }
          match rerr with
          | some e => ((closed, some e), w)
          | none =>
            let (uerr, w1) := unmarshal rawData w
            ((closed, uerr), w1))

/-- String reads response body, converts it to string and writes it to provided
string pointer; `store` is the store through that pointer. -/
def String {σ : Type} (readAll : Body → (String × Option Error) × Body)
    (store : String → σ → σ) : Middleware σ :=
  ResponseProcessor (fun resp err w =>
    match err with
    | some e => ((resp, some e), w)
    | none =>
      match resp with
      | none => ((none, some nilDereference), w)
      | some rsp =>
        match rsp.Body with
        | none => ((resp, some nilDereference), w)
        | some b =>
          let ((rawData, rerr), b1) := readAll b
          let closed : Option HttpResponse := some { rsp with Body := some b1.Close.2 }
          match rerr with
          | some e => ((closed, some e), w)
          | none => ((closed, none), store rawData w))

/-- Writer reads response body and writes it to provided writer; `copy` is
`io.Copy` into that writer. -/
def Writer {σ : Type} (copy : Body → σ → (Option Error × Body) × σ) : Middleware σ :=
  ResponseProcessor (fun resp err w =>
    match err with
    | some e => ((resp, some e), w)
    | none =>
      match resp with
      | none => ((none, some nilDereference), w)
      | some rsp =>
        match rsp.Body with
        | none => ((resp, some nilDereference), w)
        | some b =>
          let ((cerr, b1), w1) := copy b w
          ((some { rsp with Body := some b1.Close.2 }, cerr), w1))

end responsebody

/-! ## Package `middlewares/retry` -/

namespace retry

/-- Modelled from the spec: `retry.OrClassifier(cs...)`, explicit composition of
classifiers by logical OR, in order; an empty set yields false. -/
def OrClassifier : List Classifier → Classifier
  | [], _, _ => false
  | c :: cs, resp, err => if c resp err then true else OrClassifier cs resp err

/-- The loop of `AndClassifier` over a set that is not empty. -/
def AndClassifier.loop : List Classifier → Classifier
  | [], _, _ => true
  | c :: cs, resp, err => if c resp err then AndClassifier.loop cs resp err else false

/-- Modelled from the spec: `retry.AndClassifier(cs...)`, explicit composition
of classifiers by logical AND; an empty set yields false. -/
def AndClassifier (cs : List Classifier) : Classifier :=
  fun resp err => if cs.length = 0 then false else AndClassifier.loop cs resp err

/-- The context key under which `SetClassifier` installs a classifier; it is
private to the package. -/
def classifierKey : String := "retry.classifier"

/-- The context key under which `Times` sets the attempt count; it is private
to the package. -/
def timesKey : String := "retry.times"

/-- Modelled from the spec: `retry.SetClassifier(fn)`, a pipeline middleware
that installs a predicate on the request. -/
def SetClassifier {σ : Type} (fn : Classifier) : Middleware σ :=
  RequestProcessor (fun req =>
    (req.WithContext (req.Context.WithValue classifierKey (.classifier fn)), none))

/-- Modelled from the spec: `retry.Times(n)`, a pipeline middleware that sets
the maximum attempt count (1 = no retry). -/
def Times {σ : Type} (n : Nat) : Middleware σ :=
  RequestProcessor (fun req =>
    (req.WithContext (req.Context.WithValue timesKey (.times n)), none))

/-- The classifiers installed on a request, in registration order. -/
def classifiers (ctx : Context) : List Classifier :=
  ctx.values.reverse.filterMap (fun kv =>
    if kv.1 == classifierKey then
      match kv.2 with
      | .classifier k => some k
      | _ => none
    else none)

/-- Modelled from the spec: the effective classifier; multiple classifiers
combine by logical OR in registration order. -/
def effectiveClassifier (ctx : Context) : Classifier :=
  OrClassifier (classifiers ctx)

/-- The maximum attempt count set on a request, or `defaultTimes` (which the
spec leaves open) when none is set. -/
def maxAttempts (defaultTimes : Nat) (ctx : Context) : Nat :=
  match ctx.Value timesKey with
  | some (.times n) => n
  | _ => defaultTimes

/-- Modelled from the spec: request-body replay, asked when another attempt is
considered, in the world the exchange has left.  `consumed` tells whether a
body has been consumed in that world.  Without a body the request is sent
again as it is; with a body provider that produces a fresh reader it is sent
with the fresh body; if no provider is available and the body has been
consumed, retry is skipped (`none`); a body that has not been consumed is sent
again as it is. -/
def replay {σ : Type} (consumed : Body → σ → Bool) (req : HttpRequest) (w : σ) :
    Option HttpRequest :=
  match req.Body with
  | none => some req
  | some b =>
    match req.GetBody with
    | some (.ok fresh) => some { req with Body := some fresh }
    | _ => if consumed b w then none else some req

/-- The request of a further attempt, when one is made: with a fresh body from
the body provider if the request has a body and the provider produces one, as
it is otherwise. -/
def resent (req : HttpRequest) : HttpRequest :=
  match req.Body, req.GetBody with
  | some _, some (.ok fresh) => { req with Body := some fresh }
  | _, _ => req

/-- Modelled from the spec: the retry loop with `left` attempts left after
this one.  Perform the exchange; invoke the classifier on the (resp, err)
pair; if it returns true and the attempt budget is not exhausted and the
context is not cancelled, try again (the discarded response body is drained
and closed and the backoff is waited for, neither of which leaves a trace
here).  A cancelled context aborts the loop and surfaces the context error.
The final (resp, err) is returned. -/
def attempts {σ : Type} (consumed : Body → σ → Bool) (transport : Handler σ) (k : Classifier) :
    Nat → HttpRequest → σ → Result × σ
  | 0, req, w => transport req w
  | left + 1, req, w =>
    let (res, w1) := transport req w
    if k res.1 res.2 then
      match req.Context.Err with
      | some e => ((none, some e), w1)
      | none =>
        match replay consumed req w1 with
        | none => (res, w1)
        | some req1 => attempts consumed transport k left req1 w1
    else (res, w1)

/-- Modelled from the spec: the round-tripper that wraps the underlying
transport: the retry loop with the classifier and attempt count installed on
the request. -/
def RoundTrip {σ : Type} (defaultTimes : Nat) (consumed : Body → σ → Bool)
    (transport : Handler σ) : Handler σ :=
  fun req w =>
    attempts consumed transport (effectiveClassifier req.Context)
      (maxAttempts defaultTimes req.Context - 1) req w

/-- Modelled from the spec: `retry.Enable(client)`, attaches the retry
capability by replacing the sender's transport with a decorator. -/
def Enable {σ : Type} (defaultTimes : Nat) (consumed : Body → σ → Bool)
    (client : HttpClient σ) : HttpClient σ :=
  { client with Transport := RoundTrip defaultTimes consumed client.Transport }

end retry

/-- The request can be sent again whatever the exchange does: it has no body,
or its body provider produces a fresh body, or the body is never consumed. -/
def retry.Resendable {σ : Type} (consumed : Body → σ → Bool) (req : HttpRequest) : Prop :=
  req.Body = none ∨ (∃ fresh, req.GetBody = some (.ok fresh)) ∨
    (∀ b, req.Body = some b → ∀ w : σ, consumed b w = false)

/-! ## Test doubles

The doubles of `mocks_test.go` and of the tests, over a world that records
what happened. -/

/-- What the doubles record, in the order in which it happened. -/
inductive Event where
  | before (n : Nat)
  | after (n : Nat)
  | sent
  | saw (err : Option Error)
  deriving DecidableEq, Repr

/-- The world of the tests: the record of the middlewares, the fields
`noCalls` and `lastRequest` of `trackClient`, and the request bodies that have
been read to their end. -/
structure World where
  log : List Event := []
  noCalls : Nat := 0
  lastRequest : Option HttpRequest := none
  read : List Body := []

/-- The double `trackClient` with its method `Do`: counts the call, keeps the
request, answers with the configured status code and error; the call is also
put on record. -/
def trackClient (responseCode : Int) (err : Option Error) : Handler World :=
  fun req w =>
    ((some { StatusCode := responseCode }, err),
      { w with log := w.log ++ [Event.sent], noCalls := w.noCalls + 1,
               lastRequest := some req })

/-- A transport that reads the body of the request to its end before it
answers, as the transport of `net/http` does; otherwise as `trackClient`. -/
def readingClient (responseCode : Int) (err : Option Error) : Handler World :=
  fun req w =>
    ((some { StatusCode := responseCode }, err),
      { w with log := w.log ++ [Event.sent], noCalls := w.noCalls + 1,
               lastRequest := some req, read := w.read ++ req.Body.toList })

/-- Whether a body has been consumed in a world of the tests. -/
def World.consumed (b : Body) (w : World) : Bool := w.read.contains b

/-- The double `trackMiddleware`, number `n`: records that it was called and
delegates to next; it also records when next has returned. -/
def trackMiddleware (n : Nat) : Phases World :=
  { before := fun req w => (req, { w with log := w.log ++ [Event.before n] })
    after := fun res w => (res, { w with log := w.log ++ [Event.after n] }) }

/-- The middleware of `TestStopPropagationOnError` that delegates to next and
records the error next returned. -/
def detectError : Phases World :=
  { before := fun req w => (req, w)
    after := fun res w => (res, { w with log := w.log ++ [Event.saw res.2] }) }

/-- A middleware that translates whatever next returned into its own error,
made with `cliware.ResponseProcessor`. -/
def translateError (e : Error) : Middleware World :=
  ResponseProcessor (fun resp _ w => ((resp, some e), w))

/-- The string in double quotes, as `strconv.Quote` writes a string without
special characters. -/
def quoted (s : String) : String :=
  String.singleton (Char.ofNat 34) ++ s ++ String.singleton (Char.ofNat 34)

/-- A stand-in for `url.URL.String` in the examples, for a URL of scheme, host,
path and query. -/
def exampleURLString (u : NetURL) : String :=
  (if u.Scheme = "" then "" else u.Scheme ++ ":") ++ (if u.Host = "" then "" else "//" ++ u.Host)
    ++ u.Path ++ (if u.RawQuery = "" then "" else "?" ++ u.RawQuery)

/-- A stand-in for the method `Do` of `*http.Client` in the examples, for
exchanges that are neither redirected nor timed out: the request goes to the
transport once; a transport error is returned without the response, wrapped
in a `url.Error`, whose message is made here; an answer without error is
returned as it is. -/
def exampleClientDo {σ : Type} (_timeout : Nat) (transport : Handler σ) : Handler σ :=
  fun req w =>
    match transport req w with
    | ((_, some e), w1) =>
      ((none, some (Error.mk
        ((if req.Method = "" then "Get" else req.Method.take 1 ++ (req.Method.drop 1).toLower)
          ++ " " ++ quoted (exampleURLString req.URL) ++ ": " ++ e.Error))), w1)
    | ((resp, none), w1) => ((resp, none), w1)

/-- An `http.Client` of the examples with the given transport. -/
def exampleClient (transport : Handler World) : HttpClient World :=
  { Transport := transport, Do := exampleClientDo }

/-- A platform for the examples. -/
def examplePlatform : Platform World :=
  { LibraryName := "kioto"
    LibraryVersion := "0.1"
    runtimeVersion := "go1.20"
    canonicalKey := fun k => k
    urlParse := fun raw => .ok { Path := raw }
    DefaultTransport := trackClient 200 none
    clientDo := exampleClientDo
    retryEnable := fun c => c }

/-- The client of `TestClientPostMiddleware` and its request: one pre-middleware,
one request middleware, one post-middleware. -/
def orderSession : Session World :=
  Session.run examplePlatform
    (Session.start examplePlatform
      [HTTPClient (.other (trackClient 200 none)),
        Middlewares [(trackMiddleware 1).toMiddleware],
        PostMiddlewares [(trackMiddleware 3).toMiddleware]] [])
    [.onClient .request, .onRequest 0 (.use [(trackMiddleware 2).toMiddleware])]

/-- The request of `orderSession`. -/
def orderRequest : Request World :=
  { Client := orderSession.client, middlewares := 2, context := some Context.Background }

/-- A request is made, then the client gets a pre-middleware, then the request
gets a middleware of its own; a second request is made. -/
def lateCalls : List (Call World) :=
  [.onClient .request, .onClient (.use (trackMiddleware 1).toMiddleware),
    .onRequest 0 (.use [(trackMiddleware 2).toMiddleware]), .onClient .request]

/-- The state after `New()` and the calls of `lateCalls`. -/
def lateSession : Session World :=
  Session.run examplePlatform (Session.start examplePlatform [] []) lateCalls

/-- The first request of `lateSession`. -/
def lateRequest : Request World :=
  { Client := lateSession.client, middlewares := 2, context := some Context.Background }

/-- The second request of `lateSession`. -/
def otherRequest : Request World :=
  { Client := lateSession.client, middlewares := 3, context := some Context.Background }

/-- The error of `TestStopPropagationOnError`. -/
def someError : Error := Error.mk "some error"

/-- The client and request of `TestStopPropagationOnError`: a pre-middleware
that records the error it gets from next, and a request middleware that fails
without calling next. -/
def stopSession : Session World :=
  Session.run examplePlatform
    (Session.start examplePlatform
      [HTTPClient (.other (trackClient 200 none)), Middlewares [detectError.toMiddleware]] [])
    [.onClient .request,
      .onRequest 0 (.use [(trackMiddleware 2).toMiddleware]),
      .onRequest 0 (.useFunc (failWith someError (fun _ w => w)))]

/-- The request of `stopSession`. -/
def stopRequest : Request World :=
  { Client := stopSession.client, middlewares := 2, context := some Context.Background }

/-- As `stopSession`, but the request first gets a middleware that translates
errors, then the failing one. -/
def translateSession : Session World :=
  Session.run examplePlatform
    (Session.start examplePlatform
      [HTTPClient (.other (trackClient 200 none)), Middlewares [detectError.toMiddleware]] [])
    [.onClient .request,
      .onRequest 0 (.use [translateError (Error.mk "translated")]),
      .onRequest 0 (.useFunc (failWith someError (fun _ w => w)))]

/-- The request of `translateSession`. -/
def translateRequest : Request World :=
  { Client := translateSession.client, middlewares := 2, context := some Context.Background }

/-- A client with a post-middleware that records when it is called, and a
request whose middleware fails without calling next. -/
def postSession : Session World :=
  Session.run examplePlatform
    (Session.start examplePlatform
      [HTTPClient (.other (trackClient 200 none))] [])
    [.onClient (.usePost (trackMiddleware 3).toMiddleware), .onClient .request,
      .onRequest 0 (.useFunc (failWith someError (fun _ w => w)))]

/-- As `postSession`, but the client has no post-middleware. -/
def noPostSession : Session World :=
  Session.run examplePlatform
    (Session.start examplePlatform
      [HTTPClient (.other (trackClient 200 none))] [])
    [.onClient .request, .onRequest 0 (.useFunc (failWith someError (fun _ w => w)))]

/-- The request of `postSession`. -/
def postRequest : Request World :=
  { Client := postSession.client, middlewares := 2, context := some Context.Background }

/-- The client of `requestSuite` (no middlewares) with one fresh request. -/
def plainSession : Session World :=
  Session.run examplePlatform
    (Session.start examplePlatform [HTTPClient (.other (trackClient 200 none))] [])
    [.onClient .request]

/-- The request of `plainSession`. -/
def plainRequest : Request World :=
  { Client := plainSession.client, middlewares := 2, context := some Context.Background }

/-- A request whose context is set to nil with `WithContext(nil)`, on a client
with one pre-middleware. -/
def nilContextSession : Session World :=
  Session.run examplePlatform
    (Session.start examplePlatform
      [HTTPClient (.other (trackClient 200 none)),
        Middlewares [(trackMiddleware 1).toMiddleware]] [])
    [.onClient .request, .onRequest 0 (.withContext none)]

/-- The request of `nilContextSession`. -/
def nilContextRequest : Request World :=
  { Client := nilContextSession.client, middlewares := 2, context := none }

/-- The request of `TestMethod` after a second call of `Method`. -/
def methodSession : Session World :=
  Session.run examplePlatform
    (Session.start examplePlatform [HTTPClient (.other (trackClient 200 none))] [])
    [.onClient .request, .onRequest 0 .get, .onRequest 0 (.method "FOO")]

/-- The request of `methodSession`. -/
def methodRequest : Request World :=
  { Client := methodSession.client, middlewares := 2, context := some Context.Background }

/-- The outcome when the before-next phases run in the order `P`, `R`, `Q`,
then the sender, then the after-next phases in the order `Q` reversed, `R`
reversed, `P` reversed. -/
def inOrder {σ : Type} (P R Q : List (Phases σ)) (doer : Handler σ) (req : HttpRequest)
    (w : σ) : Result × σ :=
  runAfter P.reverse (runAfter R.reverse (runAfter Q.reverse
    (doer (runBefore Q (runBefore R (runBefore P (req, w)))).1
      (runBefore Q (runBefore R (runBefore P (req, w)))).2)))

/-- The response of `TestJSONHTTPError`: no transport response, an error. -/
def errorResponse : Response := { Response := none, Error := some someError }

/-- A decoder for the examples: reads the whole body and counts its bytes. -/
def countingDecode (b : Body) (_target : Nat) : (Option Error × Nat) × Body :=
  ((none, b.data.length), { b with data := "", reads := b.reads + 1 })

/-! ## What `New` starts from, and more test doubles -/

/-- The options of `New` applied in order to the zero value of `clientOptions`,
as the loop at the start of `New` does. -/
def collect {σ : Type} (options : List (ClientOption σ)) : clientOptions σ :=
  options.foldl (fun o opt => opt o) {}

/-- A decoder for the examples, as `json.NewDecoder(body).Decode(target)`
answers: end of input on an empty body, a syntax error on an open brace,
success otherwise.  It reads the body to its end. -/
def exampleDecode (b : Body) (target : Nat) : (Option Error × Nat) × Body :=
  ((if b.data = "" then some Error.EOF
    else if b.data = "\x7b" then some (Error.mk "unexpected EOF")
    else none,
    if b.data = "" ∨ b.data = "\x7b" then target else b.data.length),
   { b with data := "", reads := b.reads + 1 })

/-- The response of `TestJSONBadSyntax`, with a body whose `Close` fails. -/
def badSyntaxResponse : Response :=
  { Response := some { Body := some { data := "\x7b", closeErr := some (Error.mk "close failed") } }
    Error := none }

/-- The response `Send` builds from what `trackClient` returns: status 200, a
nil body, a nil error. -/
def noBodyResponse : Response :=
  { Response := some { StatusCode := 200 }, Error := none }

/-- The response of `TestErrors`: status 500 with a body, and the error a
response processor made of it. -/
def serverErrorResponse : Response :=
  { Response := some { StatusCode := 500, Body := some { data := "oops" } }
    Error := some (Error.mk "server error") }

/-- The variables the examples let the middlewares write to. -/
structure Vars where
  count : Int := 0
  name : String := ""
  written : String := ""
  deriving DecidableEq, Repr

/-- A stand-in for `strconv.ParseInt(val, 10, 64)` in the examples. -/
def exampleParseInt (val : String) : Except Error Int :=
  match val.toInt? with
  | some i => .ok i
  | none => .error (Error.mk ("strconv.ParseInt: parsing " ++ quoted val ++ ": invalid syntax"))

/-- A handler that answers with status 200 and no headers. -/
def noHeaderHandler : Handler Vars :=
  fun _ w => ((some { StatusCode := 200 }, none), w)

/-- The handler of `TestJSON`, `TestString` and `TestWriter` in the case with an
error: a response with a body, and an error. -/
def bodyAndErrorHandler : Handler Vars :=
  fun _ w => ((some { Body := some (NopCloser "foo bar") }, some (Error.mk "custom error")), w)

/-- A stand-in for `ioutil.ReadAll` in the examples. -/
def exampleReadAll (b : Body) : (String × Option Error) × Body :=
  ((b.data, none), { b with data := "", reads := b.reads + 1 })

/-- The sender `New` starts from: the one given with `HTTPClient`, or a fresh
`http.Client` with the configured timeout. -/
def plainSender {σ : Type} (pf : Platform σ) (opts : clientOptions σ) : HTTPDoer σ :=
  match opts.httpClient with
  | some s => s
  | none =>
    .httpClient { Timeout := opts.timeout, Transport := pf.DefaultTransport, Do := pf.clientDo }

/-- A classifier that asks to retry everything, as in `TestDisableRetry`. -/
def retryEverything : retry.Classifier := fun _ _ => true

/-- The middleware `retry.SetClassifier(fn)` by its phases. -/
def setClassifierPhases {σ : Type} (fn : retry.Classifier) : Phases σ :=
  { before := fun req w =>
      (req.WithContext (req.Context.WithValue retry.classifierKey (.classifier fn)), w)
    after := fun res w => (res, w) }

/-- The middleware `retry.Times(n)` by its phases. -/
def timesPhases {σ : Type} (n : Nat) : Phases σ :=
  { before := fun req w =>
      (req.WithContext (req.Context.WithValue retry.timesKey (.times n)), w)
    after := fun res w => (res, w) }

/-- A platform whose `retry.Enable` is the one of the retry package. -/
def retryPlatform : Platform World :=
  { examplePlatform with retryEnable := retry.Enable 1 World.consumed }

/-- The client of `TestDisableRetry`, here with a sender that is an
`http.Client` whose transport is `trackClient`, and a request on which a
classifier that asks to retry everything and three attempts are installed. -/
def disableRetrySession : Session World :=
  Session.run retryPlatform
    (Session.start retryPlatform
      [HTTPClient (.httpClient (exampleClient (trackClient 500 none))), DisableRetry] [])
    [.onClient .request, .onRequest 0 (.use [retry.SetClassifier retryEverything]),
      .onRequest 0 (.use [retry.Times 3])]

/-- The request of `disableRetrySession`. -/
def disableRetryRequest : Request World :=
  { Client := disableRetrySession.client, middlewares := 2, context := some Context.Background }

/-- A stand-in for `json.Unmarshal` into a counter in the examples: the number
of bytes is stored. -/
def exampleUnmarshal (rawData : String) (w : Vars) : Option Error × Vars :=
  (none, { w with count := rawData.length })

/-- A stand-in for `io.Copy` into a buffer in the examples. -/
def exampleCopy (b : Body) (w : Vars) : (Option Error × Body) × Vars :=
  ((none, { b with data := "", reads := b.reads + 1 }), { w with written := w.written ++ b.data })

/-- A context as `ToContext` makes it, with one header of two values. -/
def headerContext : Context :=
  headers.ToContext Context.Background "auth" "X-Token" ["a", "b"]

/-- The client of `TestDefaultClientUserAgent` and its request. -/
def userAgentSession : Session World :=
  Session.run examplePlatform
    (Session.start examplePlatform
      [HTTPClient (.other (trackClient 200 none)), ProductInfo "foobar" "0.1"] [])
    [.onClient .request, .onRequest 0 .get]

/-- The request of `userAgentSession`. -/
def userAgentRequest : Request World :=
  { Client := userAgentSession.client, middlewares := 2, context := some Context.Background }

/-- The middleware `headers.Method(m)` by its phases. -/
def methodPhases {σ : Type} (m : String) : Phases σ :=
  { before := fun req w => ({ req with Method := m }, w)
    after := fun res w => (res, w) }

/-- The classifier of `TestRetry`: retry on status 500 and above. -/
def on500 : retry.Classifier :=
  fun resp _ =>
    match resp with
    | some r => decide (500 ≤ r.StatusCode)
    | none => false

/-- The client and request of `TestRetry`: the sender is an `http.Client` whose
transport always answers 500; the classifier asks to retry it, three attempts
are allowed. -/
def retrySession : Session World :=
  Session.run retryPlatform
    (Session.start retryPlatform
      [HTTPClient (.httpClient (exampleClient (trackClient 500 none)))] [])
    [.onClient .request, .onRequest 0 .get,
      .onRequest 0 (.use [retry.SetClassifier on500]), .onRequest 0 (.use [retry.Times 3])]

/-- The request of `retrySession`. -/
def retryRequest : Request World :=
  { Client := retrySession.client, middlewares := 2, context := some Context.Background }

/-- As `retrySession`, but the request carries a body and no body provider,
and the transport reads the body before it answers 500. -/
def retryBodySession : Session World :=
  Session.run retryPlatform
    (Session.start retryPlatform
      [HTTPClient (.httpClient (exampleClient (readingClient 500 none)))] [])
    [.onClient .request, .onRequest 0 (.body (some (.stringsReader "payload"))),
      .onRequest 0 (.use [retry.SetClassifier on500]), .onRequest 0 (.use [retry.Times 3])]

/-- The request of `retryBodySession`. -/
def retryBodyRequest : Request World :=
  { Client := retryBodySession.client, middlewares := 2, context := some Context.Background }

/-! ## Go `strings` -/

namespace strings

/-- Whether the text begins with the pattern. -/
def startsWith : List Char → List Char → Bool
  | [], _ => true
  | _ :: _, [] => false
  | p :: ps, c :: cs => p == c && startsWith ps cs

/-- The scan of `strings.Replace` for a pattern that is not empty: `skip`
characters of a match just replaced are passed over, then every position is
tried from left to right, so that the instances replaced do not overlap. -/
def replaceChars (old new : List Char) : Nat → List Char → List Char
  | _, [] => []
  | skip + 1, _ :: cs => replaceChars old new skip cs
  | 0, c :: cs =>
    if startsWith old (c :: cs) then new ++ replaceChars old new (old.length - 1) cs
    else c :: replaceChars old new 0 cs

/-- The function `strings.Replace(s, old, new, -1)`: all non-overlapping
instances of `old` replaced by `new`; an empty `old` matches at the beginning
of the string and after each character. -/
def ReplaceAll (s old new : String) : String :=
  if old.data = [] then ⟨new.data ++ s.data.flatMap (fun c => c :: new.data)⟩
  else ⟨replaceChars old.data new.data 0 s.data⟩

end strings

/-! ## Package `middlewares/url`: base URL and parameters -/

namespace url

/-- BaseURL parses and sets schema and host to the request. -/
def BaseURL {σ : Type} (parse : String → Except Error NetURL) (uri : String) : Middleware σ :=
  RequestProcessor (fun req =>
    match parseURL parse uri with
    | .error err => (req, some err)
    | .ok u => ({ req with URL := { req.URL with Scheme := u.Scheme, Host := u.Host } }, none))

/-- The function `replace`. -/
def replace (str key value : String) : String :=
  strings.ReplaceAll str (":" ++ key) value

/-- Param replaces one or multiple URL parameters with given value. -/
def Param {σ : Type} (key value : String) : Middleware σ :=
  RequestProcessor (fun req =>
    ({ req with URL := { req.URL with Path := replace req.URL.Path key value } }, none))

/-- Params replaces all provided parameters in URL with mapped values.  The Go
map is given by its entries in the order in which `range` yields them, an
order the runtime chooses anew on each run. -/
def Params {σ : Type} (params : List (String × String)) : Middleware σ :=
  RequestProcessor (fun req =>
    ({ req with
        URL := { req.URL with
          Path := params.foldl (fun path kv => replace path kv.1 kv.2) req.URL.Path } },
      none))

end url

/-! ## Package `middlewares/body`: encoded bodies -/

/-- The `data interface{}` of `body.JSON` and `body.XML` by dynamic type: a
string, a byte slice, or any other value. -/
inductive BodyData (τ : Type) where
  | string (d : String)
  | bytes (d : String)
  | value (v : τ)

namespace body

/-- What `JSON` and `XML` share: the data is written to a buffer (`encode` is
the encoder for values that are neither string nor byte slice); if that fails
the error is returned, otherwise method, body, content length and the
`Content-Type` header are set. -/
def encoded {σ τ : Type} (canon : String → String) (encode : τ → Except Error String)
    (contentType : String) (data : BodyData τ) : Middleware σ :=
  RequestProcessor (fun req =>
    let buff : Except Error String :=
      match data with
      | .string d => .ok d
      | .bytes d => .ok d
      | .value v => encode v
    match buff with
    | .error err => (req, some err)
    | .ok b =>
      let req1 : HttpRequest := { req with Method := getMethod req }
      let req2 : HttpRequest := { req1 with Body := some (NopCloser b) }
      let req3 : HttpRequest := { req2 with ContentLength := (b.utf8ByteSize : Int) }
      ({ req3 with Header := HttpHeader.Set canon req3.Header "Content-Type" contentType },
        none))

/-- JSON sets request body to JSON obtained from provided data; `encode` is
`json.NewEncoder(buff).Encode`. -/
def JSON {σ τ : Type} (canon : String → String) (encode : τ → Except Error String)
    (data : BodyData τ) : Middleware σ :=
  encoded canon encode "application/json" data

/-- XML sets request body to XML obtained from provided data; `encode` is
`xml.NewEncoder(buff).Encode`. -/
def XML {σ τ : Type} (canon : String → String) (encode : τ → Except Error String)
    (data : BodyData τ) : Middleware σ :=
  encoded canon encode "application/xml" data

/-- String sets request body to provided string. -/
def String {σ : Type} (data : String) : Middleware σ :=
  RequestProcessor (fun req =>
    let req1 : HttpRequest := { req with Method := getMethod req }
    let req2 : HttpRequest := { req1 with Body := some (NopCloser data) }
    ({ req2 with ContentLength := (data.utf8ByteSize : Int) }, none))

end body

/-- The middleware succeeds on every request and forwards it to next, once,
with the method that `getMethod` answers for the request it got. -/
def body.Promotes {σ : Type} (m : Middleware σ) : Prop :=
  ∀ req : HttpRequest, ∃ req1 : HttpRequest,
    (∀ (next : Handler σ) (w : σ), m next req w = next req1 w) ∧
      req1.Method = body.getMethod req

/-! ## More test doubles -/

/-- The request of `Request.Get().Body(r)`. -/
def getBodySession : Session World :=
  Session.run examplePlatform
    (Session.start examplePlatform [HTTPClient (.other (trackClient 200 none))] [])
    [.onClient .request, .onRequest 0 .get,
      .onRequest 0 (.body (some (.stringsReader "some content")))]

/-- The request of `getBodySession`. -/
def getBodyRequest : Request World :=
  { Client := getBodySession.client, middlewares := 2, context := some Context.Background }

/-- The request of `Request.Body(r).Get()`. -/
def bodyGetSession : Session World :=
  Session.run examplePlatform
    (Session.start examplePlatform [HTTPClient (.other (trackClient 200 none))] [])
    [.onClient .request, .onRequest 0 (.body (some (.stringsReader "some content"))),
      .onRequest 0 .get]

/-- The request of `bodyGetSession`. -/
def bodyGetRequest : Request World :=
  { Client := bodyGetSession.client, middlewares := 2, context := some Context.Background }

/-- A stand-in for `url.Parse` in the examples: a text that begins with
`http://` is scheme, host and path, any other text is a path; a text with a
blank is refused. -/
def exampleParse (raw : String) : Except Error NetURL :=
  if raw.data.contains ' ' then .error (Error.mk "parse: invalid character in URL")
  else if strings.startsWith "http://".data raw.data then
    .ok { Scheme := "http"
          Host := ⟨(raw.data.drop 7).takeWhile (fun c => c != '/')⟩
          Path := ⟨(raw.data.drop 7).dropWhile (fun c => c != '/')⟩ }
  else .ok { Path := raw }

/-! # Theorems -/


/-! ## The chain store -/

theorem Chain.use_nil {σ : Type} (h : Heap σ) (c : Nat) : Chain.Use h c [] = h := by
  unfold Chain.Use
  apply List.ext_getElem?
  intro n
  rw [List.getElem?_modify]
  cases h[n]? with
  | none => rfl
  | some ch => by_cases hc : c = n <;> simp [hc]

theorem Chain.use_length {σ : Type} (h : Heap σ) (c : Nat) (m : List (Middleware σ)) :
    (Chain.Use h c m).length = h.length := by
  simp [Chain.Use]

theorem Chain.use_getElem?_self {σ : Type} (h : Heap σ) (c : Nat) (m ms : List (Middleware σ))
    (p : Option Nat) (hc : h[c]? = some { middlewares := ms, parent := p }) :
    (Chain.Use h c m)[c]? = some { middlewares := ms ++ m, parent := p } := by
  simp [Chain.Use, List.getElem?_modify, hc]

theorem Chain.use_getElem?_ne {σ : Type} (h : Heap σ) (c n : Nat) (m : List (Middleware σ))
    (hn : c ≠ n) : (Chain.Use h c m)[n]? = h[n]? := by
  simp [Chain.Use, List.getElem?_modify, hn]

/-- The effective list of a chain without parent is its own list. -/
theorem Chain.middlewares_root {σ : Type} (h : Heap σ) (c : Nat) (ms : List (Middleware σ))
    (hc : h[c]? = some { middlewares := ms, parent := none }) :
    Chain.Middlewares h c = ms := by
  have hlt : c < h.length := by
    by_contra hge
    rw [List.getElem?_eq_none (Nat.le_of_not_lt hge)] at hc
    exact Option.noConfusion hc
  obtain ⟨n, hn⟩ : ∃ n, h.length = n + 1 := ⟨h.length - 1, by omega⟩
  simp [Chain.Middlewares, hn, Chain.middlewaresFuel, hc]

/-- The effective list of a chain whose parent has no parent: the parent's own
list followed by the chain's own list. -/
theorem Chain.middlewares_child {σ : Type} (h : Heap σ) (c p : Nat)
    (ms ps : List (Middleware σ)) (hne : p ≠ c)
    (hc : h[c]? = some { middlewares := ms, parent := some p })
    (hp : h[p]? = some { middlewares := ps, parent := none }) :
    Chain.Middlewares h c = ps ++ ms := by
  have hlt : c < h.length := by
    by_contra hge
    rw [List.getElem?_eq_none (Nat.le_of_not_lt hge)] at hc
    exact Option.noConfusion hc
  have hlt2 : p < h.length := by
    by_contra hge
    rw [List.getElem?_eq_none (Nat.le_of_not_lt hge)] at hp
    exact Option.noConfusion hp
  obtain ⟨n, hn⟩ : ∃ n, h.length = n + 2 := ⟨h.length - 2, by omega⟩
  simp [Chain.Middlewares, hn, Chain.middlewaresFuel, hc, hp]


/-! ## Programs and their list view -/

theorem RequestCall.run_heap {σ : Type} (pf : Platform σ) (c : RequestCall σ) (r : Request σ)
    (h : Heap σ) : (c.run pf r h).2 = Chain.Use h r.middlewares (c.added pf) := by
  cases c <;> first | rfl | exact (Chain.use_nil h r.middlewares).symm

theorem RequestCall.run_middlewares {σ : Type} (pf : Platform σ) (c : RequestCall σ)
    (r : Request σ) (h : Heap σ) : (c.run pf r h).1.middlewares = r.middlewares := by
  cases c <;> rfl

theorem RequestCall.run_client {σ : Type} (pf : Platform σ) (c : RequestCall σ)
    (r : Request σ) (h : Heap σ) : (c.run pf r h).1.Client = r.Client := by
  cases c <;> rfl

theorem modify_append_singleton {α : Type} (f : α → α) (l : List α) (a : α) :
    (l ++ [a]).modify f l.length = l ++ [f a] := by
  induction l with
  | nil => rfl
  | cons x xs ih => simp [List.modify_succ_cons, ih]

theorem getElem?_append_pair_fst {α : Type} (l : List α) (a b : α) :
    (l ++ [a, b])[l.length]? = some a := by
  rw [List.getElem?_append_right (Nat.le_refl _)]
  simp

theorem getElem?_append_pair_snd {α : Type} (l : List α) (a b : α) :
    (l ++ [a, b])[l.length + 1]? = some b := by
  rw [List.getElem?_append_right (Nat.le_succ _)]
  simp

/-- What `New` allocates: two chains without parent at the end of the store. -/
theorem New_heap {σ : Type} (pf : Platform σ) (options : List (ClientOption σ)) (h : Heap σ) :
    ∃ (P Q : List (Middleware σ)),
      (New pf options h).2
          = h ++ [{ middlewares := P, parent := none }, { middlewares := Q, parent := none }] ∧
        (New pf options h).1.preMiddlewares = h.length ∧
        (New pf options h).1.postMiddlewares = h.length + 1 := by
  unfold New
  simp only [NewChain]
  generalize List.foldl (fun o opt => opt o) ({} : clientOptions σ) options = opts
  split
  · refine ⟨opts.middlewares
        ++ [headers.Set pf.canonicalKey "User-Agent" (opts.userAgent.String pf)],
      opts.potsMiddlewares, ?_, trivial, ?_⟩
    · simp only [Chain.Use]
      rw [modify_append_singleton]
      simp
    · simp [Chain.Use]
  · refine ⟨opts.middlewares, opts.potsMiddlewares, ?_, trivial, ?_⟩
    · simp
    · simp

theorem Session.start_inv {σ : Type} (pf : Platform σ) (options : List (ClientOption σ))
    (h : Heap σ) :
    Session.Inv h.length (Session.start pf options h)
      (Lists.start (Session.start pf options h)) := by
  obtain ⟨P, Q, hh, hpre, hpost⟩ := New_heap pf options h
  have e1 : (Session.start pf options h).heap = (New pf options h).2 := rfl
  have e2 : (Session.start pf options h).client = (New pf options h).1 := rfl
  have e3 : (Session.start pf options h).requests = [] := rfl
  have c1 : (Session.start pf options h).heap[h.length]?
      = some { middlewares := P, parent := none } := by
    rw [e1, hh]; exact getElem?_append_pair_fst _ _ _
  have c2 : (Session.start pf options h).heap[h.length + 1]?
      = some { middlewares := Q, parent := none } := by
    rw [e1, hh]; exact getElem?_append_pair_snd _ _ _
  refine ⟨by rw [e2, hpre], by rw [e2, hpost], by rw [e1, hh, e3]; simp, ?_, ?_, by
    rw [e3]; rfl, ?_⟩
  · rw [c1]
    simp only [Lists.start]
    rw [e2, hpre, Chain.middlewares_root _ _ _ c1]
  · rw [c2]
    simp only [Lists.start]
    rw [e2, hpost, Chain.middlewares_root _ _ _ c2]
  · intro i r hr
    rw [e3] at hr
    simp at hr


theorem Session.Inv.use_pre {σ : Type} {base : Nat} {s : Session σ} {g : Lists σ}
    (inv : Session.Inv base s g) (m : List (Middleware σ)) :
    Session.Inv base { s with heap := Chain.Use s.heap s.client.preMiddlewares m }
      { g with pre := g.pre ++ m } := by
  refine ⟨inv.pre_eq, inv.post_eq, ?_, ?_, ?_, inv.own_length, ?_⟩
  · simpa [Chain.use_length] using inv.length_eq
  · simpa [inv.pre_eq] using Chain.use_getElem?_self s.heap base m g.pre none inv.pre_cell
  · simp only [inv.pre_eq]
    rw [Chain.use_getElem?_ne _ _ _ _ (by omega)]
    exact inv.post_cell
  · intro i r hr
    obtain ⟨h1, h2, own, h3, h4⟩ := inv.request_cell i r hr
    refine ⟨h1, h2, own, h3, ?_⟩
    simp only [inv.pre_eq]
    rw [Chain.use_getElem?_ne _ _ _ _ (by omega)]
    exact h4

theorem Session.Inv.use_post {σ : Type} {base : Nat} {s : Session σ} {g : Lists σ}
    (inv : Session.Inv base s g) (m : List (Middleware σ)) :
    Session.Inv base { s with heap := Chain.Use s.heap s.client.postMiddlewares m }
      { g with post := g.post ++ m } := by
  refine ⟨inv.pre_eq, inv.post_eq, ?_, ?_, ?_, inv.own_length, ?_⟩
  · simpa [Chain.use_length] using inv.length_eq
  · simp only [inv.post_eq]
    rw [Chain.use_getElem?_ne _ _ _ _ (by omega)]
    exact inv.pre_cell
  · simpa [inv.post_eq] using
      Chain.use_getElem?_self s.heap (base + 1) m g.post none inv.post_cell
  · intro i r hr
    obtain ⟨h1, h2, own, h3, h4⟩ := inv.request_cell i r hr
    refine ⟨h1, h2, own, h3, ?_⟩
    simp only [inv.post_eq]
    rw [Chain.use_getElem?_ne _ _ _ _ (by omega)]
    exact h4

theorem Session.Inv.request {σ : Type} {base : Nat} {s : Session σ} {g : Lists σ}
    (inv : Session.Inv base s g) :
    Session.Inv base (ClientCall.run s .request) { g with own := g.own ++ [[]] } := by
  have hheap : (ClientCall.run s .request).heap
      = s.heap ++ [{ middlewares := [], parent := some base }] := by
    simp [ClientCall.run, Client.Request, NewRequest, Chain.ChildChain, inv.pre_eq]
  have hreq : (ClientCall.run s .request).requests
      = s.requests ++ [{ Client := s.client, middlewares := s.heap.length,
                         context := some Context.Background }] := by
    simp [ClientCall.run, Client.Request, NewRequest, Chain.ChildChain]
  have hcl : (ClientCall.run s .request).client = s.client := rfl
  have hlen := inv.length_eq
  refine ⟨by rw [hcl]; exact inv.pre_eq, by rw [hcl]; exact inv.post_eq, ?_, ?_, ?_, ?_, ?_⟩
  · rw [hheap, hreq]; simp; omega
  · rw [hheap, List.getElem?_append_left (by omega)]; exact inv.pre_cell
  · rw [hheap, List.getElem?_append_left (by omega)]; exact inv.post_cell
  · rw [hreq]; simp [inv.own_length]
  · intro i r hr
    rw [hreq] at hr
    rw [hcl, hheap]
    by_cases hi : i < s.requests.length
    · rw [List.getElem?_append_left hi] at hr
      obtain ⟨h1, h2, own, h3, h4⟩ := inv.request_cell i r hr
      refine ⟨h1, h2, own, ?_, ?_⟩
      · show (g.own ++ [[]])[i]? = some own
        rw [List.getElem?_append_left (by rw [inv.own_length]; exact hi)]; exact h3
      · rw [List.getElem?_append_left (by omega)]; exact h4
    · have hi2 : i = s.requests.length := by
        have := (List.getElem?_eq_some.mp hr).1
        simp at this
        omega
      subst hi2
      rw [List.getElem?_append_right (Nat.le_refl _)] at hr
      simp at hr
      subst hr
      refine ⟨by simp; omega, rfl, [], ?_, ?_⟩
      · show (g.own ++ [[]])[s.requests.length]? = some []
        rw [← inv.own_length, List.getElem?_append_right (Nat.le_refl _)]
        simp
      · have e : base + 2 + s.requests.length = s.heap.length := by omega
        rw [e, List.getElem?_append_right (Nat.le_refl _)]
        simp

theorem Session.Inv.on_request {σ : Type} {base : Nat} {s : Session σ} {g : Lists σ}
    (pf : Platform σ) (inv : Session.Inv base s g) (i : Nat) (c : RequestCall σ) :
    Session.Inv base (Session.step pf s (.onRequest i c))
      { g with own := g.own.modify (fun l => l ++ c.added pf) i } := by
  cases hri : s.requests[i]? with
  | none =>
    have hs : Session.step pf s (.onRequest i c) = s := by simp [Session.step, hri]
    rw [hs]
    refine ⟨inv.pre_eq, inv.post_eq, inv.length_eq, inv.pre_cell, inv.post_cell, ?_, ?_⟩
    · simpa using inv.own_length
    · intro j r hr
      obtain ⟨h1, h2, own, h3, h4⟩ := inv.request_cell j r hr
      have hij : i ≠ j := by
        intro e; subst e; rw [hri] at hr; exact Option.noConfusion hr
      refine ⟨h1, h2, own, ?_, h4⟩
      show (g.own.modify (fun l => l ++ c.added pf) i)[j]? = some own
      rw [List.getElem?_modify, h3]
      simp [hij]
  | some r =>
    obtain ⟨h1, h2, own, h3, h4⟩ := inv.request_cell i r hri
    have hheap : (Session.step pf s (.onRequest i c)).heap
        = Chain.Use s.heap (base + 2 + i) (c.added pf) := by
      simp [Session.step, hri, RequestCall.run_heap, h1]
    have hreq : (Session.step pf s (.onRequest i c)).requests
        = s.requests.set i (c.run pf r s.heap).1 := by
      simp [Session.step, hri]
    have hcl : (Session.step pf s (.onRequest i c)).client = s.client := by
      simp [Session.step, hri]
    refine ⟨by rw [hcl]; exact inv.pre_eq, by rw [hcl]; exact inv.post_eq, ?_, ?_, ?_, ?_, ?_⟩
    · rw [hheap, hreq]; simpa [Chain.use_length] using inv.length_eq
    · rw [hheap, Chain.use_getElem?_ne _ _ _ _ (by omega)]; exact inv.pre_cell
    · rw [hheap, Chain.use_getElem?_ne _ _ _ _ (by omega)]; exact inv.post_cell
    · rw [hreq]; simpa using inv.own_length
    · intro j r' hr'
      rw [hreq] at hr'
      rw [hcl, hheap]
      by_cases hij : i = j
      · subst hij
        have hlt : i < s.requests.length := (List.getElem?_eq_some.mp hri).1
        rw [List.getElem?_set_self hlt] at hr'
        have e : r' = (c.run pf r s.heap).1 := (Option.some.inj hr').symm
        subst e
        refine ⟨?_, ?_, own ++ c.added pf, ?_, ?_⟩
        · rw [RequestCall.run_middlewares]; exact h1
        · rw [RequestCall.run_client]; exact h2
        · show (g.own.modify (fun l => l ++ c.added pf) i)[i]? = some (own ++ c.added pf)
          rw [List.getElem?_modify, h3]
          simp
        · exact Chain.use_getElem?_self _ _ _ _ _ h4
      · rw [List.getElem?_set_ne hij] at hr'
        obtain ⟨k1, k2, own', k3, k4⟩ := inv.request_cell j r' hr'
        refine ⟨k1, k2, own', ?_, ?_⟩
        · show (g.own.modify (fun l => l ++ c.added pf) i)[j]? = some own'
          rw [List.getElem?_modify, k3]
          simp [hij]
        · rw [Chain.use_getElem?_ne _ _ _ _ (by omega)]; exact k4

theorem Session.Inv.step {σ : Type} {base : Nat} {s : Session σ} {g : Lists σ}
    (pf : Platform σ) (inv : Session.Inv base s g) (c : Call σ) :
    Session.Inv base (Session.step pf s c) (Lists.step pf g c) := by
  cases c with
  | onClient cc =>
    cases cc with
    | use m => exact inv.use_pre [m]
    | useFunc m => exact inv.use_pre [MiddlewareFunc m]
    | usePost m => exact inv.use_post [m]
    | usePostFunc m => exact inv.use_post [MiddlewareFunc m]
    | request => exact inv.request
  | onRequest i rc => exact inv.on_request pf i rc

theorem Session.Inv.run {σ : Type} {base : Nat} (pf : Platform σ) (calls : List (Call σ)) :
    ∀ {s : Session σ} {g : Lists σ}, Session.Inv base s g →
      Session.Inv base (Session.run pf s calls) (Lists.run pf g calls) := by
  induction calls with
  | nil => intro s g inv; exact inv
  | cons c cs ih => intro s g inv; exact ih (inv.step pf c)

/-- What the store holds in terms of the list view, for the effective lists. -/
theorem Session.Inv.pre_list {σ : Type} {base : Nat} {s : Session σ} {g : Lists σ}
    (inv : Session.Inv base s g) :
    Chain.Middlewares s.heap s.client.preMiddlewares = g.pre := by
  rw [inv.pre_eq]; exact Chain.middlewares_root _ _ _ inv.pre_cell

theorem Session.Inv.post_list {σ : Type} {base : Nat} {s : Session σ} {g : Lists σ}
    (inv : Session.Inv base s g) :
    Chain.Middlewares s.heap s.client.postMiddlewares = g.post := by
  rw [inv.post_eq]; exact Chain.middlewares_root _ _ _ inv.post_cell

theorem Session.Inv.request_list {σ : Type} {base : Nat} {s : Session σ} {g : Lists σ}
    (inv : Session.Inv base s g) (i : Nat) (r : Request σ) (hr : s.requests[i]? = some r) :
    ∃ own, g.own[i]? = some own ∧ Chain.Middlewares s.heap r.middlewares = g.pre ++ own := by
  obtain ⟨h1, _, own, h3, h4⟩ := inv.request_cell i r hr
  refine ⟨own, h3, ?_⟩
  rw [h1]
  exact Chain.middlewares_child _ _ base _ _ (by omega) h4 inv.pre_cell


/-- Every reachable state is related to its list view. -/
theorem Session.Reachable.inv {σ : Type} {pf : Platform σ} {s : Session σ}
    (hs : Session.Reachable pf s) : ∃ base g, Session.Inv base s g := by
  obtain ⟨options, h, calls, rfl⟩ := hs
  exact ⟨h.length, _, Session.Inv.run pf calls (Session.start_inv pf options h)⟩

/-- In a reachable state, the chain of a request is a child of the pre chain of
the client, and its effective list is the client's followed by its own. -/
theorem Session.Reachable.request_chain {σ : Type} {pf : Platform σ} {s : Session σ}
    (hs : Session.Reachable pf s) {i : Nat} {r : Request σ} (hr : s.requests[i]? = some r) :
    r.Client = s.client ∧
      ∃ own, s.heap[r.middlewares]?
            = some { middlewares := own, parent := some s.client.preMiddlewares } ∧
        Chain.Middlewares s.heap r.middlewares
          = Chain.Middlewares s.heap s.client.preMiddlewares ++ own := by
  obtain ⟨base, g, inv⟩ := hs.inv
  obtain ⟨h1, h2, own, _, h4⟩ := inv.request_cell i r hr
  refine ⟨h2, own, ?_, ?_⟩
  · rw [h1, inv.pre_eq]; exact h4
  · rw [inv.pre_list, h1]
    exact Chain.middlewares_child _ _ base _ _ (by omega) h4 inv.pre_cell

/-- What `Send` does, in terms of the handler it materializes. -/
theorem Request.Send_eq {σ : Type} (r : Request σ) (h : Heap σ) (w : σ) :
    r.Send h w =
      ((buildResponse (r.sender h (EmptyRequest.WithContext (r.context.getD Context.Background)) w).1.1
          (r.sender h (EmptyRequest.WithContext (r.context.getD Context.Background)) w).1.2,
        (r.sender h (EmptyRequest.WithContext (r.context.getD Context.Background)) w).1.2),
       { r with context := some (r.context.getD Context.Background) },
       (r.sender h (EmptyRequest.WithContext (r.context.getD Context.Background)) w).2) := by
  obtain ⟨c, m, ctx⟩ := r
  cases ctx <;> rfl

/-- The handler of `Send` in terms of the two effective lists. -/
theorem Request.sender_eq {σ : Type} (r : Request σ) (h : Heap σ) :
    r.sender h =
      (Chain.Middlewares h r.middlewares ++ Chain.Middlewares h r.Client.postMiddlewares).foldr
        (fun m next => m next) r.Client.doer.Do := by
  simp [Request.sender, Chain.Exec, List.foldr_append, HandlerFunc, Client.sendRequest]
  rfl

/-- C2. After any interleaved sequence of calls on a client and on the requests
created from it, the effective middleware list of every request (the list that
`Send` folds) is the client's current pre-middleware list followed by the
request's own middlewares in insertion order, where the client's current list
holds every middleware given to `Use` so far, also those added after the
request was created. -/
theorem effective_list_is_pre_then_own {σ : Type} (pf : Platform σ)
    (options : List (ClientOption σ)) (h : Heap σ) (calls : List (Call σ))
    (i : Nat) (r : Request σ)
    (hr : (Session.run pf (Session.start pf options h) calls).requests[i]? = some r) :
    Chain.Middlewares (Session.run pf (Session.start pf options h) calls).heap
        (Session.run pf (Session.start pf options h) calls).client.preMiddlewares
      = (Lists.run pf (Lists.start (Session.start pf options h)) calls).pre ∧
    ∃ own, (Lists.run pf (Lists.start (Session.start pf options h)) calls).own[i]? = some own ∧
      Chain.Middlewares (Session.run pf (Session.start pf options h) calls).heap r.middlewares
        = Chain.Middlewares (Session.run pf (Session.start pf options h) calls).heap
            (Session.run pf (Session.start pf options h) calls).client.preMiddlewares ++ own := by
  have inv := Session.Inv.run pf calls (Session.start_inv pf options h)
  refine ⟨inv.pre_list, ?_⟩
  obtain ⟨own, h1, h2⟩ := inv.request_list i r hr
  exact ⟨own, h1, by rw [inv.pre_list]; exact h2⟩

/-- A request made before the client got its pre-middleware has that
pre-middleware in its effective list, in front of its own middleware. -/
theorem effective_list_is_pre_then_own_witness :
    lateSession.requests[0]? = some lateRequest ∧
    Chain.Middlewares lateSession.heap lateRequest.middlewares
      = [(trackMiddleware 1).toMiddleware, (trackMiddleware 2).toMiddleware] := by
  refine ⟨rfl, ?_⟩
  obtain ⟨hpre, own, h1, h2⟩ :=
    effective_list_is_pre_then_own examplePlatform [] [] lateCalls 0 lateRequest rfl
  have hown : own = [(trackMiddleware 2).toMiddleware] :=
    Option.some.inj (h1.symm.trans rfl)
  exact h2.trans (by rw [hpre, hown]; rfl)

/-- C3. A call of `Use`, `UseFunc` or a shorthand on the `i`-th request leaves
the client, its pre-middleware list and its post-middleware list unchanged, and
leaves every other request and its effective middleware list unchanged. -/
theorem request_call_frame {σ : Type} (pf : Platform σ) (s : Session σ)
    (hs : Session.Reachable pf s) (i : Nat) (c : RequestCall σ) :
    (Session.step pf s (.onRequest i c)).client = s.client ∧
    Chain.Middlewares (Session.step pf s (.onRequest i c)).heap s.client.preMiddlewares
      = Chain.Middlewares s.heap s.client.preMiddlewares ∧
    Chain.Middlewares (Session.step pf s (.onRequest i c)).heap s.client.postMiddlewares
      = Chain.Middlewares s.heap s.client.postMiddlewares ∧
    ∀ (j : Nat) (r : Request σ), j ≠ i → s.requests[j]? = some r →
      (Session.step pf s (.onRequest i c)).requests[j]? = some r ∧
      Chain.Middlewares (Session.step pf s (.onRequest i c)).heap r.middlewares
        = Chain.Middlewares s.heap r.middlewares := by
  obtain ⟨base, g, inv⟩ := hs.inv
  have inv2 := inv.on_request pf i c
  have hcl : (Session.step pf s (.onRequest i c)).client = s.client := by
    simp only [Session.step]
    split <;> rfl
  refine ⟨hcl, ?_, ?_, ?_⟩
  · have := inv2.pre_list
    rw [hcl] at this
    rw [this, inv.pre_list]
  · have := inv2.post_list
    rw [hcl] at this
    rw [this, inv.post_list]
  · intro j r hji hr
    have hreq : (Session.step pf s (.onRequest i c)).requests[j]? = some r := by
      simp only [Session.step]
      split
      · exact hr
      · simp only []
        rw [List.getElem?_set_ne (Ne.symm hji)]
        exact hr
    refine ⟨hreq, ?_⟩
    obtain ⟨own, h1, h2⟩ := inv.request_list j r hr
    obtain ⟨own2, k1, k2⟩ := inv2.request_list j r hreq
    have k1b : (g.own.modify (fun l => l ++ c.added pf) i)[j]? = some own2 := k1
    rw [List.getElem?_modify, h1] at k1b
    simp [Ne.symm hji] at k1b
    subst k1b
    rw [k2, h2]

theorem lateSession_reachable : Session.Reachable examplePlatform lateSession :=
  ⟨_, _, _, rfl⟩

/-- A call of `Header` on the first request of `lateSession` leaves the
effective list of the second request as it was. -/
theorem request_call_frame_witness :
    Chain.Middlewares
        (Session.step examplePlatform lateSession (.onRequest 0 (.header "foo" "bar"))).heap
        otherRequest.middlewares
      = Chain.Middlewares lateSession.heap otherRequest.middlewares :=
  ((request_call_frame examplePlatform lateSession lateSession_reachable 0
    (.header "foo" "bar")).2.2.2 1 otherRequest (by decide) rfl).2


/-! ## Folding middlewares -/

theorem runAfter_append {σ : Type} (ps qs : List (Phases σ)) (x : Result × σ) :
    runAfter (ps ++ qs) x = runAfter qs (runAfter ps x) := by
  simp [runAfter, List.foldl_append]

theorem runBefore_append {σ : Type} (ps qs : List (Phases σ)) (x : HttpRequest × σ) :
    runBefore (ps ++ qs) x = runBefore qs (runBefore ps x) := by
  simp [runBefore, List.foldl_append]

/-- A list of middlewares that each delegate once, folded over a handler: the
before-next phases first to last, the handler, the after-next phases last to
first. -/
theorem Phases.foldr_eq {σ : Type} (ps : List (Phases σ)) (t : Handler σ) :
    ∀ (req : HttpRequest) (w : σ),
      (ps.map Phases.toMiddleware).foldr (fun m next => m next) t req w
        = runAfter ps.reverse (t (runBefore ps (req, w)).1 (runBefore ps (req, w)).2) := by
  induction ps with
  | nil => intro req w; rfl
  | cons p ps ih =>
    intro req w
    have e : (List.map Phases.toMiddleware (p :: ps)).foldr (fun m next => m next) t req w
        = p.after
            ((ps.map Phases.toMiddleware).foldr (fun m next => m next) t
              (p.before req w).1 (p.before req w).2).1
            ((ps.map Phases.toMiddleware).foldr (fun m next => m next) t
              (p.before req w).1 (p.before req w).2).2 := rfl
    rw [e, ih, List.reverse_cons, runAfter_append]
    rfl

/-- Forwarding middlewares folded over a handler that always answers `x`
answer `x`. -/
theorem Phases.foldr_forwards {σ : Type} (ps : List (Phases σ)) (t : Handler σ) (x : Result)
    (hfw : ∀ p ∈ ps, p.Forwards) (ht : ∀ req w, (t req w).1 = x) :
    ∀ (req : HttpRequest) (w : σ),
      ((ps.map Phases.toMiddleware).foldr (fun m next => m next) t req w).1 = x := by
  induction ps with
  | nil => intro req w; exact ht req w
  | cons p ps ih =>
    intro req w
    have e : (List.map Phases.toMiddleware (p :: ps)).foldr (fun m next => m next) t req w
        = p.after
            ((ps.map Phases.toMiddleware).foldr (fun m next => m next) t
              (p.before req w).1 (p.before req w).2).1
            ((ps.map Phases.toMiddleware).foldr (fun m next => m next) t
              (p.before req w).1 (p.before req w).2).2 := rfl
    rw [e, hfw p (List.mem_cons_self _ _)]
    exact ih (fun q hq => hfw q (List.mem_cons_of_mem _ hq)) _ _

/-- A chain that holds a middleware which does not call next materializes the
same handler whatever it is folded over. -/
theorem foldr_failWith {σ : Type} (ms1 ms2 : List (Middleware σ)) (e : Error)
    (f : HttpRequest → σ → σ) (t t' : Handler σ) :
    (ms1 ++ failWith e f :: ms2).foldr (fun m next => m next) t
      = ms1.foldr (fun m next => m next) (failWith e f t') := by
  rw [List.foldr_append, List.foldr_cons]
  rfl

/-- The own list of a request's chain, as the store holds it. -/
theorem own_of_cell {σ : Type} {h : Heap σ} {c : Nat} {own ms : List (Middleware σ)}
    {p : Option Nat} (hc : h[c]? = some { middlewares := own, parent := p })
    (hown : (h[c]?).map (fun ch => ch.middlewares) = some ms) : own = ms := by
  rw [hc] at hown
  exact Option.some.inj hown

/-- The handler `Send` materializes in a reachable state, by the three lists. -/
theorem Session.Reachable.sender_lists {σ : Type} {pf : Platform σ} {s : Session σ}
    (hs : Session.Reachable pf s) {i : Nat} {r : Request σ} (hr : s.requests[i]? = some r)
    {R : List (Middleware σ)}
    (hR : (s.heap[r.middlewares]?).map (fun ch => ch.middlewares) = some R) :
    r.sender s.heap =
      (Chain.Middlewares s.heap s.client.preMiddlewares ++ R
        ++ Chain.Middlewares s.heap s.client.postMiddlewares).foldr
        (fun m next => m next) s.client.doer.Do := by
  obtain ⟨hcl, own, hcell, heff⟩ := hs.request_chain hr
  have := own_of_cell hcell hR
  subst this
  rw [Request.sender_eq, heff, hcl]

/-- `Send` in a reachable state when every middleware delegates exactly once. -/
theorem Session.Reachable.send_phases {σ : Type} {pf : Platform σ} {s : Session σ}
    (hs : Session.Reachable pf s) {i : Nat} {r : Request σ} (hr : s.requests[i]? = some r)
    (P R Q : List (Phases σ))
    (hP : Chain.Middlewares s.heap s.client.preMiddlewares = P.map Phases.toMiddleware)
    (hR : (s.heap[r.middlewares]?).map (fun ch => ch.middlewares)
      = some (R.map Phases.toMiddleware))
    (hQ : Chain.Middlewares s.heap s.client.postMiddlewares = Q.map Phases.toMiddleware)
    (req : HttpRequest) (w : σ) :
    r.sender s.heap req w =
      runAfter P.reverse (runAfter R.reverse (runAfter Q.reverse
        (s.client.doer.Do (runBefore Q (runBefore R (runBefore P (req, w)))).1
          (runBefore Q (runBefore R (runBefore P (req, w)))).2))) := by
  rw [hs.sender_lists hr hR, hP, hQ, ← List.map_append, ← List.map_append, Phases.foldr_eq]
  simp only [List.reverse_append, runAfter_append, runBefore_append, List.append_assoc]


/-! ## Send -/

/-- C1. In a reachable state, for a client with pre-middleware list `P`,
post-middleware list `Q` and a request with own middleware list `R`, where each
middleware delegates to next exactly once, `Send` runs the before-next phases
in the order `P`, `R`, `Q`, then the sender, then the after-next phases in the
order `Q` reversed, `R` reversed, `P` reversed. -/
theorem send_runs_pre_request_post_sender {σ : Type} (pf : Platform σ) (s : Session σ)
    (hs : Session.Reachable pf s) (i : Nat) (r : Request σ) (hr : s.requests[i]? = some r)
    (P R Q : List (Phases σ))
    (hP : Chain.Middlewares s.heap s.client.preMiddlewares = P.map Phases.toMiddleware)
    (hR : (s.heap[r.middlewares]?).map (fun ch => ch.middlewares)
      = some (R.map Phases.toMiddleware))
    (hQ : Chain.Middlewares s.heap s.client.postMiddlewares = Q.map Phases.toMiddleware)
    (w : σ) :
    (r.Send s.heap w).1 =
      (buildResponse
        (inOrder P R Q s.client.doer.Do
          (EmptyRequest.WithContext (r.context.getD Context.Background)) w).1.1
        (inOrder P R Q s.client.doer.Do
          (EmptyRequest.WithContext (r.context.getD Context.Background)) w).1.2,
       (inOrder P R Q s.client.doer.Do
          (EmptyRequest.WithContext (r.context.getD Context.Background)) w).1.2) ∧
    (r.Send s.heap w).2.2 =
      (inOrder P R Q s.client.doer.Do
        (EmptyRequest.WithContext (r.context.getD Context.Background)) w).2 := by
  rw [Request.Send_eq, hs.send_phases hr P R Q hP hR hQ]
  exact ⟨rfl, rfl⟩

theorem orderSession_reachable : Session.Reachable examplePlatform orderSession :=
  ⟨_, _, _, rfl⟩

/-- The test `TestClientPostMiddleware`: pre-middleware 1, request middleware 2,
post-middleware 3. -/
theorem send_runs_pre_request_post_sender_witness :
    (orderRequest.Send orderSession.heap {}).2.2.log
      = [Event.before 1, Event.before 2, Event.before 3, Event.sent,
          Event.after 3, Event.after 2, Event.after 1] := by
  rw [(send_runs_pre_request_post_sender examplePlatform orderSession orderSession_reachable
    0 orderRequest rfl [trackMiddleware 1] [trackMiddleware 2] [trackMiddleware 3]
    rfl rfl rfl {}).2]
  decide

/-- C6. For a client whose pre- and post-middleware lists are empty and a
request with no middlewares of its own, `Send` is one call of the sender on
the fresh empty request carrying the request's context, and returns what the
sender returned. -/
theorem send_without_middlewares {σ : Type} (pf : Platform σ) (s : Session σ)
    (hs : Session.Reachable pf s) (i : Nat) (r : Request σ) (hr : s.requests[i]? = some r)
    (hP : Chain.Middlewares s.heap s.client.preMiddlewares = [])
    (hR : (s.heap[r.middlewares]?).map (fun ch => ch.middlewares) = some [])
    (hQ : Chain.Middlewares s.heap s.client.postMiddlewares = [])
    (w : σ) :
    (r.Send s.heap w).1 =
      (buildResponse
        (r.Client.doer.Do (EmptyRequest.WithContext (r.context.getD Context.Background)) w).1.1
        (r.Client.doer.Do (EmptyRequest.WithContext (r.context.getD Context.Background)) w).1.2,
       (r.Client.doer.Do (EmptyRequest.WithContext (r.context.getD Context.Background)) w).1.2) ∧
    (r.Send s.heap w).2.2 =
      (r.Client.doer.Do (EmptyRequest.WithContext (r.context.getD Context.Background)) w).2 ∧
    (EmptyRequest.WithContext (r.context.getD Context.Background)).Context
      = r.context.getD Context.Background := by
  have hcl := (hs.request_chain hr).1
  rw [Request.Send_eq, hs.sender_lists hr hR, hP, hQ, hcl]
  exact ⟨rfl, rfl, rfl⟩

theorem plainSession_reachable : Session.Reachable examplePlatform plainSession :=
  ⟨_, _, _, rfl⟩

/-- A fresh request on the client of `requestSuite`: the sender is called once,
on the empty request. -/
theorem send_without_middlewares_witness :
    (plainRequest.Send plainSession.heap {}).2.2
      = { log := [Event.sent], noCalls := 1, lastRequest := some EmptyRequest } := by
  rw [(send_without_middlewares examplePlatform plainSession plainSession_reachable
    0 plainRequest rfl rfl rfl rfl {}).2.1]
  rfl

/-- C7. Whatever the outermost handler returns, `Send` returns a non-nil
response whose embedded transport response and `Error` field are what the
handler returned, together with that same error. -/
theorem send_wraps_outcome {σ : Type} (r : Request σ) (h : Heap σ) (w : σ) :
    ∃ resp : Response,
      (r.Send h w).1.1 = some resp ∧
      resp.Response
        = (r.sender h (EmptyRequest.WithContext (r.context.getD Context.Background)) w).1.1 ∧
      resp.Error
        = (r.sender h (EmptyRequest.WithContext (r.context.getD Context.Background)) w).1.2 ∧
      (r.Send h w).1.2
        = (r.sender h (EmptyRequest.WithContext (r.context.getD Context.Background)) w).1.2 := by
  rw [Request.Send_eq]
  exact ⟨_, rfl, rfl, rfl, rfl⟩


/-! ## A request middleware that does not call next -/

/-- The handler of `Send` when the request's own list holds a middleware that
fails without calling next: everything behind that middleware is cut off. -/
theorem Session.Reachable.sender_cut {σ : Type} {pf : Platform σ} {s : Session σ}
    (hs : Session.Reachable pf s) {i : Nat} {r : Request σ} (hr : s.requests[i]? = some r)
    {R1 R2 : List (Middleware σ)} {e : Error} {f : HttpRequest → σ → σ}
    (hown : (s.heap[r.middlewares]?).map (fun ch => ch.middlewares)
      = some (R1 ++ failWith e f :: R2))
    (h' : Heap σ) (c' : Client σ)
    (hh : Chain.Middlewares h' r.middlewares = Chain.Middlewares s.heap r.middlewares)
    (t : Handler σ) :
    Request.sender { r with Client := c' } h' =
      (Chain.Middlewares s.heap s.client.preMiddlewares ++ R1).foldr
        (fun m next => m next) (failWith e f t) := by
  obtain ⟨_, own, hcell, heff⟩ := hs.request_chain hr
  have := own_of_cell hcell hown
  subst this
  rw [Request.sender_eq]
  simp only []
  rw [hh, heff, ← List.append_assoc, List.append_assoc _ (failWith e f :: R2)]
  exact foldr_failWith _ _ e f _ t

theorem failWith_result {σ : Type} (e : Error) (f : HttpRequest → σ → σ) (t : Handler σ)
    (req : HttpRequest) (w : σ) : (failWith e f t req w).1 = (none, some e) := rfl

/-- C4, as amended. When a request middleware returns `(nil, e)` without calling
next, the outcome of `Send` does not depend on the sender: it is never invoked.
If moreover the client's pre-middlewares and the request middlewares registered
before the failing one each delegate to next exactly once and return what next
returned, then `Send` returns `e` as its error and every client pre-middleware
receives `e` as the error returned by next. -/
theorem short_circuit_skips_sender {σ : Type} (pf : Platform σ) (s : Session σ)
    (hs : Session.Reachable pf s) (i : Nat) (r : Request σ) (hr : s.requests[i]? = some r)
    (R1 R2 : List (Middleware σ)) (e : Error) (f : HttpRequest → σ → σ)
    (hown : (s.heap[r.middlewares]?).map (fun ch => ch.middlewares)
      = some (R1 ++ failWith e f :: R2)) :
    (∀ (d : HTTPDoer σ) (w : σ),
      (Request.Send { r with Client := { r.Client with doer := d } } s.heap w).1
          = (r.Send s.heap w).1 ∧
        (Request.Send { r with Client := { r.Client with doer := d } } s.heap w).2.2
          = (r.Send s.heap w).2.2) ∧
    (∀ (P R1' : List (Phases σ)),
      Chain.Middlewares s.heap s.client.preMiddlewares = P.map Phases.toMiddleware →
      R1 = R1'.map Phases.toMiddleware →
      (∀ p ∈ P ++ R1', p.Forwards) →
      (∀ w, (r.Send s.heap w).1 = (buildResponse none (some e), some e)) ∧
      (∀ (P1 P2 : List (Phases σ)) (p : Phases σ), P = P1 ++ p :: P2 →
        ∃ next : Handler σ,
          r.sender s.heap
            = (P1.map Phases.toMiddleware).foldr (fun m nx => m nx) (p.toMiddleware next) ∧
          ∀ req w, (next req w).1 = (none, some e))) := by
  have hcut := fun (c' : Client σ) (t : Handler σ) => hs.sender_cut hr hown s.heap c' rfl t
  have hself : ∀ t : Handler σ, r.sender s.heap =
      (Chain.Middlewares s.heap s.client.preMiddlewares ++ R1).foldr
        (fun m next => m next) (failWith e f t) := fun t => hcut r.Client t
  refine ⟨?_, ?_⟩
  · intro d w
    rw [Request.Send_eq, Request.Send_eq, hcut _ r.Client.doer.Do, hself r.Client.doer.Do]
    exact ⟨rfl, rfl⟩
  · intro P R1' hP hR1 hfw
    refine ⟨?_, ?_⟩
    · intro w
      have hx := Phases.foldr_forwards (P ++ R1') (failWith e f r.Client.doer.Do)
        (none, some e) hfw (failWith_result e f _)
        (EmptyRequest.WithContext (r.context.getD Context.Background)) w
      rw [List.map_append, ← hP, ← hR1, ← hself] at hx
      rw [Request.Send_eq]
      simp only [hx]
    · intro P1 P2 p hsplit
      refine ⟨((P2 ++ R1').map Phases.toMiddleware).foldr (fun m nx => m nx)
        (failWith e f r.Client.doer.Do), ?_, ?_⟩
      · rw [hself r.Client.doer.Do, hP, hR1, hsplit]
        simp [List.foldr_append]
      · exact Phases.foldr_forwards (P2 ++ R1') _ (none, some e)
          (fun q hq => hfw q (by
            rw [hsplit]
            simp only [List.mem_append, List.mem_cons] at hq ⊢
            tauto))
          (failWith_result e f _)

theorem stopSession_reachable : Session.Reachable examplePlatform stopSession :=
  ⟨_, _, _, rfl⟩

/-- The test `TestStopPropagationOnError`: the error reaches the caller. -/
theorem short_circuit_skips_sender_witness :
    (stopRequest.Send stopSession.heap {}).1 = (buildResponse none (some someError), some someError) :=
  ((short_circuit_skips_sender examplePlatform stopSession stopSession_reachable 0 stopRequest
    rfl [(trackMiddleware 2).toMiddleware] [] someError (fun _ w => w) rfl).2
    [detectError] [trackMiddleware 2] rfl rfl
    (by
      intro p hp
      simp only [List.mem_append, List.mem_singleton] at hp
      rcases hp with rfl | rfl <;> intro res w <;> rfl)).1 {}

/-- C4, a counterexample: a request middleware registered before the failing one
translates the error.  The failing middleware returns `(nil, "some error")`
without calling next and the sender is not invoked, but `Send` returns the
translated error and the client's pre-middleware, which delegates to next,
receives the translated error. -/
theorem short_circuit_error_translated :
    (translateSession.heap[translateRequest.middlewares]?).map (fun ch => ch.middlewares)
      = some ([translateError (Error.mk "translated")]
          ++ failWith someError (fun _ w => w) :: []) ∧
    (translateRequest.Send translateSession.heap {}).1.2 ≠ some someError ∧
    (translateRequest.Send translateSession.heap {}).1.2 = some (Error.mk "translated") ∧
    (translateRequest.Send translateSession.heap {}).2.2
      = { log := [Event.saw (some (Error.mk "translated"))], noCalls := 0 } :=
  ⟨rfl, by decide, by decide, rfl⟩

/-- C5, as amended. When a request middleware returns an error without calling
next, the client's post-middlewares sit behind it and are not invoked: the
outcome of `Send` is the same whatever the post-middlewares and the sender are.
What wraps the failing middleware, and gets the error from next, are the
client's pre-middlewares and the request middlewares registered before it. -/
theorem short_circuit_skips_post_middlewares {σ : Type} (pf : Platform σ) (s : Session σ)
    (hs : Session.Reachable pf s) (i : Nat) (r : Request σ) (hr : s.requests[i]? = some r)
    (R1 R2 : List (Middleware σ)) (e : Error) (f : HttpRequest → σ → σ)
    (hown : (s.heap[r.middlewares]?).map (fun ch => ch.middlewares)
      = some (R1 ++ failWith e f :: R2)) :
    (∀ (h' : Heap σ) (c' : Client σ) (w : σ),
      Chain.Middlewares h' r.middlewares = Chain.Middlewares s.heap r.middlewares →
      (Request.Send { r with Client := c' } h' w).1 = (r.Send s.heap w).1 ∧
        (Request.Send { r with Client := c' } h' w).2.2 = (r.Send s.heap w).2.2) ∧
    (∃ inner : Handler σ,
      r.sender s.heap
        = (Chain.Middlewares s.heap s.client.preMiddlewares ++ R1).foldr
            (fun m next => m next) inner ∧
      ∀ req w, (inner req w).1 = (none, some e)) := by
  have hself : r.sender s.heap =
      (Chain.Middlewares s.heap s.client.preMiddlewares ++ R1).foldr
        (fun m next => m next) (failWith e f r.Client.doer.Do) :=
    hs.sender_cut hr hown s.heap r.Client rfl _
  refine ⟨?_, ⟨_, hself, failWith_result e f _⟩⟩
  intro h' c' w hh
  rw [Request.Send_eq, Request.Send_eq, hs.sender_cut hr hown h' c' hh r.Client.doer.Do, hself]
  exact ⟨rfl, rfl⟩

theorem postSession_reachable : Session.Reachable examplePlatform postSession :=
  ⟨_, _, _, rfl⟩

/-- With the post-middleware of `postSession` taken away, `Send` does the same. -/
theorem short_circuit_skips_post_middlewares_witness :
    (Request.Send { postRequest with Client := noPostSession.client } noPostSession.heap {}).1
        = (postRequest.Send postSession.heap {}).1 ∧
      (Request.Send { postRequest with Client := noPostSession.client } noPostSession.heap {}).2.2
        = (postRequest.Send postSession.heap {}).2.2 :=
  (short_circuit_skips_post_middlewares examplePlatform postSession postSession_reachable
    0 postRequest rfl [] [] someError (fun _ w => w) rfl).1
    noPostSession.heap noPostSession.client {} rfl

/-- C5, a counterexample: the client has a post-middleware that records every
call of its handler, the request has a middleware that fails without calling
next.  After `Send` nothing is on record: the handler of the post-middleware
was not invoked and did not see the error. -/
theorem post_middleware_not_invoked :
    Chain.Middlewares postSession.heap postSession.client.postMiddlewares
      = [(trackMiddleware 3).toMiddleware] ∧
    (postSession.heap[postRequest.middlewares]?).map (fun ch => ch.middlewares)
      = some [failWith someError (fun _ w => w)] ∧
    (∀ (next : Handler World) (req : HttpRequest) (w : World),
      Event.after 3 ∈ ((trackMiddleware 3).toMiddleware next req w).2.log) ∧
    (postRequest.Send postSession.heap {}).1.2 = some someError ∧
    (postRequest.Send postSession.heap {}).2.2.log = [] := by
  refine ⟨rfl, rfl, ?_, by decide, by decide⟩
  intro next req w
  simp [Phases.toMiddleware, trackMiddleware]


/-! ## Context and method -/

theorem runBefore_context {σ : Type} (ps : List (Phases σ))
    (hctx : ∀ p ∈ ps, ∀ req w, (p.before req w).1.Context = req.Context) :
    ∀ x : HttpRequest × σ, (runBefore ps x).1.Context = x.1.Context := by
  induction ps with
  | nil => intro x; rfl
  | cons p ps ih =>
    intro x
    have e : runBefore (p :: ps) x = runBefore ps (p.before x.1 x.2) := rfl
    rw [e, ih (fun q hq => hctx q (List.mem_cons_of_mem _ hq)),
      hctx p (List.mem_cons_self _ _)]

/-- C8. `WithContext(ctx)` followed by `Context()` returns `ctx`.  The request
that `Send` hands to the outermost handler carries the context of the request,
or `context.Background()` when that context is nil, and this context is stored
on the request, so that `Context()` is not nil after `Send`.  When every
middleware delegates once and forwards a request with the context it got, the
sender gets a request that carries this context. -/
theorem send_carries_context {σ : Type} (pf : Platform σ) (s : Session σ)
    (hs : Session.Reachable pf s) (i : Nat) (r : Request σ) (hr : s.requests[i]? = some r)
    (P R Q : List (Phases σ))
    (hP : Chain.Middlewares s.heap s.client.preMiddlewares = P.map Phases.toMiddleware)
    (hR : (s.heap[r.middlewares]?).map (fun ch => ch.middlewares)
      = some (R.map Phases.toMiddleware))
    (hQ : Chain.Middlewares s.heap s.client.postMiddlewares = Q.map Phases.toMiddleware)
    (hctx : ∀ p ∈ P ++ R ++ Q, ∀ req w, (p.before req w).1.Context = req.Context)
    (w : σ) :
    (∀ ctx : Option Context, (r.WithContext ctx).Context = ctx) ∧
    (∃ req : HttpRequest,
      req.Context = r.context.getD Context.Background ∧
      (r.Send s.heap w).1
        = (buildResponse (r.sender s.heap req w).1.1 (r.sender s.heap req w).1.2,
            (r.sender s.heap req w).1.2) ∧
      (r.Send s.heap w).2.2 = (r.sender s.heap req w).2) ∧
    (r.context = none → (r.Send s.heap w).2.1.Context = some Context.Background) ∧
    (∀ ctx, r.context = some ctx → (r.Send s.heap w).2.1.Context = some ctx) ∧
    (r.Send s.heap w).2.1.Context ≠ none ∧
    (∃ req : HttpRequest,
      req.Context = r.context.getD Context.Background ∧
      r.sender s.heap (EmptyRequest.WithContext (r.context.getD Context.Background)) w
        = runAfter P.reverse (runAfter R.reverse (runAfter Q.reverse
            (s.client.doer.Do req
              (runBefore Q (runBefore R (runBefore P
                (EmptyRequest.WithContext (r.context.getD Context.Background), w)))).2)))) := by
  refine ⟨fun _ => rfl, ⟨EmptyRequest.WithContext (r.context.getD Context.Background), rfl, ?_, ?_⟩,
    ?_, ?_, ?_, ?_⟩
  · rw [Request.Send_eq]
  · rw [Request.Send_eq]
  · intro hnone
    rw [Request.Send_eq, hnone]
    rfl
  · intro ctx hsome
    rw [Request.Send_eq, hsome]
    rfl
  · rw [Request.Send_eq]
    exact Option.noConfusion
  · refine ⟨_, ?_, hs.send_phases hr P R Q hP hR hQ _ w⟩
    rw [← runBefore_append, ← runBefore_append, ← List.append_assoc, runBefore_context _ hctx]
    rfl

theorem nilContextSession_reachable : Session.Reachable examplePlatform nilContextSession :=
  ⟨_, _, _, rfl⟩

/-- A request whose context is nil at `Send` time carries `context.Background()`
afterwards. -/
theorem send_carries_context_witness :
    nilContextSession.requests[0]? = some nilContextRequest ∧
    nilContextRequest.context = none ∧
    (nilContextRequest.Send nilContextSession.heap {}).2.1.Context = some Context.Background :=
  ⟨rfl, rfl,
    (send_carries_context examplePlatform nilContextSession nilContextSession_reachable
      0 nilContextRequest rfl [trackMiddleware 1] [] [] rfl rfl rfl
      (by
        intro p hp
        simp only [List.append_nil, List.mem_singleton] at hp
        subst hp
        intro req w
        rfl) {}).2.2.1 rfl⟩

theorem headers.Method_apply {σ : Type} (m : String) (next : Handler σ) (req : HttpRequest)
    (w : σ) : headers.Method m next req w = next { req with Method := m } w := rfl

/-- Several `Method` middlewares folded over a handler: the last one decides. -/
theorem headers.Method_foldr {σ : Type} (l : List String) (m : String) (t : Handler σ) :
    ∀ (req : HttpRequest) (w : σ),
      ((l ++ [m]).map headers.Method).foldr (fun mw next => mw next) t req w
        = t { req with Method := m } w := by
  induction l with
  | nil => intro req w; rfl
  | cons a l ih =>
    intro req w
    have e : ((a :: l ++ [m]).map headers.Method).foldr (fun mw next => mw next) t req w
        = ((l ++ [m]).map headers.Method).foldr (fun mw next => mw next) t
            { req with Method := a } w := rfl
    rw [e, ih]

/-- C9. On a client without middlewares, a request whose middlewares are
`Method` middlewares, the last of them `Method(m)`, reaches the sender with
`Method` equal to `m` (in particular when `Method(m)` is the only one).  The
shorthands `Get` ... `Trace` are `Method` applied to `"GET"` ... `"TRACE"`. -/
theorem method_reaches_sender {σ : Type} (pf : Platform σ) (s : Session σ)
    (hs : Session.Reachable pf s) (i : Nat) (r : Request σ) (hr : s.requests[i]? = some r)
    (l : List String) (m : String)
    (hP : Chain.Middlewares s.heap s.client.preMiddlewares = [])
    (hR : (s.heap[r.middlewares]?).map (fun ch => ch.middlewares)
      = some ((l ++ [m]).map headers.Method))
    (hQ : Chain.Middlewares s.heap s.client.postMiddlewares = [])
    (w : σ) :
    ((r.Send s.heap w).1 =
      (buildResponse
        (r.Client.doer.Do
          { EmptyRequest.WithContext (r.context.getD Context.Background) with Method := m } w).1.1
        (r.Client.doer.Do
          { EmptyRequest.WithContext (r.context.getD Context.Background) with Method := m } w).1.2,
       (r.Client.doer.Do
          { EmptyRequest.WithContext (r.context.getD Context.Background) with Method := m } w).1.2) ∧
    (r.Send s.heap w).2.2 =
      (r.Client.doer.Do
        { EmptyRequest.WithContext (r.context.getD Context.Background) with Method := m } w).2) ∧
    (∀ (q : Request σ) (h : Heap σ),
      q.Get h = q.Method "GET" h ∧ q.Post h = q.Method "POST" h ∧ q.Put h = q.Method "PUT" h ∧
      q.Delete h = q.Method "DELETE" h ∧ q.Patch h = q.Method "PATCH" h ∧
      q.Head h = q.Method "HEAD" h ∧ q.Options h = q.Method "OPTIONS" h ∧
      q.Connect h = q.Method "CONNECT" h ∧ q.Trace h = q.Method "TRACE" h) := by
  have hcl := (hs.request_chain hr).1
  refine ⟨?_, fun _ _ => ⟨rfl, rfl, rfl, rfl, rfl, rfl, rfl, rfl, rfl⟩⟩
  rw [Request.Send_eq, hs.sender_lists hr hR, hP, hQ, hcl]
  simp only [List.nil_append, List.append_nil]
  rw [headers.Method_foldr]
  exact ⟨rfl, rfl⟩

theorem methodSession_reachable : Session.Reachable examplePlatform methodSession :=
  ⟨_, _, _, rfl⟩

/-- The test `TestMethod`, after `Get()`: the sender sees the method `FOO`. -/
theorem method_reaches_sender_witness :
    (methodRequest.Send methodSession.heap {}).2.2.lastRequest
      = some { EmptyRequest with Method := "FOO" } := by
  rw [(method_reaches_sender examplePlatform methodSession methodSession_reachable
    0 methodRequest rfl ["GET"] "FOO" rfl rfl rfl {}).1.2]
  rfl

/-! ## Response -/

/-- C10. When the carried error of a response is not nil, `JSON` returns exactly
that error; the response (its body, if any, neither read nor closed) and the
target are as before.  The embedded transport response may be nil. -/
theorem JSON_returns_carried_error {τ : Type} (decode : Body → τ → (Option Error × τ) × Body)
    (r : Response) (userStruct : τ) (e : Error) (he : r.Error = some e) :
    r.JSON decode userStruct = some (some e, r, userStruct) := by
  unfold Response.JSON
  rw [he]

/-- The test `TestJSONHTTPError`: a response built from a nil transport response
and an error. -/
theorem JSON_returns_carried_error_witness :
    errorResponse.JSON countingDecode 7 = some (some someError, errorResponse, 7) :=
  JSON_returns_carried_error countingDecode errorResponse 7 someError rfl

/-! ## Decoding the response -/

/-- C11, as amended. For a response with nil carried error and a non-nil body
(a transport response whose `Body` is not nil), `JSON` returns the decode error
when decoding fails with an error other than end-of-input, whether or not
closing the body fails; otherwise it returns what `Close` returned: the close
error if closing fails, nil if not. -/
theorem JSON_error_precedence {τ : Type} (decode : Body → τ → (Option Error × τ) × Body)
    (r : Response) (raw : HttpResponse) (b : Body) (userStruct : τ)
    (hE : r.Error = none) (hR : r.Response = some raw) (hB : raw.Body = some b) :
    (∀ d, (decode b userStruct).1.1 = some d → d ≠ Error.EOF →
      (r.JSON decode userStruct).map (fun out => out.1) = some (some d)) ∧
    ((decode b userStruct).1.1 = none ∨ (decode b userStruct).1.1 = some Error.EOF →
      (r.JSON decode userStruct).map (fun out => out.1)
        = some (decode b userStruct).2.Close.1) ∧
    (decode b userStruct).2.Close.1 = (decode b userStruct).2.closeErr := by
  unfold Response.JSON
  rw [hE, hR]
  simp only [hB]
  refine ⟨?_, ?_, rfl⟩
  · intro d hd hne
    simp [hd, hne]
  · intro h
    rcases h with h | h
    · simp [h, Body.Close]
      intro hc
      simp [hc]
    · simp [h, Body.Close]
      intro hc
      simp [hc]

/-- The test `TestJSONBadSyntax`, with a body whose `Close` fails: the decode
error is returned. -/
theorem JSON_error_precedence_witness :
    (badSyntaxResponse.JSON exampleDecode 0).map (fun out => out.1)
      = some (some (Error.mk "unexpected EOF")) :=
  (JSON_error_precedence exampleDecode badSyntaxResponse _ _ 0 rfl rfl rfl).1
    (Error.mk "unexpected EOF") rfl (by decide)

/-- C11, a counterexample: the response `Send` builds from what `trackClient`
returns has a nil carried error, a transport response and a nil body.  `JSON`
dereferences the nil body and returns none of the three outcomes, whatever the
decoder and the target. -/
theorem JSON_without_body_returns_nothing :
    (plainRequest.Send plainSession.heap {}).1.1 = some noBodyResponse ∧
    noBodyResponse.Error = none ∧
    noBodyResponse.Response.map (fun raw => raw.Body) = some none ∧
    noBodyResponse.JSON exampleDecode 0 = none ∧
    (∀ (decode : Body → Nat → (Option Error × Nat) × Body) (userStruct : Nat),
      noBodyResponse.JSON decode userStruct = none) :=
  ⟨rfl, rfl, rfl, rfl, fun _ _ => rfl⟩

/-- C12, as amended. For a response with a body: when the carried error is nil,
`JSON` calls `Close` on the body, once, after decoding, whatever decoding
returned; when the carried error is not nil, `JSON` returns it and the body is
left as it was, not closed. -/
theorem JSON_closes_body_unless_carried_error {τ : Type}
    (decode : Body → τ → (Option Error × τ) × Body)
    (r : Response) (raw : HttpResponse) (b : Body) (userStruct : τ)
    (hR : r.Response = some raw) (hB : raw.Body = some b) :
    (r.Error = none →
      (r.JSON decode userStruct).map (fun out => out.2.1)
        = some { r with
            Response := some { raw with Body := some (decode b userStruct).2.Close.2 } } ∧
      (decode b userStruct).2.Close.2.closes = (decode b userStruct).2.closes + 1) ∧
    (∀ e, r.Error = some e →
      (r.JSON decode userStruct).map (fun out => out.2.1) = some r) := by
  refine ⟨?_, ?_⟩
  · intro hE
    unfold Response.JSON
    rw [hE, hR]
    simp only [hB]
    exact ⟨rfl, rfl⟩
  · intro e he
    unfold Response.JSON
    rw [he]
    rfl

/-- The response of `TestJSONBadSyntax`: the body is closed once. -/
theorem JSON_closes_body_unless_carried_error_witness :
    (badSyntaxResponse.JSON exampleDecode 0).map (fun out => out.2.1)
      = some { Response := some { Body := some { data := "", reads := 1, closes := 1,
                                                  closeErr := some (Error.mk "close failed") } }
               Error := none } :=
  ((JSON_closes_body_unless_carried_error exampleDecode badSyntaxResponse _ _ 0 rfl rfl).1
    rfl).1

/-- C12, a counterexample: a response with a body and a carried error, as a
response processor that turns status 500 into an error leaves it.  `JSON`
returns the carried error and the body has not been closed. -/
theorem JSON_leaves_body_open_on_carried_error :
    serverErrorResponse.Response = some { StatusCode := 500, Body := some { data := "oops", closes := 0 } } ∧
    serverErrorResponse.JSON exampleDecode 0
      = some (some (Error.mk "server error"), serverErrorResponse, 0) ∧
    (serverErrorResponse.JSON exampleDecode 0).map
        (fun out => (out.2.1.Response.bind (fun raw => raw.Body)).map (fun b => b.closes))
      = some (some 0) := by
  decide

/-! ## What `New` builds -/

/-- The store and the client after `New`, by the collected options. -/
theorem New_eq {σ : Type} (pf : Platform σ) (options : List (ClientOption σ)) (h : Heap σ) :
    (New pf options h).2
        = h ++ [{ middlewares :=
                    (collect options).middlewares ++
                      (if (collect options).userAgent.IsEmpty then []
                       else [headers.Set pf.canonicalKey "User-Agent"
                         ((collect options).userAgent.String pf)]),
                  parent := none },
                { middlewares := (collect options).potsMiddlewares,
                  parent := none }] ∧
      (New pf options h).1.preMiddlewares = h.length ∧
      (New pf options h).1.postMiddlewares = h.length + 1 := by
  unfold New collect
  simp only [NewChain]
  generalize List.foldl (fun o opt => opt o) ({} : clientOptions σ) options = opts
  cases hua : opts.userAgent.IsEmpty
  · refine ⟨?_, trivial, ?_⟩
    · simp only [Chain.Use, Bool.not_false, if_true]
      rw [modify_append_singleton]
      simp
    · simp [Chain.Use]
  · refine ⟨?_, trivial, ?_⟩
    · simp
    · simp

/-- The two lists of the client after `New`. -/
theorem New_lists {σ : Type} (pf : Platform σ) (options : List (ClientOption σ)) (h : Heap σ) :
    Chain.Middlewares (New pf options h).2 (New pf options h).1.preMiddlewares
        = (collect options).middlewares ++
            (if (collect options).userAgent.IsEmpty then []
             else [headers.Set pf.canonicalKey "User-Agent"
               ((collect options).userAgent.String pf)]) ∧
      Chain.Middlewares (New pf options h).2 (New pf options h).1.postMiddlewares
        = (collect options).potsMiddlewares := by
  obtain ⟨hh, hpre, hpost⟩ := New_eq pf options h
  rw [hh, hpre, hpost]
  exact ⟨Chain.middlewares_root _ _ _ (getElem?_append_pair_fst _ _ _),
    Chain.middlewares_root _ _ _ (getElem?_append_pair_snd _ _ _)⟩

/-- C14. `IsEmpty` is true exactly when product and version are both empty.
After `New` the pre-middleware list of the client is the list of the
`Middlewares` option followed by one `User-Agent` middleware if the configured
user agent is not empty, and that list alone otherwise (no middleware for
`New()`, one for `ProductInfo` alone); the post-middleware list is the list of
the `PostMiddlewares` option. -/
theorem New_registers_user_agent {σ : Type} (pf : Platform σ)
    (options : List (ClientOption σ)) (h : Heap σ) :
    (∀ ua : UserAgent, ua.IsEmpty = true ↔ (ua.Product = "" ∧ ua.Version = "")) ∧
    Chain.Middlewares (New pf options h).2 (New pf options h).1.preMiddlewares
        = (collect options).middlewares ++
            (if (collect options).userAgent.IsEmpty then []
             else [headers.Set pf.canonicalKey "User-Agent"
               ((collect options).userAgent.String pf)]) ∧
    Chain.Middlewares (New pf options h).2 (New pf options h).1.postMiddlewares
        = (collect options).potsMiddlewares ∧
    (Chain.Middlewares (New pf [] h).2 (New pf [] h).1.preMiddlewares).length = 0 ∧
    (Chain.Middlewares (New pf [] h).2 (New pf [] h).1.postMiddlewares).length = 0 ∧
    (∀ p v : String, ¬ (p = "" ∧ v = "") →
      Chain.Middlewares (New pf [ProductInfo p v] h).2
          (New pf [ProductInfo p v] h).1.preMiddlewares
        = [headers.Set pf.canonicalKey "User-Agent"
            (UserAgent.String pf { Product := p, Version := v })]) ∧
    (∀ (ms : List (Middleware σ)) (o : clientOptions σ), (Middlewares ms o).middlewares = ms) ∧
    (∀ (ms : List (Middleware σ)) (o : clientOptions σ),
      (PostMiddlewares ms o).potsMiddlewares = ms) ∧
    (∀ (p v : String) (o : clientOptions σ),
      (ProductInfo p v o).userAgent = { Product := p, Version := v }) := by
  have hempty : ∀ ua : UserAgent, ua.IsEmpty = true ↔ (ua.Product = "" ∧ ua.Version = "") := by
    intro ua
    simp [UserAgent.IsEmpty]
  refine ⟨hempty, (New_lists pf options h).1, (New_lists pf options h).2, ?_, ?_, ?_,
    fun _ _ => rfl, fun _ _ => rfl, fun _ _ _ => rfl⟩
  · rw [(New_lists pf [] h).1]
    rfl
  · rw [(New_lists pf [] h).2]
    rfl
  · intro p v hne
    rw [(New_lists pf [ProductInfo p v] h).1]
    have : (UserAgent.IsEmpty { Product := p, Version := v }) = false := by
      cases hc : UserAgent.IsEmpty { Product := p, Version := v }
      · rfl
      · exact absurd ((hempty _).mp hc) hne
    simp [collect, ProductInfo, this]

/-- The test `TestDefaultClientUserAgent`: one pre-middleware. -/
theorem New_registers_user_agent_witness :
    (Chain.Middlewares
      (New examplePlatform [HTTPClient (.other (trackClient 200 none)), ProductInfo "foobar" "0.1"]
        []).2
      (New examplePlatform [HTTPClient (.other (trackClient 200 none)), ProductInfo "foobar" "0.1"]
        []).1.preMiddlewares).length = 1 := by
  rw [(New_registers_user_agent examplePlatform
    [HTTPClient (.other (trackClient 200 none)), ProductInfo "foobar" "0.1"] []).2.1]
  rfl

/-! ## Classifiers -/

/-- C17. `OrClassifier(cs...)` is true exactly when at least one classifier of
`cs` returns true; `AndClassifier(cs...)` is true exactly when `cs` is not empty
and every classifier of `cs` returns true; both are false for the empty list. -/
theorem classifier_composition (cs : List retry.Classifier) (resp : Option HttpResponse)
    (err : Option Error) :
    (retry.OrClassifier cs resp err = true ↔ ∃ c ∈ cs, c resp err = true) ∧
    (retry.AndClassifier cs resp err = true ↔ (cs ≠ [] ∧ ∀ c ∈ cs, c resp err = true)) ∧
    retry.OrClassifier [] resp err = false ∧
    retry.AndClassifier [] resp err = false := by
  have hor : ∀ l : List retry.Classifier,
      retry.OrClassifier l resp err = true ↔ ∃ c ∈ l, c resp err = true := by
    intro l
    induction l with
    | nil => simp [retry.OrClassifier]
    | cons c l ih =>
      simp only [retry.OrClassifier, List.mem_cons, exists_eq_or_imp]
      by_cases hc : c resp err = true
      · simp [hc]
      · simp [hc, ih]
  have hloop : ∀ l : List retry.Classifier,
      retry.AndClassifier.loop l resp err = true ↔ ∀ c ∈ l, c resp err = true := by
    intro l
    induction l with
    | nil => simp [retry.AndClassifier.loop]
    | cons c l ih =>
      simp only [retry.AndClassifier.loop, List.mem_cons, forall_eq_or_imp]
      by_cases hc : c resp err = true
      · simp [hc, ih]
      · simp [hc]
  refine ⟨hor cs, ?_, rfl, rfl⟩
  cases cs with
  | nil => simp [retry.AndClassifier]
  | cons c l =>
    have := hloop (c :: l)
    simp only [retry.AndClassifier, List.length_cons]
    simpa using this

/-! ## Retry wrapping -/

theorem Session.step_keeps_client {σ : Type} (pf : Platform σ) (s : Session σ) (c : Call σ) :
    (Session.step pf s c).client = s.client := by
  cases c with
  | onClient cc => cases cc <;> rfl
  | onRequest i rc =>
    simp only [Session.step]
    split <;> rfl

theorem Session.run_keeps_client {σ : Type} (pf : Platform σ) (calls : List (Call σ)) :
    ∀ s : Session σ, (Session.run pf s calls).client = s.client := by
  induction calls with
  | nil => intro s; rfl
  | cons c cs ih =>
    intro s
    have e : Session.run pf s (c :: cs) = Session.run pf (Session.step pf s c) cs := rfl
    rw [e, ih, Session.step_keeps_client]

/-- The sender of the client `New` returns. -/
theorem New_doer {σ : Type} (pf : Platform σ) (options : List (ClientOption σ)) (h : Heap σ) :
    (New pf options h).1.doer =
      (match plainSender pf (collect options) with
        | .httpClient client =>
          if (collect options).disableRetry then .httpClient client
          else .httpClient (pf.retryEnable client)
        | .other d => .other d) := by
  unfold New collect plainSender
  simp only [NewChain]
  generalize List.foldl (fun o opt => opt o) ({} : clientOptions σ) options = opts
  cases hc : opts.httpClient with
  | none => cases hd : opts.disableRetry <;> simp
  | some sender =>
    cases sender with
    | httpClient client => cases hd : opts.disableRetry <;> simp
    | other d => simp

/-! ## What the options leave in `clientOptions` -/

theorem ExportedOption.disableRetry {σ : Type} {opt : ClientOption σ}
    (ho : ExportedOption opt) :
    opt = DisableRetry ∨ ∀ o : clientOptions σ, (opt o).disableRetry = o.disableRetry := by
  rcases ho with h | ⟨ms, h⟩ | ⟨ms, h⟩ | ⟨s, h⟩ | ⟨p, v, h⟩ | ⟨t, h⟩
  · exact Or.inl h
  all_goals exact Or.inr (fun o => by rw [h]; rfl)

theorem ExportedOption.httpClient {σ : Type} {opt : ClientOption σ}
    (ho : ExportedOption opt) :
    (∃ s, opt = HTTPClient s) ∨ ∀ o : clientOptions σ, (opt o).httpClient = o.httpClient := by
  rcases ho with h | ⟨ms, h⟩ | ⟨ms, h⟩ | ⟨s, h⟩ | ⟨p, v, h⟩ | ⟨t, h⟩
  case inr.inr.inr.inl => exact Or.inl ⟨s, h⟩
  all_goals exact Or.inr (fun o => by rw [h]; rfl)

theorem ExportedOption.timeout {σ : Type} {opt : ClientOption σ}
    (ho : ExportedOption opt) :
    (∃ t, opt = Timeout t) ∨ ∀ o : clientOptions σ, (opt o).timeout = o.timeout := by
  rcases ho with h | ⟨ms, h⟩ | ⟨ms, h⟩ | ⟨s, h⟩ | ⟨p, v, h⟩ | ⟨t, h⟩
  case inr.inr.inr.inr.inr => exact Or.inl ⟨t, h⟩
  all_goals exact Or.inr (fun o => by rw [h]; rfl)

/-- An option changes nothing but the timeout when only the timeout differs. -/
theorem ExportedOption.timeout_swap {σ : Type} {opt : ClientOption σ}
    (ho : ExportedOption opt) (o : clientOptions σ) (t : Nat) :
    ∃ t1, opt { o with timeout := t } = { opt o with timeout := t1 } := by
  rcases ho with h | ⟨ms, h⟩ | ⟨ms, h⟩ | ⟨s, h⟩ | ⟨p, v, h⟩ | ⟨t2, h⟩
  case inr.inr.inr.inr.inr => exact ⟨t2, by rw [h]; rfl⟩
  all_goals exact ⟨t, by rw [h]; rfl⟩

theorem DisableRetry_ne_of_keeps {σ : Type} {opt : ClientOption σ}
    (hk : ∀ o : clientOptions σ, (opt o).disableRetry = o.disableRetry) :
    (DisableRetry : ClientOption σ) ≠ opt := by
  intro h
  have h1 := hk {}
  rw [← h] at h1
  exact Bool.noConfusion h1

theorem HTTPClient_ne_of_keeps {σ : Type} {opt : ClientOption σ}
    (hk : ∀ o : clientOptions σ, (opt o).httpClient = o.httpClient) (s : HTTPDoer σ) :
    HTTPClient s ≠ opt := by
  intro h
  have h1 := hk {}
  rw [← h] at h1
  exact Option.noConfusion h1

theorem foldl_disableRetry {σ : Type} (options : List (ClientOption σ))
    (hopts : ∀ o ∈ options, ExportedOption o) :
    ∀ o0 : clientOptions σ,
      (options.foldl (fun o opt => opt o) o0).disableRetry = true
        ↔ (o0.disableRetry = true ∨ DisableRetry ∈ options) := by
  induction options with
  | nil => intro o0; simp
  | cons opt rest ih =>
    intro o0
    rw [List.foldl_cons, ih (fun o ho => hopts o (List.mem_cons_of_mem _ ho))]
    rcases ExportedOption.disableRetry (hopts opt (List.mem_cons_self _ _)) with h | h
    · subst h
      simp [DisableRetry]
    · rw [h o0]
      have hne := DisableRetry_ne_of_keeps h
      simp [List.mem_cons, hne]

theorem foldl_httpClient_keep {σ : Type} (options : List (ClientOption σ))
    (hopts : ∀ o ∈ options, ExportedOption o) (hno : ∀ s, HTTPClient s ∉ options) :
    ∀ o0 : clientOptions σ,
      (options.foldl (fun o opt => opt o) o0).httpClient = o0.httpClient := by
  induction options with
  | nil => intro o0; rfl
  | cons opt rest ih =>
    intro o0
    rw [List.foldl_cons, ih (fun o ho => hopts o (List.mem_cons_of_mem _ ho))
      (fun s hs => hno s (List.mem_cons_of_mem _ hs))]
    rcases ExportedOption.httpClient (hopts opt (List.mem_cons_self _ _)) with ⟨s, h⟩ | h
    · exact absurd (h ▸ List.mem_cons_self _ _) (hno s)
    · exact h o0

theorem foldl_httpClient_none {σ : Type} (options : List (ClientOption σ))
    (hopts : ∀ o ∈ options, ExportedOption o) :
    ∀ o0 : clientOptions σ,
      (options.foldl (fun o opt => opt o) o0).httpClient = none
        ↔ (o0.httpClient = none ∧ ∀ s, HTTPClient s ∉ options) := by
  induction options with
  | nil => intro o0; simp
  | cons opt rest ih =>
    intro o0
    rw [List.foldl_cons, ih (fun o ho => hopts o (List.mem_cons_of_mem _ ho))]
    rcases ExportedOption.httpClient (hopts opt (List.mem_cons_self _ _)) with ⟨s, h⟩ | h
    · subst h
      constructor
      · intro hx
        exact Option.noConfusion hx.1
      · intro hx
        exact absurd (List.mem_cons_self _ _) (hx.2 s)
    · rw [h o0]
      have hne := HTTPClient_ne_of_keeps h
      simp [List.mem_cons, hne]

theorem foldl_timeout_keep {σ : Type} (options : List (ClientOption σ))
    (hopts : ∀ o ∈ options, ExportedOption o) (hno : ∀ t, Timeout t ∉ options) :
    ∀ o0 : clientOptions σ,
      (options.foldl (fun o opt => opt o) o0).timeout = o0.timeout := by
  induction options with
  | nil => intro o0; rfl
  | cons opt rest ih =>
    intro o0
    rw [List.foldl_cons, ih (fun o ho => hopts o (List.mem_cons_of_mem _ ho))
      (fun s hs => hno s (List.mem_cons_of_mem _ hs))]
    rcases ExportedOption.timeout (hopts opt (List.mem_cons_self _ _)) with ⟨t, h⟩ | h
    · exact absurd (h ▸ List.mem_cons_self _ _) (hno t)
    · exact h o0

theorem foldl_timeout_swap {σ : Type} (options : List (ClientOption σ))
    (hopts : ∀ o ∈ options, ExportedOption o) :
    ∀ (o0 : clientOptions σ) (t : Nat),
      ∃ t1, options.foldl (fun o opt => opt o) { o0 with timeout := t }
        = { options.foldl (fun o opt => opt o) o0 with timeout := t1 } := by
  induction options with
  | nil => intro o0 t; exact ⟨t, rfl⟩
  | cons opt rest ih =>
    intro o0 t
    obtain ⟨t1, h1⟩ := ExportedOption.timeout_swap (hopts opt (List.mem_cons_self _ _)) o0 t
    obtain ⟨t2, h2⟩ := ih (fun o ho => hopts o (List.mem_cons_of_mem _ ho)) (opt o0) t1
    exact ⟨t2, by rw [List.foldl_cons, List.foldl_cons, h1, h2]⟩

/-- `DisableRetry` is among the options exactly when the collected field is set. -/
theorem collect_disableRetry {σ : Type} (options : List (ClientOption σ))
    (hopts : ∀ o ∈ options, ExportedOption o) :
    (collect options).disableRetry = true ↔ DisableRetry ∈ options := by
  unfold collect
  rw [foldl_disableRetry options hopts]
  constructor
  · rintro (h | h)
    · exact Bool.noConfusion h
    · exact h
  · exact Or.inr

/-- With the timeout of the collected options changed, `New` builds the same
client when a sender was given. -/
theorem New_timeout_ignored {σ : Type} (pf : Platform σ) (h : Heap σ)
    (opts : clientOptions σ) (t1 : Nat) (options1 options2 : List (ClientOption σ))
    (h1 : collect options1 = { opts with timeout := t1 }) (h2 : collect options2 = opts)
    (hsender : opts.httpClient ≠ none) :
    New pf options1 h = New pf options2 h := by
  unfold New
  unfold collect at h1 h2
  rw [h1, h2]
  cases hc : opts.httpClient with
  | none => exact absurd hc hsender
  | some sender => simp only [hc]

/-- C15. The options are those of `options.go`.  `DisableRetry` sets the field
`disableRetry`, which is set exactly when `DisableRetry` is among the options;
the sender is the one of the last `HTTPClient` option, if any; the timeout is
the one of the last `Timeout` option, zero without one.  `New` wraps the
sender with `retry.Enable` exactly when `DisableRetry` was not given and the
sender (the default one, built with the timeout, or the one given with
`HTTPClient`) is an `*http.Client`.  With `DisableRetry`, or with a given
sender that is not an `*http.Client`, no wrapping occurs: the client sends
with that sender as it is, and when every middleware delegates once (whatever
classifier they install) `Send` invokes it exactly once.  A `Timeout` option,
wherever it stands, changes the timeout of the collected options only, and
`New` builds the same client with and without it when `HTTPClient` is
supplied. -/
theorem New_wraps_sender_unless_disabled {σ : Type} (pf : Platform σ)
    (options : List (ClientOption σ)) (hopts : ∀ o ∈ options, ExportedOption o)
    (h : Heap σ) (calls : List (Call σ))
    (i : Nat) (r : Request σ)
    (hr : (Session.run pf (Session.start pf options h) calls).requests[i]? = some r)
    (P R Q : List (Phases σ))
    (hP : Chain.Middlewares (Session.run pf (Session.start pf options h) calls).heap
        (Session.run pf (Session.start pf options h) calls).client.preMiddlewares
      = P.map Phases.toMiddleware)
    (hR : ((Session.run pf (Session.start pf options h) calls).heap[r.middlewares]?).map
        (fun ch => ch.middlewares) = some (R.map Phases.toMiddleware))
    (hQ : Chain.Middlewares (Session.run pf (Session.start pf options h) calls).heap
        (Session.run pf (Session.start pf options h) calls).client.postMiddlewares
      = Q.map Phases.toMiddleware)
    (w : σ) :
    ((collect options).disableRetry = true ↔ DisableRetry ∈ options) ∧
    ((collect options).httpClient = none ↔ ∀ s, HTTPClient s ∉ options) ∧
    (∀ pre s post, options = pre ++ HTTPClient s :: post → (∀ s2, HTTPClient s2 ∉ post) →
      (collect options).httpClient = some s) ∧
    ((∀ t, Timeout t ∉ options) → (collect options).timeout = 0) ∧
    (∀ pre t post, options = pre ++ Timeout t :: post → (∀ t2, Timeout t2 ∉ post) →
      (collect options).timeout = t) ∧
    (DisableRetry ∉ options →
      ((collect options).httpClient = none →
        (New pf options h).1.doer = .httpClient (pf.retryEnable
          { Timeout := (collect options).timeout, Transport := pf.DefaultTransport,
            Do := pf.clientDo })) ∧
      (∀ c, (collect options).httpClient = some (.httpClient c) →
        (New pf options h).1.doer = .httpClient (pf.retryEnable c))) ∧
    (DisableRetry ∈ options →
      ((collect options).httpClient = none →
        (New pf options h).1.doer = .httpClient
          { Timeout := (collect options).timeout, Transport := pf.DefaultTransport,
            Do := pf.clientDo }) ∧
      (∀ s, (collect options).httpClient = some s → (New pf options h).1.doer = s)) ∧
    (∀ d, (collect options).httpClient = some (.other d) →
      (New pf options h).1.doer = .other d) ∧
    ((DisableRetry ∈ options ∨ ∃ d, (collect options).httpClient = some (.other d)) →
      (New pf options h).1.doer = plainSender pf (collect options) ∧
      (r.Send (Session.run pf (Session.start pf options h) calls).heap w).1 =
        (buildResponse
          (inOrder P R Q (plainSender pf (collect options)).Do
            (EmptyRequest.WithContext (r.context.getD Context.Background)) w).1.1
          (inOrder P R Q (plainSender pf (collect options)).Do
            (EmptyRequest.WithContext (r.context.getD Context.Background)) w).1.2,
         (inOrder P R Q (plainSender pf (collect options)).Do
            (EmptyRequest.WithContext (r.context.getD Context.Background)) w).1.2) ∧
      (r.Send (Session.run pf (Session.start pf options h) calls).heap w).2.2 =
        (inOrder P R Q (plainSender pf (collect options)).Do
          (EmptyRequest.WithContext (r.context.getD Context.Background)) w).2) ∧
    (∀ pre post t, options = pre ++ post →
      (∃ t1, collect (pre ++ Timeout t :: post) = { collect options with timeout := t1 }) ∧
      ((collect options).httpClient ≠ none →
        New pf (pre ++ Timeout t :: post) h = New pf options h)) := by
  have hdoer := New_doer pf options h
  have hdis := collect_disableRetry options hopts
  have hnone : (collect options).httpClient = none ↔ ∀ s, HTTPClient s ∉ options := by
    unfold collect
    rw [foldl_httpClient_none options hopts]
    exact ⟨fun hx => hx.2, fun hx => ⟨rfl, hx⟩⟩
  have hswap : ∀ pre post t, options = pre ++ post →
      ∃ t1, collect (pre ++ Timeout t :: post) = { collect options with timeout := t1 } := by
    intro pre post t he
    subst he
    unfold collect
    simp only [List.foldl_append, List.foldl_cons]
    exact foldl_timeout_swap post (fun o ho => hopts o (List.mem_append_right _ ho)) _ t
  refine ⟨hdis, hnone, ?_, ?_, ?_, ?_, ?_, ?_, ?_, ?_⟩
  · intro pre s post he hno
    subst he
    unfold collect
    simp only [List.foldl_append, List.foldl_cons]
    rw [foldl_httpClient_keep post
      (fun o ho => hopts o (List.mem_append_right _ (List.mem_cons_of_mem _ ho))) hno]
    rfl
  · intro hno
    unfold collect
    rw [foldl_timeout_keep options hopts hno]
  · intro pre t post he hno
    subst he
    unfold collect
    simp only [List.foldl_append, List.foldl_cons]
    rw [foldl_timeout_keep post
      (fun o ho => hopts o (List.mem_append_right _ (List.mem_cons_of_mem _ ho))) hno]
    rfl
  · intro hnot
    have hd : (collect options).disableRetry = false := by
      cases hc : (collect options).disableRetry
      · rfl
      · exact absurd (hdis.mp hc) hnot
    refine ⟨?_, ?_⟩
    · intro hc
      rw [hdoer]
      simp [plainSender, hc, hd]
    · intro c hc
      rw [hdoer]
      simp [plainSender, hc, hd]
  · intro hin
    have hd : (collect options).disableRetry = true := hdis.mpr hin
    refine ⟨?_, ?_⟩
    · intro hc
      rw [hdoer]
      simp [plainSender, hc, hd]
    · intro s hc
      rw [hdoer]
      cases s <;> simp [plainSender, hc, hd]
  · intro d hc
    rw [hdoer]
    simp [plainSender, hc]
  · intro hcase
    have hplain : (New pf options h).1.doer = plainSender pf (collect options) := by
      rw [hdoer]
      rcases hcase with hd | ⟨d, hd⟩
      · have hd1 : (collect options).disableRetry = true := hdis.mpr hd
        cases hs : plainSender pf (collect options) with
        | httpClient client => simp [hd1]
        | other d => rfl
      · simp [plainSender, hd]
    have hs : Session.Reachable pf (Session.run pf (Session.start pf options h) calls) :=
      ⟨options, h, calls, rfl⟩
    have hcl : (Session.run pf (Session.start pf options h) calls).client.doer
        = plainSender pf (collect options) := by
      rw [Session.run_keeps_client]
      exact hplain
    refine ⟨hplain, ?_⟩
    rw [Request.Send_eq, hs.send_phases hr P R Q hP hR hQ, hcl]
    exact ⟨rfl, rfl⟩
  · intro pre post t he
    refine ⟨hswap pre post t he, ?_⟩
    intro hsender
    obtain ⟨t1, ht1⟩ := hswap pre post t he
    exact New_timeout_ignored pf h (collect options) t1 _ _ ht1 rfl hsender

theorem disableRetrySession_reachable :
    Session.Reachable retryPlatform disableRetrySession :=
  ⟨_, _, _, rfl⟩

theorem exported_HTTPClient {σ : Type} (s : HTTPDoer σ) : ExportedOption (HTTPClient s) :=
  Or.inr (Or.inr (Or.inr (Or.inl ⟨s, rfl⟩)))

theorem exported_DisableRetry {σ : Type} : ExportedOption (DisableRetry : ClientOption σ) :=
  Or.inl rfl

theorem DisableRetry_ne_HTTPClient {σ : Type} (s : HTTPDoer σ) :
    (DisableRetry : ClientOption σ) ≠ HTTPClient s :=
  DisableRetry_ne_of_keeps (fun _ => rfl)

/-- The test `TestDisableRetry`, where `retry.Enable` is the one of the retry
package, with a classifier that asks to retry everything and three attempts
allowed: with `DisableRetry` the transport is invoked once.  Without
`DisableRetry` the sender of the same options is wrapped. -/
theorem New_wraps_sender_unless_disabled_witness :
    (disableRetryRequest.Send disableRetrySession.heap {}).2.2.noCalls = 1 ∧
    (New retryPlatform [HTTPClient (.httpClient (exampleClient (trackClient 500 none)))] []).1.doer.Do
      = exampleClientDo 0 (retry.RoundTrip 1 World.consumed (trackClient 500 none)) := by
  constructor
  · have h := ((New_wraps_sender_unless_disabled retryPlatform
      [HTTPClient (.httpClient (exampleClient (trackClient 500 none))), DisableRetry]
      (by
        intro o ho
        simp only [List.mem_cons, List.mem_singleton, List.not_mem_nil, or_false] at ho
        rcases ho with rfl | rfl
        · exact exported_HTTPClient _
        · exact exported_DisableRetry)
      []
      [.onClient .request, .onRequest 0 (.use [retry.SetClassifier retryEverything]),
        .onRequest 0 (.use [retry.Times 3])]
      0 disableRetryRequest rfl [] [setClassifierPhases retryEverything, timesPhases 3] []
      rfl rfl rfl {}).2.2.2.2.2.2.2.2.1
      (Or.inl (List.mem_cons_of_mem _ (List.mem_cons_self _ _)))).2.2
    exact (congrArg World.noCalls h).trans rfl
  · have h := ((New_wraps_sender_unless_disabled retryPlatform
      [HTTPClient (.httpClient (exampleClient (trackClient 500 none)))]
      (by
        intro o ho
        simp only [List.mem_singleton] at ho
        subst ho
        exact exported_HTTPClient _)
      [] [.onClient .request] 0
      { Client := (New retryPlatform
          [HTTPClient (.httpClient (exampleClient (trackClient 500 none)))] []).1,
        middlewares := 2, context := some Context.Background }
      rfl [] [] [] rfl rfl rfl {}).2.2.2.2.2.1
      (by
        intro hin
        simp only [List.mem_singleton] at hin
        exact DisableRetry_ne_HTTPClient _ hin)).2
      (exampleClient (trackClient 500 none)) rfl
    rw [h]
    rfl

/-! ## Middlewares that read the response -/

/-- C19. When next returns an error, the handlers of `responsebody.JSON`,
`responsebody.String` and `responsebody.Writer` return exactly that error; the
response (its body not read) and the world (the decoded value, the string
pointer, the writer) are as next left them. -/
theorem responsebody_returns_prior_error {σ : Type}
    (readAll : Body → (String × Option Error) × Body)
    (unmarshal : String → σ → Option Error × σ) (store : String → σ → σ)
    (copy : Body → σ → (Option Error × Body) × σ)
    (next : Handler σ) (req : HttpRequest) (w : σ) (e : Error)
    (herr : (next req w).1.2 = some e) :
    responsebody.JSON readAll unmarshal next req w = (((next req w).1.1, some e), (next req w).2) ∧
    responsebody.String readAll store next req w = (((next req w).1.1, some e), (next req w).2) ∧
    responsebody.Writer copy next req w = (((next req w).1.1, some e), (next req w).2) := by
  refine ⟨?_, ?_, ?_⟩
  · show (match (next req w).1.2 with
      | some e => (((next req w).1.1, some e), (next req w).2)
      | none => _) = _
    rw [herr]
  · show (match (next req w).1.2 with
      | some e => (((next req w).1.1, some e), (next req w).2)
      | none => _) = _
    rw [herr]
  · show (match (next req w).1.2 with
      | some e => (((next req w).1.1, some e), (next req w).2)
      | none => _) = _
    rw [herr]

/-- The tests `TestJSON`, `TestString`, `TestWriter` in the case with an error:
the error comes back, the body is unread, the targets are untouched. -/
theorem responsebody_returns_prior_error_witness :
    responsebody.String exampleReadAll (fun v w => { w with name := v }) bodyAndErrorHandler
        EmptyRequest { name := "before" }
      = ((some { Body := some (NopCloser "foo bar") }, some (Error.mk "custom error")),
          { name := "before" }) :=
  (responsebody_returns_prior_error exampleReadAll exampleUnmarshal
    (fun v w => { w with name := v }) exampleCopy bodyAndErrorHandler EmptyRequest
    { name := "before" } (Error.mk "custom error") rfl).2.1

/-- C18, the code at a failing input: the response has no header `X-Count`.
With a `*string` destination that holds `"before"`, `ReadValue` stores the
empty string; with a `*int` destination it leaves the destination and reports
an error. -/
theorem ReadValue_missing_header :
    headers.ReadValue (fun k => k) exampleParseInt "X-Count"
        (.string (fun v w => { w with name := v })) noHeaderHandler EmptyRequest
        { name := "before" }
      = ((some { StatusCode := 200 }, none), { name := "" }) ∧
    headers.ReadValue (fun k => k) exampleParseInt "X-Count"
        (.int (fun v w => { w with count := v })) noHeaderHandler EmptyRequest
        { count := 7 }
      = ((some { StatusCode := 200 },
          some (Error.mk ("header value conversion to int failed: "
            ++ "strconv.ParseInt: parsing " ++ quoted "" ++ ": invalid syntax"))),
         { count := 7 }) := by
  decide

/-! ## Headers from the context -/

/-- C20. `FromContext(key)`: when the value stored in the request's context
under `key` is a `Header` or a `[]Header`, the handler sets the headers and
returns what next returns on that request, next being called once; in every
other case, also when the key is absent, it returns an error and does not call
next. -/
theorem FromContext_delegates_or_fails {σ : Type} (canon : String → String) (key : String)
    (next : Handler σ) (req : HttpRequest) (w : σ) :
    (∀ header : headers.Header, req.Context.Value key = some (.header header) →
      headers.FromContext canon key next req w
        = next { req with
            Header := header.Value.foldl (fun h v => HttpHeader.Set canon h header.Key v)
              req.Header } w) ∧
    (∀ hs : List headers.Header, req.Context.Value key = some (.headerList hs) →
      headers.FromContext canon key next req w
        = next { req with
            Header := hs.foldl
              (fun h hh => hh.Value.foldl (fun h v => HttpHeader.Set canon h hh.Key v) h)
              req.Header } w) ∧
    ((∀ header, req.Context.Value key ≠ some (.header header)) →
      (∀ hs, req.Context.Value key ≠ some (.headerList hs)) →
      (headers.FromContext canon key next req w).1.1 = none ∧
      (headers.FromContext canon key next req w).1.2 ≠ none ∧
      (headers.FromContext canon key next req w).2 = w ∧
      ∀ other : Handler σ,
        headers.FromContext canon key other req w = headers.FromContext canon key next req w) := by
  refine ⟨?_, ?_, ?_⟩
  · intro header hv
    simp only [headers.FromContext, MiddlewareFunc, HandlerFunc, hv]
  · intro hs hv
    simp only [headers.FromContext, MiddlewareFunc, HandlerFunc, hv]
  · intro h1 h2
    have key_eq : ∀ t : Handler σ, headers.FromContext canon key t req w
        = ((none, some (Error.mk "headers.FromContext middleware: value in unsupported format")),
            w) := by
      intro t
      simp only [headers.FromContext, MiddlewareFunc, HandlerFunc]
    refine ⟨by rw [key_eq], by rw [key_eq]; exact Option.noConfusion, by rw [key_eq], ?_⟩
    intro other
    rw [key_eq, key_eq]

/-- A request whose context holds a header under `"auth"` is forwarded to next;
a request whose context holds nothing under the key is answered with an error. -/
theorem FromContext_delegates_or_fails_witness :
    (headers.FromContext (fun k => k) "auth" (trackClient 200 none)
        (EmptyRequest.WithContext headerContext) {}).2.noCalls = 1 ∧
    (headers.FromContext (fun k => k) "auth" (trackClient 200 none) EmptyRequest {}).2.noCalls = 0 := by
  refine ⟨?_, ?_⟩
  · rw [(FromContext_delegates_or_fails (fun k => k) "auth" (trackClient 200 none)
      (EmptyRequest.WithContext headerContext) {}).1 { Key := "X-Token", Value := ["a", "b"] } rfl]
    rfl
  · rfl

/-! ## User agent -/

theorem HttpHeader.find?_set_present (ck value : String) (h : HttpHeader)
    (hany : h.any (fun kv => kv.1 == ck) = true) :
    ∃ k, (h.map (fun kv => if kv.1 == ck then (kv.1, [value]) else kv)).find?
      (fun kv => kv.1 == ck) = some (k, [value]) := by
  induction h with
  | nil => simp at hany
  | cons x xs ih =>
    by_cases hx : (x.1 == ck) = true
    · exact ⟨x.1, by simp [List.find?, hx]⟩
    · have hxs : xs.any (fun kv => kv.1 == ck) = true := by
        simp only [List.any_cons, Bool.or_eq_true] at hany
        rcases hany with h1 | h1
        · exact absurd h1 hx
        · exact h1
      obtain ⟨k, hk⟩ := ih hxs
      refine ⟨k, ?_⟩
      have hfx : (if x.1 == ck then (x.1, [value]) else x) = x := by simp [hx]
      have hx2 : (x.1 == ck) = false := by simpa using hx
      rw [List.map_cons, hfx, List.find?_cons]
      simp only [hx2]
      exact hk

theorem HttpHeader.find?_set_absent (ck value : String) (h : HttpHeader)
    (hany : h.any (fun kv => kv.1 == ck) = false) :
    (h ++ [(ck, [value])]).find? (fun kv => kv.1 == ck) = some (ck, [value]) := by
  induction h with
  | nil => simp [List.find?]
  | cons x xs ih =>
    simp only [List.any_cons, Bool.or_eq_false_iff] at hany
    simp only [List.cons_append, List.find?, hany.1]
    exact ih hany.2

/-- After `Set(key, value)`, `Get(key)` answers `value`. -/
theorem HttpHeader.get_set (canon : String → String) (h : HttpHeader) (key value : String) :
    HttpHeader.Get canon (HttpHeader.Set canon h key value) key = value := by
  unfold HttpHeader.Get HttpHeader.Set
  cases hany : h.any (fun kv => kv.1 == canon key)
  · simp only [Bool.false_eq_true, if_false]
    rw [HttpHeader.find?_set_absent _ _ _ hany]
  · simp only [if_true]
    obtain ⟨k, hk⟩ := HttpHeader.find?_set_present (canon key) value h hany
    rw [hk]

theorem runBefore_keeps {σ α : Type} (f : HttpRequest → α) (ps : List (Phases σ))
    (hkeep : ∀ p ∈ ps, ∀ req w, f (p.before req w).1 = f req) :
    ∀ x : HttpRequest × σ, f (runBefore ps x).1 = f x.1 := by
  induction ps with
  | nil => intro x; rfl
  | cons p ps ih =>
    intro x
    have e : runBefore (p :: ps) x = runBefore ps (p.before x.1 x.2) := rfl
    rw [e, ih (fun q hq => hkeep q (List.mem_cons_of_mem _ hq)),
      hkeep p (List.mem_cons_self _ _)]

theorem headers.Set_apply {σ : Type} (canon : String → String) (key value : String)
    (next : Handler σ) (req : HttpRequest) (w : σ) :
    headers.Set canon key value next req w
      = next { req with Header := HttpHeader.Set canon req.Header key value } w := rfl

theorem userAgent_string_eq {σ : Type} (pf : Platform σ) (p v : String) :
    UserAgent.String pf { Product := p, Version := v }
      = p ++ "/" ++ v ++ " " ++ pf.LibraryName ++ "/" ++ pf.LibraryVersion ++ " go/"
          ++ pf.runtimeVersion := by
  apply String.ext
  simp [UserAgent.String, String.data_append]

/-- C13. The string of `UserAgent{p, v}` is `p/v LibraryName/LibraryVersion
go/` followed by the runtime version, so it begins with `p/v `.  For a client
built with `ProductInfo(p, v)`, not both empty, where the middlewares of the
`Middlewares` option delegate once each and the middlewares that come later in
the pipeline delegate once each and leave the `User-Agent` header as it is, the
sender gets a request whose `User-Agent` is that string. -/
theorem user_agent_reaches_sender {σ : Type} (pf : Platform σ)
    (options : List (ClientOption σ)) (h : Heap σ) (calls : List (Call σ))
    (i : Nat) (r : Request σ)
    (hr : (Session.run pf (Session.start pf options h) calls).requests[i]? = some r)
    (p v : String) (hua : (collect options).userAgent = { Product := p, Version := v })
    (hne : ¬ (p = "" ∧ v = ""))
    (A B R Q : List (Phases σ))
    (hA : (collect options).middlewares = A.map Phases.toMiddleware)
    (hB : Chain.Middlewares (Session.run pf (Session.start pf options h) calls).heap
        (Session.run pf (Session.start pf options h) calls).client.preMiddlewares
      = Chain.Middlewares (Session.start pf options h).heap
          (Session.start pf options h).client.preMiddlewares ++ B.map Phases.toMiddleware)
    (hR : ((Session.run pf (Session.start pf options h) calls).heap[r.middlewares]?).map
        (fun ch => ch.middlewares) = some (R.map Phases.toMiddleware))
    (hQ : Chain.Middlewares (Session.run pf (Session.start pf options h) calls).heap
        (Session.run pf (Session.start pf options h) calls).client.postMiddlewares
      = Q.map Phases.toMiddleware)
    (hkeep : ∀ q ∈ B ++ R ++ Q, ∀ req w,
      HttpHeader.Get pf.canonicalKey (q.before req w).1.Header "User-Agent"
        = HttpHeader.Get pf.canonicalKey req.Header "User-Agent")
    (w : σ) :
    UserAgent.String pf { Product := p, Version := v }
      = p ++ "/" ++ v ++ " " ++ pf.LibraryName ++ "/" ++ pf.LibraryVersion ++ " go/"
          ++ pf.runtimeVersion ∧
    (∃ rest : String, UserAgent.String pf { Product := p, Version := v }
      = p ++ "/" ++ v ++ " " ++ rest) ∧
    ∃ (req : HttpRequest) (w1 : σ),
      HttpHeader.Get pf.canonicalKey req.Header "User-Agent"
        = UserAgent.String pf { Product := p, Version := v } ∧
      r.sender (Session.run pf (Session.start pf options h) calls).heap
          (EmptyRequest.WithContext (r.context.getD Context.Background)) w
        = runAfter A.reverse (runAfter (B ++ R ++ Q).reverse
            ((Session.run pf (Session.start pf options h) calls).client.doer.Do req w1)) := by
  refine ⟨userAgent_string_eq pf p v, ⟨pf.LibraryName ++ "/" ++ pf.LibraryVersion ++ " go/"
    ++ pf.runtimeVersion, ?_⟩, ?_⟩
  · rw [userAgent_string_eq]
    simp only [String.append_assoc]
  · have hs : Session.Reachable pf (Session.run pf (Session.start pf options h) calls) :=
      ⟨options, h, calls, rfl⟩
    have hempty : (collect options).userAgent.IsEmpty = false := by
      rw [hua]
      cases hc : UserAgent.IsEmpty { Product := p, Version := v }
      · rfl
      · exact absurd (by simpa [UserAgent.IsEmpty] using hc) hne
    have hstart : Chain.Middlewares (Session.start pf options h).heap
        (Session.start pf options h).client.preMiddlewares
        = A.map Phases.toMiddleware ++ [headers.Set pf.canonicalKey "User-Agent"
            (UserAgent.String pf { Product := p, Version := v })] := by
      have := (New_lists pf options h).1
      rw [hempty, hA, hua] at this
      simpa using this
    have hsend := hs.sender_lists hr hR
    rw [hB, hstart, hQ] at hsend
    have hlist : A.map Phases.toMiddleware ++ [headers.Set pf.canonicalKey "User-Agent"
            (UserAgent.String pf { Product := p, Version := v })] ++ B.map Phases.toMiddleware
          ++ R.map Phases.toMiddleware ++ Q.map Phases.toMiddleware
        = A.map Phases.toMiddleware ++ (headers.Set pf.canonicalKey "User-Agent"
            (UserAgent.String pf { Product := p, Version := v })
              :: (B ++ R ++ Q).map Phases.toMiddleware) := by
      simp [List.append_assoc]
    rw [hlist, List.foldr_append, List.foldr_cons] at hsend
    refine ⟨(runBefore (B ++ R ++ Q)
        ({ (runBefore A (EmptyRequest.WithContext (r.context.getD Context.Background), w)).1 with
            Header := HttpHeader.Set pf.canonicalKey
              (runBefore A (EmptyRequest.WithContext (r.context.getD Context.Background), w)).1.Header
              "User-Agent" (UserAgent.String pf { Product := p, Version := v }) },
          (runBefore A (EmptyRequest.WithContext (r.context.getD Context.Background), w)).2)).1,
      (runBefore (B ++ R ++ Q)
        ({ (runBefore A (EmptyRequest.WithContext (r.context.getD Context.Background), w)).1 with
            Header := HttpHeader.Set pf.canonicalKey
              (runBefore A (EmptyRequest.WithContext (r.context.getD Context.Background), w)).1.Header
              "User-Agent" (UserAgent.String pf { Product := p, Version := v }) },
          (runBefore A (EmptyRequest.WithContext (r.context.getD Context.Background), w)).2)).2,
      ?_, ?_⟩
    · rw [runBefore_keeps (fun rq => HttpHeader.Get pf.canonicalKey rq.Header "User-Agent")
        _ hkeep]
      exact HttpHeader.get_set _ _ _ _
    · rw [hsend, Phases.foldr_eq, headers.Set_apply, Phases.foldr_eq]

theorem userAgentSession_reachable : Session.Reachable examplePlatform userAgentSession :=
  ⟨_, _, _, rfl⟩

/-- The test `TestDefaultClientUserAgent`: the string begins with `foobar/0.1 `,
and the sender sees it in the `User-Agent` header. -/
theorem user_agent_reaches_sender_witness :
    (∃ rest : String, UserAgent.String examplePlatform { Product := "foobar", Version := "0.1" }
      = "foobar" ++ "/" ++ "0.1" ++ " " ++ rest) ∧
    (userAgentRequest.Send userAgentSession.heap {}).2.2.lastRequest.map
        (fun rq => HttpHeader.Get (fun k => k) rq.Header "User-Agent")
      = some "foobar/0.1 kioto/0.1 go/go1.20" :=
  ⟨(user_agent_reaches_sender examplePlatform
    [HTTPClient (.other (trackClient 200 none)), ProductInfo "foobar" "0.1"] []
    [.onClient .request, .onRequest 0 .get] 0 userAgentRequest rfl "foobar" "0.1" rfl
    (by decide) [] [] [methodPhases "GET"] [] rfl rfl rfl rfl
    (by
      intro q hq
      simp only [List.nil_append, List.append_nil, List.mem_singleton] at hq
      subst hq
      intro req w
      rfl) {}).2.1, by decide⟩

/-! ## The retry loop -/

theorem retry.resent_context (req : HttpRequest) :
    (retry.resent req).Context = req.Context := by
  unfold retry.resent
  split <;> rfl

theorem retry.replay_resendable {σ : Type} (consumed : Body → σ → Bool) (req : HttpRequest)
    (hbody : retry.Resendable consumed req) (w : σ) :
    retry.replay consumed req w = some (retry.resent req) := by
  unfold retry.replay retry.resent
  cases hb : req.Body with
  | none => rfl
  | some b =>
    cases hg : req.GetBody with
    | none =>
      rcases hbody with h | ⟨fresh, h⟩ | h
      · rw [hb] at h; exact Option.noConfusion h
      · rw [hg] at h; exact Option.noConfusion h
      · simp [h b hb w]
    | some g =>
      cases g with
      | ok fresh => rfl
      | error e =>
        rcases hbody with h | ⟨fresh, h⟩ | h
        · rw [hb] at h; exact Option.noConfusion h
        · rw [hg] at h
          exact Except.noConfusion (Option.some.inj h)
        · simp [h b hb w]

theorem retry.resent_resendable {σ : Type} (consumed : Body → σ → Bool) (req : HttpRequest)
    (hbody : retry.Resendable consumed req) :
    retry.Resendable consumed (retry.resent req) ∧
      retry.resent (retry.resent req) = retry.resent req := by
  unfold retry.resent
  cases hb : req.Body with
  | none => exact ⟨Or.inl hb, by simp [hb]⟩
  | some b =>
    cases hg : req.GetBody with
    | none =>
      refine ⟨?_, by simp [hb, hg]⟩
      simp only []
      exact hbody
    | some g =>
      cases g with
      | ok fresh =>
        refine ⟨Or.inr (Or.inl ⟨fresh, ?_⟩), by simp [hg]⟩
        simp only []
      | error e =>
        refine ⟨?_, by simp [hb, hg]⟩
        simp only []
        exact hbody

/-- The loop on a request that is sent again as it is, when the transport
always answers `r0` and the classifier asks to retry `r0`: the transport is
invoked `left + 1` times. -/
theorem retry.attempts_fixed {σ : Type} (consumed : Body → σ → Bool) (transport : Handler σ)
    (k : retry.Classifier)
    (r0 : HttpResponse) (hT : ∀ req w, (transport req w).1 = (some r0, none))
    (hk : k (some r0) none = true) (req : HttpRequest)
    (hctx : req.Context.Err = none) (hreplay : ∀ w, retry.replay consumed req w = some req) :
    ∀ (left : Nat) (w : σ),
      retry.attempts consumed transport k left req w
        = ((some r0, none), (fun w1 => (transport req w1).2)^[left + 1] w) := by
  intro left
  induction left with
  | zero =>
    intro w
    show transport req w = _
    exact Prod.ext (hT req w) rfl
  | succ left ih =>
    intro w
    have e : retry.attempts consumed transport k (left + 1) req w
        = retry.attempts consumed transport k left req (transport req w).2 := by
      simp only [retry.attempts, hT, hk, hctx, hreplay, if_true]
    rw [e, ih, Function.iterate_succ_apply (n := left + 1)]

/-- The loop on a request that can be sent again: the transport is invoked
once with the request and `left` times with the request as it is sent again. -/
theorem retry.attempts_resendable {σ : Type} (consumed : Body → σ → Bool)
    (transport : Handler σ) (k : retry.Classifier)
    (r0 : HttpResponse) (hT : ∀ req w, (transport req w).1 = (some r0, none))
    (hk : k (some r0) none = true) (req : HttpRequest)
    (hctx : req.Context.Err = none) (hbody : retry.Resendable consumed req)
    (left : Nat) (w : σ) :
    retry.attempts consumed transport k left req w
      = ((some r0, none),
          (fun w1 => (transport (retry.resent req) w1).2)^[left] (transport req w).2) := by
  obtain ⟨hb1, hfix⟩ := retry.resent_resendable consumed req hbody
  cases left with
  | zero =>
    show transport req w = _
    exact Prod.ext (hT req w) rfl
  | succ left =>
    have e : retry.attempts consumed transport k (left + 1) req w
        = retry.attempts consumed transport k left (retry.resent req) (transport req w).2 := by
      simp only [retry.attempts, hT, hk, hctx, retry.replay_resendable consumed req hbody,
        if_true]
    rw [e, retry.attempts_fixed consumed transport k r0 hT hk (retry.resent req)
      (by rw [retry.resent_context]; exact hctx)
      (fun w1 => by rw [retry.replay_resendable consumed _ hb1, hfix])]

theorem retry.OrClassifier_of_mem (cs : List retry.Classifier) (k : retry.Classifier)
    (hmem : k ∈ cs) (resp : Option HttpResponse) (err : Option Error)
    (hk : k resp err = true) : retry.OrClassifier cs resp err = true := by
  induction cs with
  | nil => simp at hmem
  | cons c cs ih =>
    simp only [retry.OrClassifier]
    by_cases hc : c resp err = true
    · simp [hc]
    · simp only [hc, if_false]
      rcases List.mem_cons.mp hmem with h | h
      · subst h
        exact absurd hk hc
      · exact ih h

theorem runAfter_forwards {σ : Type} (ps : List (Phases σ)) (hfw : ∀ p ∈ ps, p.Forwards) :
    ∀ x : Result × σ, (runAfter ps x).1 = x.1 := by
  induction ps with
  | nil => intro x; rfl
  | cons p ps ih =>
    intro x
    have e : runAfter (p :: ps) x = runAfter ps (p.after x.1 x.2) := rfl
    rw [e, ih (fun q hq => hfw q (List.mem_cons_of_mem _ hq)), hfw p (List.mem_cons_self _ _)]

/-- C16, as amended. The options are those of `options.go`, without
`DisableRetry`, and the sender is an `*http.Client` (which `New` wraps) whose
transport always returns the response `r0` with a nil error and whose `Do`
returns such an answer of its transport as it is.  The middlewares of the
pipeline delegate once each.  The request that reaches the sender is `sent`:
the classifier `K`, with `K(r0, nil) == true`, is among the classifiers
installed on it, the attempt count installed on it is `n >= 1`, as
`SetClassifier(K)` and `Times(n)` install them; its context is not cancelled;
and it can be sent again: it has no body, or its body provider produces a
fresh body, or the body is never consumed.  Then one `Send` invokes the
transport exactly `n` times, once with `sent` and `n - 1` times with `sent` as
it is sent again (which is `n` in all); and when the middlewares return what
next returned, `Send` returns `r0` with a nil error. -/
theorem retry_invokes_transport_n_times {σ : Type} (pf : Platform σ) (d : Nat)
    (consumed : Body → σ → Bool)
    (hpf : pf.retryEnable = retry.Enable d consumed)
    (options : List (ClientOption σ)) (hopts : ∀ o ∈ options, ExportedOption o)
    (h : Heap σ) (calls : List (Call σ))
    (i : Nat) (r : Request σ)
    (hr : (Session.run pf (Session.start pf options h) calls).requests[i]? = some r)
    (hdis : DisableRetry ∉ options) (c : HttpClient σ)
    (hsender : plainSender pf (collect options) = .httpClient c)
    (K : retry.Classifier) (n : Nat) (hn : 1 ≤ n) (r0 : HttpResponse)
    (hT : ∀ req w, (c.Transport req w).1 = (some r0, none))
    (hDo : ∀ (t : Handler σ) (req : HttpRequest) (w : σ),
      (t req w).1 = (some r0, none) → c.Do c.Timeout t req w = t req w)
    (hK : K (some r0) none = true)
    (P R Q : List (Phases σ))
    (hP : Chain.Middlewares (Session.run pf (Session.start pf options h) calls).heap
        (Session.run pf (Session.start pf options h) calls).client.preMiddlewares
      = P.map Phases.toMiddleware)
    (hR : ((Session.run pf (Session.start pf options h) calls).heap[r.middlewares]?).map
        (fun ch => ch.middlewares) = some (R.map Phases.toMiddleware))
    (hQ : Chain.Middlewares (Session.run pf (Session.start pf options h) calls).heap
        (Session.run pf (Session.start pf options h) calls).client.postMiddlewares
      = Q.map Phases.toMiddleware)
    (w : σ) (sent : HttpRequest) (w0 : σ)
    (hsent : runBefore Q (runBefore R (runBefore P
      (EmptyRequest.WithContext (r.context.getD Context.Background), w))) = (sent, w0))
    (hKin : K ∈ retry.classifiers sent.Context)
    (hnin : sent.Context.Value retry.timesKey = some (.times n))
    (hctx : sent.Context.Err = none)
    (hbody : retry.Resendable consumed sent) :
    (r.Send (Session.run pf (Session.start pf options h) calls).heap w).2.2
      = (runAfter P.reverse (runAfter R.reverse (runAfter Q.reverse
          ((some r0, none),
            (fun w1 => (c.Transport (retry.resent sent) w1).2)^[n - 1]
              (c.Transport sent w0).2)))).2 ∧
    (n - 1) + 1 = n ∧
    ((∀ p ∈ P ++ R ++ Q, p.Forwards) →
      (r.Send (Session.run pf (Session.start pf options h) calls).heap w).1
        = (buildResponse (some r0) none, none)) ∧
    (setClassifierPhases K).toMiddleware = (retry.SetClassifier K : Middleware σ) ∧
    (timesPhases n).toMiddleware = (retry.Times n : Middleware σ) ∧
    (∀ (req : HttpRequest) (w1 : σ) (ps : List (Phases σ)),
      (∀ p ∈ ps, ∀ rq w2, (p.before rq w2).1.Context = rq.Context) →
      K ∈ retry.classifiers
        (runBefore ([setClassifierPhases K, timesPhases n] ++ ps) (req, w1)).1.Context ∧
      (runBefore ([setClassifierPhases K, timesPhases n] ++ ps) (req, w1)).1.Context.Value
        retry.timesKey = some (.times n)) := by
  have hs : Session.Reachable pf (Session.run pf (Session.start pf options h) calls) :=
    ⟨options, h, calls, rfl⟩
  have hd : (collect options).disableRetry = false := by
    cases hc : (collect options).disableRetry
    · rfl
    · exact absurd ((collect_disableRetry options hopts).mp hc) hdis
  have hdoer : (Session.run pf (Session.start pf options h) calls).client.doer.Do
      = c.Do c.Timeout (retry.RoundTrip d consumed c.Transport) := by
    rw [Session.run_keeps_client]
    have h1 : (Session.start pf options h).client.doer = (New pf options h).1.doer := rfl
    rw [h1, New_doer, hsender]
    simp only [hd, hpf]
    rfl
  have hk : retry.effectiveClassifier sent.Context (some r0) none = true :=
    retry.OrClassifier_of_mem _ K hKin _ _ hK
  have hmax : retry.maxAttempts d sent.Context = n := by
    simp only [retry.maxAttempts, hnin]
  have hloop : retry.RoundTrip d consumed c.Transport sent w0
      = ((some r0, none), (fun w1 => (c.Transport (retry.resent sent) w1).2)^[n - 1]
          (c.Transport sent w0).2) := by
    unfold retry.RoundTrip
    rw [hmax]
    exact retry.attempts_resendable consumed c.Transport _ r0 hT hk sent hctx hbody _ _
  have hsend := hs.send_phases hr P R Q hP hR hQ
    (EmptyRequest.WithContext (r.context.getD Context.Background)) w
  rw [hsent, hdoer] at hsend
  simp only [] at hsend
  rw [hDo _ sent w0 (by rw [hloop]), hloop] at hsend
  refine ⟨?_, by omega, ?_, rfl, rfl, ?_⟩
  · rw [Request.Send_eq, hsend]
  · intro hfw
    have hres : (runAfter P.reverse (runAfter R.reverse (runAfter Q.reverse
        ((some r0, none), (fun w1 => (c.Transport (retry.resent sent) w1).2)^[n - 1]
            (c.Transport sent w0).2)))).1 = (some r0, none) := by
      rw [← runAfter_append, ← runAfter_append, runAfter_forwards]
      intro p hp
      apply hfw
      simp only [List.mem_append, List.mem_reverse] at hp ⊢
      tauto
    rw [Request.Send_eq, hsend]
    simp only [hres]
  · intro req w1 ps hkeep
    rw [runBefore_append, runBefore_keeps (fun rq => rq.Context) ps hkeep]
    refine ⟨?_, ?_⟩
    · simp [retry.classifiers, setClassifierPhases, timesPhases, runBefore,
        HttpRequest.WithContext, HttpRequest.Context, Context.WithValue,
        List.filterMap_append, retry.classifierKey, retry.timesKey]
    · simp [setClassifierPhases, timesPhases, runBefore, HttpRequest.WithContext,
        HttpRequest.Context, Context.WithValue, Context.Value, List.find?]

theorem retrySession_reachable : Session.Reachable retryPlatform retrySession :=
  ⟨_, _, _, rfl⟩

/-- The test `TestRetry`: a sender that always answers 500, a classifier that
asks to retry status 500 and above, `Times(3)`: the sender is invoked exactly
three times. -/
theorem retry_invokes_transport_n_times_witness :
    (retryRequest.Send retrySession.heap {}).2.2.noCalls = 3 := by
  have h := (retry_invokes_transport_n_times retryPlatform 1 World.consumed rfl
    [HTTPClient (.httpClient (exampleClient (trackClient 500 none)))]
    (by
      intro o ho
      simp only [List.mem_singleton] at ho
      subst ho
      exact exported_HTTPClient _)
    []
    [.onClient .request, .onRequest 0 .get,
      .onRequest 0 (.use [retry.SetClassifier on500]), .onRequest 0 (.use [retry.Times 3])]
    0 retryRequest rfl
    (by
      intro hin
      simp only [List.mem_singleton] at hin
      exact DisableRetry_ne_HTTPClient _ hin)
    (exampleClient (trackClient 500 none)) rfl on500 3 (by decide)
    { StatusCode := 500 } (fun _ _ => rfl)
    (by
      intro t req w ht
      show exampleClientDo 0 t req w = t req w
      unfold exampleClientDo
      rcases hx : t req w with ⟨⟨resp, err⟩, w1⟩
      rw [hx] at ht
      cases Prod.mk.inj ht with
      | intro h1 h2 =>
        subst h2
        rfl)
    rfl [] [methodPhases "GET", setClassifierPhases on500, timesPhases 3] [] rfl rfl rfl
    {} _ _ rfl
    (by simp [retry.classifiers, setClassifierPhases, timesPhases, methodPhases, runBefore,
      HttpRequest.WithContext, HttpRequest.Context, Context.WithValue, EmptyRequest,
      Context.Background, retry.classifierKey, retry.timesKey])
    rfl rfl (Or.inl rfl)).1
  exact (congrArg World.noCalls h).trans rfl

/-- C16, a counterexample: the same client, classifier and `Times(3)`, but the
request carries a body (set with `Body`, no body provider) and the transport
reads the body before it answers, as a transport does.  The transport always
answers 500, which the classifier asks to retry; after the first exchange the
body has been consumed, and the transport is invoked once, not three times. -/
theorem retry_skipped_when_body_consumed :
    (retryBodySession.heap[retryBodyRequest.middlewares]?).map (fun ch => ch.middlewares)
      = some [body.Reader (some (.stringsReader "payload")), retry.SetClassifier on500,
          retry.Times 3] ∧
    retryBodySession.client.doer.Do
      = exampleClientDo 0 (retry.RoundTrip 1 World.consumed (readingClient 500 none)) ∧
    (∀ req w, (readingClient 500 none req w).1 = (some { StatusCode := 500 }, none)) ∧
    on500 (some { StatusCode := 500 }) none = true ∧
    (retryBodyRequest.Send retryBodySession.heap {}).2.2.lastRequest.map
        (fun req => (req.Body, req.GetBody.isSome, req.Context.Err))
      = some (some (NopCloser "payload"), false, none) ∧
    World.consumed (NopCloser "payload")
      (retryBodyRequest.Send retryBodySession.heap {}).2.2 = true ∧
    (retryBodyRequest.Send retryBodySession.heap {}).1.1.map
        (fun resp => resp.Response.map (fun raw => raw.StatusCode)) = some (some 500) ∧
    (retryBodyRequest.Send retryBodySession.heap {}).2.2.noCalls = 1 ∧
    (retryBodyRequest.Send retryBodySession.heap {}).2.2.noCalls ≠ 3 :=
  ⟨rfl, rfl, fun _ _ => rfl, rfl, by decide, by decide, by decide, by decide, by decide⟩

/-! ## Request processors -/

/-- A request processor whose function reports no error forwards the request
the function made to next. -/
theorem RequestProcessor_ok {σ : Type} (rp : HttpRequest → HttpRequest × Option Error)
    (req : HttpRequest) (h : (rp req).2 = none) (next : Handler σ) (w : σ) :
    RequestProcessor rp next req w = next (rp req).1 w := by
  unfold RequestProcessor
  rcases hrp : rp req with ⟨req1, err⟩
  rw [hrp] at h
  simp only at h
  subst h
  rfl

/-- A request processor whose function reports an error returns it and does
not call next. -/
theorem RequestProcessor_error {σ : Type} (rp : HttpRequest → HttpRequest × Option Error)
    (req : HttpRequest) (e : Error) (h : (rp req).2 = some e) (next : Handler σ) (w : σ) :
    RequestProcessor rp next req w = ((none, some e), w) := by
  unfold RequestProcessor
  rcases hrp : rp req with ⟨req1, err⟩
  rw [hrp] at h
  simp only at h
  subst h
  rfl

/-! ## Body middlewares and the method -/

theorem encoded_promotes {σ τ : Type} (canon : String → String)
    (encode : τ → Except Error String) (contentType : String) (data : BodyData τ)
    (hok : ∀ v, data = .value v → ∃ b, encode v = .ok b) :
    body.Promotes (σ := σ) (body.encoded canon encode contentType data) := by
  intro req
  cases data with
  | string d => exact ⟨_, fun next w => RequestProcessor_ok _ req rfl next w, rfl⟩
  | bytes d => exact ⟨_, fun next w => RequestProcessor_ok _ req rfl next w, rfl⟩
  | value v =>
    obtain ⟨b, hb⟩ := hok v rfl
    refine ⟨_, fun next w => RequestProcessor_ok _ req ?_ next w, ?_⟩
    · simp only [hb]
    · simp only [hb]

theorem encoded_fails {σ τ : Type} (canon : String → String)
    (encode : τ → Except Error String) (contentType : String) (v : τ) (e : Error)
    (herr : encode v = .error e) (next : Handler σ) (req : HttpRequest) (w : σ) :
    body.encoded canon encode contentType (.value v) next req w = ((none, some e), w) := by
  refine RequestProcessor_error _ req e ?_ next w
  simp only [herr]

theorem Reader_promotes {σ : Type} (rd : Option IoReader) :
    body.Promotes (σ := σ) (body.Reader rd) := by
  intro req
  rcases rd with _ | (d | d | d | b | d) <;>
    exact ⟨_, fun next w => RequestProcessor_ok _ req rfl next w, rfl⟩

/-- C21. Each of `body.String`, `body.JSON`, `body.XML` and `body.Reader` (also
`Reader(nil)`), on a request on which it succeeds (`JSON` and `XML` fail only
when the encoder fails), forwards the request with the method `POST` if the
method was `GET` or empty, and with the method it had otherwise.  So
`Request.Get().Body(r)` sends a `POST` and `Request.Body(r).Get()` sends a
`GET`.  `getMethod` is idempotent and never answers `GET` or the empty
string. -/
theorem body_promotes_get_to_post {σ τ : Type} (pf : Platform σ) (s : Session σ)
    (hs : Session.Reachable pf s) (i : Nat) (r : Request σ) (hr : s.requests[i]? = some r)
    (hP : Chain.Middlewares s.heap s.client.preMiddlewares = [])
    (hQ : Chain.Middlewares s.heap s.client.postMiddlewares = [])
    (canon : String → String) (encode : τ → Except Error String)
    (rd : Option IoReader) (w : σ) :
    (∀ data : String, body.Promotes (σ := σ) (body.String data)) ∧
    (∀ reader : Option IoReader, body.Promotes (σ := σ) (body.Reader reader)) ∧
    body.Promotes (σ := σ) (body.Reader none) ∧
    (∀ data : BodyData τ, (∀ v, data = .value v → ∃ b, encode v = .ok b) →
      body.Promotes (σ := σ) (body.JSON canon encode data) ∧
      body.Promotes (σ := σ) (body.XML canon encode data)) ∧
    (∀ (v : τ) (e : Error), encode v = .error e →
      ∀ (next : Handler σ) (req : HttpRequest) (w1 : σ),
        body.JSON canon encode (.value v) next req w1 = ((none, some e), w1) ∧
        body.XML canon encode (.value v) next req w1 = ((none, some e), w1)) ∧
    (∀ req : HttpRequest,
      (req.Method = "GET" ∨ req.Method = "" → body.getMethod req = "POST") ∧
      (¬ (req.Method = "GET" ∨ req.Method = "") → body.getMethod req = req.Method) ∧
      body.getMethod { req with Method := body.getMethod req } = body.getMethod req ∧
      body.getMethod req ≠ "GET" ∧ body.getMethod req ≠ "") ∧
    ((s.heap[r.middlewares]?).map (fun ch => ch.middlewares)
        = some [headers.Method "GET", body.Reader rd] →
      ∃ req : HttpRequest, req.Method = "POST" ∧
        (r.Send s.heap w).1
          = (buildResponse (r.Client.doer.Do req w).1.1 (r.Client.doer.Do req w).1.2,
              (r.Client.doer.Do req w).1.2) ∧
        (r.Send s.heap w).2.2 = (r.Client.doer.Do req w).2) ∧
    ((s.heap[r.middlewares]?).map (fun ch => ch.middlewares)
        = some [body.Reader rd, headers.Method "GET"] →
      ∃ req : HttpRequest, req.Method = "GET" ∧
        (r.Send s.heap w).1
          = (buildResponse (r.Client.doer.Do req w).1.1 (r.Client.doer.Do req w).1.2,
              (r.Client.doer.Do req w).1.2) ∧
        (r.Send s.heap w).2.2 = (r.Client.doer.Do req w).2) := by
  have hcl := (hs.request_chain hr).1
  have hget : ∀ req : HttpRequest,
      (req.Method = "GET" ∨ req.Method = "" → body.getMethod req = "POST") ∧
      (¬ (req.Method = "GET" ∨ req.Method = "") → body.getMethod req = req.Method) := by
    intro req
    constructor
    · intro h; simp [body.getMethod, h]
    · intro h; simp [body.getMethod, h]
  refine ⟨?_, Reader_promotes, Reader_promotes none, ?_, ?_, ?_, ?_, ?_⟩
  · intro data req
    exact ⟨_, fun next w => RequestProcessor_ok _ req rfl next w, rfl⟩
  · intro data hok
    exact ⟨encoded_promotes canon encode _ data hok,
      encoded_promotes canon encode _ data hok⟩
  · intro v e herr next req w1
    exact ⟨encoded_fails canon encode _ v e herr next req w1,
      encoded_fails canon encode _ v e herr next req w1⟩
  · intro req
    refine ⟨(hget req).1, (hget req).2, ?_, ?_, ?_⟩
    · by_cases h : req.Method = "GET" ∨ req.Method = ""
      · rw [(hget req).1 h]; rfl
      · have e : ({ req with Method := req.Method } : HttpRequest) = req := by
          cases req
          rfl
        rw [(hget req).2 h, e, (hget req).2 h]
    · by_cases h : req.Method = "GET" ∨ req.Method = ""
      · rw [(hget req).1 h]; decide
      · rw [(hget req).2 h]; exact fun h1 => h (Or.inl h1)
    · by_cases h : req.Method = "GET" ∨ req.Method = ""
      · rw [(hget req).1 h]; decide
      · rw [(hget req).2 h]; exact fun h1 => h (Or.inr h1)
  · intro hR
    obtain ⟨req1, hfw, hm⟩ := Reader_promotes (σ := σ) rd
      { EmptyRequest.WithContext (r.context.getD Context.Background) with Method := "GET" }
    refine ⟨req1, by rw [hm]; rfl, ?_⟩
    rw [Request.Send_eq, hs.sender_lists hr hR, hP, hQ, hcl]
    simp only [List.nil_append, List.append_nil, List.foldr_cons, List.foldr_nil]
    rw [headers.Method_apply, hfw]
    exact ⟨rfl, rfl⟩
  · intro hR
    obtain ⟨req1, hfw, _⟩ := Reader_promotes (σ := σ) rd
      (EmptyRequest.WithContext (r.context.getD Context.Background))
    refine ⟨{ req1 with Method := "GET" }, rfl, ?_⟩
    rw [Request.Send_eq, hs.sender_lists hr hR, hP, hQ, hcl]
    simp only [List.nil_append, List.append_nil, List.foldr_cons, List.foldr_nil]
    rw [hfw, headers.Method_apply]
    exact ⟨rfl, rfl⟩

theorem getBodySession_reachable : Session.Reachable examplePlatform getBodySession :=
  ⟨_, _, _, rfl⟩

/-- `Request.Get().Body(r)` sends a `POST`; `Request.Body(r).Get()` sends a
`GET`. -/
theorem body_promotes_get_to_post_witness :
    (∃ req : HttpRequest, req.Method = "POST" ∧
      (getBodyRequest.Send getBodySession.heap {}).2.2
        = (getBodyRequest.Client.doer.Do req {}).2) ∧
    (getBodyRequest.Send getBodySession.heap {}).2.2.lastRequest.map (fun rq => rq.Method)
      = some "POST" ∧
    (bodyGetRequest.Send bodyGetSession.heap {}).2.2.lastRequest.map (fun rq => rq.Method)
      = some "GET" := by
  obtain ⟨req, h1, _, h3⟩ := (body_promotes_get_to_post (τ := Nat) examplePlatform getBodySession
    getBodySession_reachable 0 getBodyRequest rfl rfl rfl (fun k => k)
    (fun n => .ok (toString n)) (some (.stringsReader "some content")) {}).2.2.2.2.2.2.1 rfl
  exact ⟨⟨req, h1, h3⟩, by decide, by decide⟩

/-! ## URLs -/

/-- C22. When `url.Parse` accepts the raw URL with result `u`, `parseURL`
returns `u` with the scheme `https` if `u` has an empty scheme and a host or a
path that is not empty, and `u` as it is otherwise: a scheme that is set is
kept, and a URL with empty scheme, host and path keeps the empty scheme.  When
`url.Parse` fails, `parseURL` returns its error, and `url.URL` and
`url.BaseURL` return that error without calling next: no request is
forwarded. -/
theorem parseURL_defaults_scheme {σ : Type} (parse : String → Except Error NetURL)
    (rawURL : String) :
    (∀ u, parse rawURL = .ok u →
      (u.Scheme = "" ∧ (u.Host ≠ "" ∨ u.Path ≠ "") →
        url.parseURL parse rawURL = .ok { u with Scheme := "https" }) ∧
      (¬ (u.Scheme = "" ∧ (u.Host ≠ "" ∨ u.Path ≠ "")) →
        url.parseURL parse rawURL = .ok u) ∧
      (u.Scheme ≠ "" → url.parseURL parse rawURL = .ok u) ∧
      (u.Scheme = "" → u.Host = "" → u.Path = "" → url.parseURL parse rawURL = .ok u) ∧
      (∀ (next : Handler σ) (req : HttpRequest) (w : σ),
        ∃ u1, url.parseURL parse rawURL = .ok u1 ∧
          url.URL parse rawURL next req w = next { req with URL := u1 } w ∧
          url.BaseURL parse rawURL next req w
            = next { req with URL := { req.URL with Scheme := u1.Scheme, Host := u1.Host } }
                w)) ∧
    (∀ e, parse rawURL = .error e →
      url.parseURL parse rawURL = .error e ∧
      ∀ (next : Handler σ) (req : HttpRequest) (w : σ),
        url.URL parse rawURL next req w = ((none, some e), w) ∧
        url.BaseURL parse rawURL next req w = ((none, some e), w)) := by
  refine ⟨?_, ?_⟩
  · intro u hu
    have h1 : u.Scheme = "" ∧ (u.Host ≠ "" ∨ u.Path ≠ "") →
        url.parseURL parse rawURL = .ok { u with Scheme := "https" } := by
      intro h
      simp only [url.parseURL, hu]
      rw [if_pos h]
    have h2 : ¬ (u.Scheme = "" ∧ (u.Host ≠ "" ∨ u.Path ≠ "")) →
        url.parseURL parse rawURL = .ok u := by
      intro h
      simp only [url.parseURL, hu]
      rw [if_neg h]
    refine ⟨h1, h2, fun hs => h2 (fun h => hs h.1), ?_, ?_⟩
    · intro _ hh hp
      exact h2 (fun h => h.2.elim (fun x => x hh) (fun x => x hp))
    · intro next req w
      by_cases h : u.Scheme = "" ∧ (u.Host ≠ "" ∨ u.Path ≠ "")
      · refine ⟨_, h1 h, ?_, ?_⟩
        · exact RequestProcessor_ok _ req (by simp only [h1 h]) next w
            |>.trans (by simp only [h1 h])
        · exact RequestProcessor_ok _ req (by simp only [h1 h]) next w
            |>.trans (by simp only [h1 h])
      · refine ⟨_, h2 h, ?_, ?_⟩
        · exact RequestProcessor_ok _ req (by simp only [h2 h]) next w
            |>.trans (by simp only [h2 h])
        · exact RequestProcessor_ok _ req (by simp only [h2 h]) next w
            |>.trans (by simp only [h2 h])
  · intro e he
    have h1 : url.parseURL parse rawURL = .error e := by
      simp only [url.parseURL, he]
    refine ⟨h1, fun next req w => ⟨?_, ?_⟩⟩
    · exact RequestProcessor_error _ req e (by simp only [h1]) next w
    · exact RequestProcessor_error _ req e (by simp only [h1]) next w

/-- A raw URL without scheme gets the scheme `https`; the test `TestURL`, with
the scheme `http`, keeps it. -/
theorem parseURL_defaults_scheme_witness :
    url.parseURL exampleParse "foobar" = .ok { Scheme := "https", Path := "foobar" } ∧
    url.parseURL exampleParse "http://example.com/foobar"
      = .ok { Scheme := "http", Host := "example.com", Path := "/foobar" } :=
  ⟨((parseURL_defaults_scheme (σ := World) exampleParse "foobar").1 { Path := "foobar" }
      rfl).1 (by decide),
    ((parseURL_defaults_scheme (σ := World) exampleParse "http://example.com/foobar").1
      { Scheme := "http", Host := "example.com", Path := "/foobar" } rfl).2.2.1
      (by decide)⟩

/-! ## Several values of one header from the context -/

/-- After `Set` for each value in turn, the key holds the last value alone. -/
theorem HttpHeader.values_set (canon : String → String) (h : HttpHeader) (key value : String) :
    HttpHeader.Values canon (HttpHeader.Set canon h key value) key = [value] := by
  unfold HttpHeader.Values HttpHeader.Set
  cases hany : h.any (fun kv => kv.1 == canon key)
  · simp only [Bool.false_eq_true, if_false]
    rw [HttpHeader.find?_set_absent _ _ _ hany]
  · simp only [if_true]
    obtain ⟨k, hk⟩ := HttpHeader.find?_set_present (canon key) value h hany
    rw [hk]

/-- C23, the code at a failing input: the context holds, as `ToContext` puts
it, the header `X-Token` with the two values `a` and `b`.  The request that
`FromContext` forwards holds `b` alone under `X-Token`, not `a` and `b`; and
whatever the values are, what the key holds afterwards is the last one
alone. -/
theorem FromContext_keeps_last_value_only :
    headerContext.Value "auth" = some (.header { Key := "X-Token", Value := ["a", "b"] }) ∧
    (headers.FromContext (fun k => k) "auth" (trackClient 200 none)
        (EmptyRequest.WithContext headerContext) {}).2.lastRequest.map
      (fun rq => HttpHeader.Values (fun k => k) rq.Header "X-Token") = some ["b"] ∧
    (∀ (canon : String → String) (h : HttpHeader) (key : String) (vs : List String) (v : String),
      HttpHeader.Values canon
        ((vs ++ [v]).foldl (fun hd x => HttpHeader.Set canon hd key x) h) key = [v]) := by
  refine ⟨rfl, by decide, ?_⟩
  intro canon h key vs v
  rw [List.foldl_append]
  exact HttpHeader.values_set canon _ key v

/-! ## URL parameters -/

theorem url.Param_apply {σ : Type} (key value : String) (next : Handler σ)
    (req : HttpRequest) (w : σ) :
    url.Param key value next req w
      = next { req with URL := { req.URL with Path := url.replace req.URL.Path key value } } w :=
  rfl

theorem url.Params_apply {σ : Type} (params : List (String × String)) (next : Handler σ)
    (req : HttpRequest) (w : σ) :
    url.Params params next req w
      = next { req with
          URL := { req.URL with
            Path := params.foldl (fun path kv => url.replace path kv.1 kv.2) req.URL.Path } }
          w :=
  rfl

/-- C24, as amended. `url.Params` applies the replacement of `url.Param` once
for each entry of the map, in the order in which the map is iterated: it does
what the `Param` middlewares of the entries do one after the other in that
order.  The resulting path is the same for two orders of the entries when the
replacements of the entries commute with each other. -/
theorem Params_applies_entries_in_iteration_order {σ : Type}
    (params : List (String × String)) (next : Handler σ) (req : HttpRequest) (w : σ) :
    url.Params params next req w
      = (params.map (fun kv => url.Param kv.1 kv.2)).foldr (fun m nx => m nx) next req w ∧
    (∀ reordered : List (String × String), params.Perm reordered →
      (∀ x ∈ params, ∀ y ∈ params, ∀ path : String,
        url.replace (url.replace path x.1 x.2) y.1 y.2
          = url.replace (url.replace path y.1 y.2) x.1 x.2) →
      url.Params reordered next req w = url.Params params next req w) := by
  refine ⟨?_, ?_⟩
  · induction params generalizing req with
    | nil =>
      rw [url.Params_apply]
      cases req
      rfl
    | cons kv rest ih =>
      have e : ((kv :: rest).map (fun kv => url.Param kv.1 kv.2)).foldr
            (fun m nx => m nx) next req w
          = (rest.map (fun kv => url.Param kv.1 kv.2)).foldr (fun m nx => m nx) next
              { req with URL := { req.URL with Path := url.replace req.URL.Path kv.1 kv.2 } }
              w := rfl
      rw [e, ← ih, url.Params_apply, url.Params_apply]
      rfl
  · intro reordered hperm hcomm
    rw [url.Params_apply, url.Params_apply,
      hperm.foldl_eq' (f := fun path kv => url.replace path kv.1 kv.2)
        (fun x hx y hy z => hcomm x hx y hy z) req.URL.Path]

/-- One parameter: `/users/:id` with `id` mapped to `7`. -/
theorem Params_applies_entries_in_iteration_order_witness :
    (url.Params [("id", "7")] (trackClient 200 none)
        { EmptyRequest with URL := { Path := "/users/:id" } } {}).2.lastRequest.map
      (fun rq => rq.URL.Path) = some "/users/7" := by
  rw [(Params_applies_entries_in_iteration_order [("id", "7")] (trackClient 200 none)
    { EmptyRequest with URL := { Path := "/users/:id" } } {}).1]
  decide

/-- C24, a counterexample: the map with the two entries `id: 1` and `idx: 2`
and the path `/:idx`.  Applied in the order `id`, `idx` the path becomes `/1x`;
applied in the order `idx`, `id` it becomes `/2`. -/
theorem Params_depends_on_iteration_order :
    [("id", "1"), ("idx", "2")].Perm [("idx", "2"), ("id", "1")] ∧
    (url.Params [("id", "1"), ("idx", "2")] (trackClient 200 none)
        { EmptyRequest with URL := { Path := "/:idx" } } {}).2.lastRequest.map
      (fun rq => rq.URL.Path) = some "/1x" ∧
    (url.Params [("idx", "2"), ("id", "1")] (trackClient 200 none)
        { EmptyRequest with URL := { Path := "/:idx" } } {}).2.lastRequest.map
      (fun rq => rq.URL.Path) = some "/2" ∧
    (url.Param "idx" "2" (url.Param "id" "1" (trackClient 200 none))
        { EmptyRequest with URL := { Path := "/:idx" } } {}).2.lastRequest.map
      (fun rq => rq.URL.Path) = some "/2" :=
  ⟨List.Perm.swap _ _ _, by decide, by decide, by decide⟩

end Kioto
